import Mathlib

/-!
# PlayWise music engine: embedding and verified properties

Shallow embedding of `src/src/playwise_engine.cpp`.

* A `Song *` is an address (`SongRef`) into a heap of `Song` records (`SongHeap`), so that the
  aliasing of one track by several index structures is kept.
* C++ `int` values are `Int`; no arithmetic of the engine comes near the 32-bit range
  (it would take 2^31 list nodes or plays), so no wrap-around is modelled.
* `std::vector` is `List`; an access outside the vector is undefined behaviour in C++ and is
  `none` here.
* Unbounded `while` loops and recursions carry a fuel argument; running out of fuel is `none`.
-/

namespace PlayWise

/-! ## Part 1: definitions -/

/-- Address of a heap-allocated `Song` object: the model of a non-null `Song *`. -/
abbrev SongRef := Nat

/-- Model of `class Song`. `added_time` is the tick count of the `time_point` taken at
construction. -/
structure Song where
  id : String
  title : String
  artist : String
  genre : String
  duration : Int
  rating : Int
  play_count : Int
  added_time : Int
deriving DecidableEq, Inhabited

/-- The heap of `Song` objects, read through a `Song *`. -/
abbrev SongHeap := SongRef → Song

/-- `Song::isCalmingGenre`: `::tolower` is applied to every character of the genre. -/
def Song.isCalmingGenre (s : Song) : Bool :=
  let lower_genre := String.mk (s.genre.data.map Char.toLower)
  lower_genre == "lo-fi" || lower_genre == "jazz" ||
    lower_genre == "classical" || lower_genre == "ambient" ||
    lower_genre == "chill" || lower_genre == "lofi"

/-! ### RecentlySkippedTracker -/

/-- Model of `class RecentlySkippedTracker`: the deque of ids, front first, and `max_size`. -/
structure RecentlySkippedTracker where
  skipped_songs : List String
  max_size : Nat

/-- The constructor `RecentlySkippedTracker(max_size)`. -/
def RecentlySkippedTracker.new (max_size : Nat) : RecentlySkippedTracker :=
  { skipped_songs := [], max_size := max_size }

/-- `RecentlySkippedTracker::addSkippedSong`: erase the first occurrence found by `std::find`,
`push_front`, then `pop_back` when the size exceeds `max_size`. -/
def RecentlySkippedTracker.addSkippedSong (t : RecentlySkippedTracker) (song_id : String) :
    RecentlySkippedTracker :=
  let erased := if song_id ∈ t.skipped_songs then t.skipped_songs.erase song_id
    else t.skipped_songs
  let pushed := song_id :: erased
  if pushed.length > t.max_size then { t with skipped_songs := pushed.dropLast }
  else { t with skipped_songs := pushed }

/-- `RecentlySkippedTracker::wasRecentlySkipped`. -/
def RecentlySkippedTracker.wasRecentlySkipped (t : RecentlySkippedTracker) (song_id : String) :
    Bool :=
  decide (song_id ∈ t.skipped_songs)

/-- `RecentlySkippedTracker::getRecentlySkipped`. -/
def RecentlySkippedTracker.getRecentlySkipped (t : RecentlySkippedTracker) : List String :=
  t.skipped_songs

/-- `RecentlySkippedTracker::clear`. -/
def RecentlySkippedTracker.clear (t : RecentlySkippedTracker) : RecentlySkippedTracker :=
  { t with skipped_songs := [] }

/-- `RecentlySkippedTracker::size`. -/
def RecentlySkippedTracker.size (t : RecentlySkippedTracker) : Nat :=
  t.skipped_songs.length

/-! ### SongRatingTree -/

/-- Model of `class RatingNode` together with the owning `left` / `right` pointers:
`nil` is `nullptr`. -/
inductive RatingNode where
  | nil : RatingNode
  | node (rating : Int) (songs : List SongRef) (left right : RatingNode) : RatingNode
deriving DecidableEq

/-- Model of `class SongRatingTree`. -/
structure SongRatingTree where
  root : RatingNode
deriving DecidableEq

/-- The constructor `SongRatingTree()`. -/
def SongRatingTree.empty : SongRatingTree := { root := RatingNode.nil }

/-- `SongRatingTree::insertHelper`. -/
def SongRatingTree.insertHelper : RatingNode → SongRef → Int → RatingNode
  | RatingNode.nil, song, rating => RatingNode.node rating [song] RatingNode.nil RatingNode.nil
  | RatingNode.node r songs left right, song, rating =>
    if rating = r then RatingNode.node r (songs ++ [song]) left right
    else if rating < r then RatingNode.node r songs (insertHelper left song rating) right
    else RatingNode.node r songs left (insertHelper right song rating)

/-- `SongRatingTree::searchHelper`: the node found, `RatingNode.nil` for `nullptr`. -/
def SongRatingTree.searchHelper : RatingNode → Int → RatingNode
  | RatingNode.nil, _ => RatingNode.nil
  | RatingNode.node r songs left right, rating =>
    if r = rating then RatingNode.node r songs left right
    else if rating < r then searchHelper left rating
    else searchHelper right rating

/-- `SongRatingTree::insert_song`: rejects ratings outside 1..5, otherwise writes the rating
field of the song and inserts the pointer into the tree. -/
def SongRatingTree.insert_song (heap : SongHeap) (t : SongRatingTree) (song : SongRef)
    (rating : Int) : SongHeap × SongRatingTree :=
  if rating < 1 ∨ rating > 5 then (heap, t)
  else
    (Function.update heap song { heap song with rating := rating },
     { root := SongRatingTree.insertHelper t.root song rating })

/-- `SongRatingTree::search_by_rating`. -/
def SongRatingTree.search_by_rating (t : SongRatingTree) (rating : Int) : List SongRef :=
  match SongRatingTree.searchHelper t.root rating with
  | RatingNode.nil => []
  | RatingNode.node _ songs _ _ => songs

/-- `SongRatingTree::deleteHelper` over a heap of songs: erases the first bucket entry whose id
matches, searching the node, then the left subtree, then the right one. -/
def SongRatingTree.deleteHelper (heap : SongHeap) : RatingNode → String → Bool × RatingNode
  | RatingNode.nil, _ => (false, RatingNode.nil)
  | RatingNode.node r songs left right, song_id =>
    match songs.findIdx? (fun s => (heap s).id == song_id) with
    | some i => (true, RatingNode.node r (songs.eraseIdx i) left right)
    | none =>
      match deleteHelper heap left song_id with
      | (true, left') => (true, RatingNode.node r songs left' right)
      | (false, _) =>
        match deleteHelper heap right song_id with
        | (found, right') => (found, RatingNode.node r songs left right')

/-- `SongRatingTree::delete_song`. -/
def SongRatingTree.delete_song (heap : SongHeap) (t : SongRatingTree) (song_id : String) :
    Bool × SongRatingTree :=
  match SongRatingTree.deleteHelper heap t.root song_id with
  | (found, root') => (found, { root := root' })

/-- `SongRatingTree::countHelper`: `counts[node->rating] = node->songs.size()` in
root-left-right order. -/
def SongRatingTree.countHelper : RatingNode → (Int → Option Int) → (Int → Option Int)
  | RatingNode.nil, counts => counts
  | RatingNode.node r songs left right, counts =>
    countHelper right (countHelper left (Function.update counts r (some (songs.length : Int))))

/-- `SongRatingTree::getSongCountByRating`; the `unordered_map<int,int>` is a function to
`Option`, with `none` for an absent key. -/
def SongRatingTree.getSongCountByRating (t : SongRatingTree) : Int → Option Int :=
  SongRatingTree.countHelper t.root (fun _ => none)

/-! ### PlaylistSorter -/

/-- Model of `enum SortCriteria`. -/
inductive SortCriteria where
  | TITLE_ASC
  | TITLE_DESC
  | DURATION_ASC
  | DURATION_DESC
  | RECENTLY_ADDED
deriving DecidableEq

/-- `PlaylistSorter::compare` on two `Song *` read through the heap. `std::string` compares
bytewise, which on UTF-8 text is the code-point order of `String`. -/
def PlaylistSorter.compare (heap : SongHeap) (a b : SongRef) : SortCriteria → Bool
  | SortCriteria.TITLE_ASC => decide ((heap a).title < (heap b).title)
  | SortCriteria.TITLE_DESC => decide ((heap a).title > (heap b).title)
  | SortCriteria.DURATION_ASC => decide ((heap a).duration < (heap b).duration)
  | SortCriteria.DURATION_DESC => decide ((heap a).duration > (heap b).duration)
  | SortCriteria.RECENTLY_ADDED => decide ((heap a).added_time > (heap b).added_time)

/-- The read `songs[i]` of a `std::vector<Song *>` at an `int` index; `none` outside the
vector. -/
def vecGet (songs : List SongRef) (i : Int) : Option SongRef :=
  if 0 ≤ i then songs[i.toNat]? else none

/-- The write `songs[i] = x`; `none` outside the vector. -/
def vecSet (songs : List SongRef) (i : Int) (x : SongRef) : Option (List SongRef) :=
  if 0 ≤ i ∧ i.toNat < songs.length then some (songs.set i.toNat x) else none

/-- Model of `std::swap(songs[i], songs[j])`. -/
def vecSwap (songs : List SongRef) (i j : Int) : Option (List SongRef) := do
  let a ← vecGet songs i
  let b ← vecGet songs j
  let songs1 ← vecSet songs i b
  vecSet songs1 j a

/-- The first `while` loop of `PlaylistSorter::merge`. The vector `temp` is represented by its
filled part `temp[0..k)`, so `temp[k++] = x` appends `x`. The fuel bounds the number of
iterations. -/
def PlaylistSorter.mergeLoop (heap : SongHeap) (criteria : SortCriteria) (songs : List SongRef)
    (mid right : Int) : Nat → Int → Int → List SongRef → Option (Int × Int × List SongRef)
  | 0, i, j, temp => if i ≤ mid ∧ j ≤ right then none else some (i, j, temp)
  | fuel + 1, i, j, temp =>
    if i ≤ mid ∧ j ≤ right then do
      let a ← vecGet songs i
      let b ← vecGet songs j
      if PlaylistSorter.compare heap a b criteria then
        mergeLoop heap criteria songs mid right fuel (i + 1) j (temp ++ [a])
      else
        mergeLoop heap criteria songs mid right fuel i (j + 1) (temp ++ [b])
    else some (i, j, temp)

/-- The loops `while (i <= mid) temp[k++] = songs[i++];` and
`while (j <= right) temp[k++] = songs[j++];` of `merge`, as `n` iterations from index `i`. -/
def PlaylistSorter.copyRest (songs : List SongRef) : Nat → Int → List SongRef →
    Option (List SongRef)
  | 0, _, temp => some temp
  | n + 1, i, temp => do
    let a ← vecGet songs i
    copyRest songs n (i + 1) (temp ++ [a])

/-- The loop `for (x = 0; x < k; x++) songs[left + x] = temp[x];` of `merge`, where `temp`
holds the entries `temp[x..k)` still to be written. -/
def PlaylistSorter.copyBack : List SongRef → Int → List SongRef → Option (List SongRef)
  | songs, _, [] => some songs
  | songs, pos, t :: temp => do
    let songs1 ← vecSet songs pos t
    copyBack songs1 (pos + 1) temp

/-- `PlaylistSorter::merge`. -/
def PlaylistSorter.merge (heap : SongHeap) (criteria : SortCriteria) (songs : List SongRef)
    (left mid right : Int) : Option (List SongRef) := do
  let (i, j, temp) ← PlaylistSorter.mergeLoop heap criteria songs mid right
    (right - left + 1).toNat left (mid + 1) []
  let temp1 ← PlaylistSorter.copyRest songs (mid - i + 1).toNat i temp
  let temp2 ← PlaylistSorter.copyRest songs (right - j + 1).toNat j temp1
  PlaylistSorter.copyBack songs left temp2

/-- `PlaylistSorter::mergeSortHelper`; the fuel bounds the recursion depth. -/
def PlaylistSorter.mergeSortHelper (heap : SongHeap) (criteria : SortCriteria) :
    Nat → List SongRef → Int → Int → Option (List SongRef)
  | 0, songs, left, right => if left ≥ right then some songs else none
  | fuel + 1, songs, left, right =>
    if left ≥ right then some songs
    else do
      let mid := left + (right - left).tdiv 2
      let songs1 ← mergeSortHelper heap criteria fuel songs left mid
      let songs2 ← mergeSortHelper heap criteria fuel songs1 (mid + 1) right
      PlaylistSorter.merge heap criteria songs2 left mid right

/-- `PlaylistSorter::mergeSort`: `songs.size() - 1` converted to `int` is `-1` for the empty
vector. -/
def PlaylistSorter.mergeSort (heap : SongHeap) (songs : List SongRef) (criteria : SortCriteria) :
    Option (List SongRef) :=
  PlaylistSorter.mergeSortHelper heap criteria songs.length songs 0 ((songs.length : Int) - 1)

/-- The `for` loop of `PlaylistSorter::partition`: `n` iterations from index `j`, carrying the
vector and `i`. -/
def PlaylistSorter.partitionLoop (heap : SongHeap) (criteria : SortCriteria) (pivot : SongRef) :
    Nat → List SongRef → Int → Int → Option (List SongRef × Int)
  | 0, songs, i, _ => some (songs, i)
  | n + 1, songs, i, j => do
    let sj ← vecGet songs j
    if PlaylistSorter.compare heap sj pivot criteria then
      let songs1 ← vecSwap songs (i + 1) j
      partitionLoop heap criteria pivot n songs1 (i + 1) (j + 1)
    else
      partitionLoop heap criteria pivot n songs i (j + 1)

/-- `PlaylistSorter::partition`: returns the vector and the pivot index. -/
def PlaylistSorter.partition (heap : SongHeap) (criteria : SortCriteria) (songs : List SongRef)
    (low high : Int) : Option (List SongRef × Int) := do
  let pivot ← vecGet songs high
  let (songs1, i) ← PlaylistSorter.partitionLoop heap criteria pivot (high - low).toNat songs
    (low - 1) low
  let songs2 ← vecSwap songs1 (i + 1) high
  some (songs2, i + 1)

/-- `PlaylistSorter::quickSortHelper`; the fuel bounds the recursion depth. -/
def PlaylistSorter.quickSortHelper (heap : SongHeap) (criteria : SortCriteria) :
    Nat → List SongRef → Int → Int → Option (List SongRef)
  | 0, songs, low, high => if low < high then none else some songs
  | fuel + 1, songs, low, high =>
    if low < high then do
      let (songs1, pi) ← PlaylistSorter.partition heap criteria songs low high
      let songs2 ← quickSortHelper heap criteria fuel songs1 low (pi - 1)
      quickSortHelper heap criteria fuel songs2 (pi + 1) high
    else some songs

/-- `PlaylistSorter::quickSort`. -/
def PlaylistSorter.quickSort (heap : SongHeap) (songs : List SongRef) (criteria : SortCriteria) :
    Option (List SongRef) :=
  PlaylistSorter.quickSortHelper heap criteria songs.length songs 0 ((songs.length : Int) - 1)

/-- Specification of `merge` on two runs: the list-level merge that `PlaylistSorter::merge`
computes, taking from the right run when `compare` is false (in particular on equal keys). -/
def PlaylistSorter.mergeLists (heap : SongHeap) (criteria : SortCriteria) :
    List SongRef → List SongRef → List SongRef
  | [], r => r
  | a :: l, [] => a :: l
  | a :: l, b :: r =>
    if PlaylistSorter.compare heap a b criteria then a :: mergeLists heap criteria l (b :: r)
    else b :: mergeLists heap criteria (a :: l) r
termination_by l r => l.length + r.length

/-! ### PlaylistEngine (doubly linked list) -/

/-- Model of `class PlaylistNode`; a `PlaylistNode *` is `Option Nat`, `none` for `nullptr`. -/
structure PlaylistNode where
  song : SongRef
  next : Option Nat
  prev : Option Nat
deriving DecidableEq

/-- Model of `class PlaylistEngine`. `mem` is the heap of list nodes (`none` at an address never
allocated or already deleted) and `fresh` the address the next `new PlaylistNode` returns. -/
structure PlaylistEngine where
  mem : Nat → Option PlaylistNode
  fresh : Nat
  head : Option Nat
  tail : Option Nat
  size : Int

/-- The constructor `PlaylistEngine()`. -/
def PlaylistEngine.empty : PlaylistEngine :=
  { mem := fun _ => none, fresh := 0, head := none, tail := none, size := 0 }

/-- Read of the node behind a pointer; `none` for a null or dangling pointer. -/
def PlaylistEngine.read (pl : PlaylistEngine) : Option Nat → Option PlaylistNode
  | none => none
  | some a => pl.mem a

/-- The assignment `p->next = v`. -/
def PlaylistEngine.setNext (pl : PlaylistEngine) (p v : Option Nat) : Option PlaylistEngine := do
  let a ← p
  let node ← pl.mem a
  some { pl with mem := Function.update pl.mem a (some { node with next := v }) }

/-- The assignment `p->prev = v`. -/
def PlaylistEngine.setPrev (pl : PlaylistEngine) (p v : Option Nat) : Option PlaylistEngine := do
  let a ← p
  let node ← pl.mem a
  some { pl with mem := Function.update pl.mem a (some { node with prev := v }) }

/-- The statement `delete p` for a non-null `p`. -/
def PlaylistEngine.free (pl : PlaylistEngine) (a : Nat) : Option PlaylistEngine := do
  let _ ← pl.mem a
  some { pl with mem := Function.update pl.mem a none }

/-- `PlaylistEngine::add_song`. -/
def PlaylistEngine.add_song (pl : PlaylistEngine) (song : SongRef) : Option PlaylistEngine := do
  let newNode := pl.fresh
  let pl0 : PlaylistEngine :=
    { pl with mem := Function.update pl.mem newNode (some { song := song, next := none, prev := none }),
              fresh := pl.fresh + 1 }
  match pl0.head with
  | none => some { pl0 with head := some newNode, tail := some newNode, size := pl0.size + 1 }
  | some _ =>
    let pl1 ← pl0.setNext pl0.tail (some newNode)
    let pl2 ← pl1.setPrev (some newNode) pl1.tail
    some { pl2 with tail := some newNode, size := pl2.size + 1 }

/-- The loop `for (...) current = current->next;` run `n` times. -/
def PlaylistEngine.walkNext (pl : PlaylistEngine) : Nat → Option Nat → Option (Option Nat)
  | 0, current => some current
  | n + 1, current => do
    let node ← pl.read current
    walkNext pl n node.next

/-- The loop `for (...) current = current->prev;` run `n` times. -/
def PlaylistEngine.walkPrev (pl : PlaylistEngine) : Nat → Option Nat → Option (Option Nat)
  | 0, current => some current
  | n + 1, current => do
    let node ← pl.read current
    walkPrev pl n node.prev

/-- `PlaylistEngine::getNodeAt`: the outer `Option` is `none` when a null or dangling pointer is
dereferenced on the way. -/
def PlaylistEngine.getNodeAt (pl : PlaylistEngine) (index : Int) : Option (Option Nat) :=
  if index < 0 ∨ index ≥ pl.size then some none
  else if index < pl.size.tdiv 2 then pl.walkNext index.toNat pl.head
  else pl.walkPrev (pl.size - 1 - index).toNat pl.tail

/-- The unlinking statements that `delete_song` and `move_song` both run on the node found:
`if (node->prev) node->prev->next = node->next; else head = node->next;` followed by
`if (node->next) node->next->prev = node->prev; else tail = node->prev;`. -/
def PlaylistEngine.unlink (pl : PlaylistEngine) (c : Nat) : Option PlaylistEngine := do
  let node ← pl.mem c
  let pl1 ← match node.prev with
    | some _ => pl.setNext node.prev node.next
    | none => some { pl with head := node.next }
  let node1 ← pl1.mem c
  match node1.next with
  | some _ => pl1.setPrev node1.next node1.prev
  | none => some { pl1 with tail := node1.prev }

/-- `PlaylistEngine::delete_song`. -/
def PlaylistEngine.delete_song (pl : PlaylistEngine) (index : Int) :
    Option (Bool × PlaylistEngine) :=
  if index < 0 ∨ index ≥ pl.size then some (false, pl)
  else do
    let current ← pl.getNodeAt index
    match current with
    | none => some (false, pl)
    | some c =>
      let pl2 ← pl.unlink c
      let pl3 ← pl2.free c
      some (true, { pl3 with size := pl3.size - 1 })

/-- The `to_index == 0` branch of `move_song` for the unlinked node `n`:
`node->prev = nullptr; node->next = head; if (head) head->prev = node; head = node;
if (!tail) tail = node;`. -/
def PlaylistEngine.linkFront (pl2 : PlaylistEngine) (n : Nat) : Option PlaylistEngine := do
  let pl3 ← pl2.setPrev (some n) none
  let pl4 ← pl3.setNext (some n) pl3.head
  let pl5 ← match pl4.head with
    | some _ => pl4.setPrev pl4.head (some n)
    | none => some pl4
  let pl6 : PlaylistEngine := { pl5 with head := some n }
  match pl6.tail with
  | none => some { pl6 with tail := some n }
  | some _ => some pl6

/-- The `to_index == size - 1` branch of `move_song` for the unlinked node `n`:
`node->next = nullptr; node->prev = tail; if (tail) tail->next = node; tail = node;`. -/
def PlaylistEngine.linkBack (pl2 : PlaylistEngine) (n : Nat) : Option PlaylistEngine := do
  let pl3 ← pl2.setNext (some n) none
  let pl4 ← pl3.setPrev (some n) pl3.tail
  let pl5 ← match pl4.tail with
    | some _ => pl4.setNext pl4.tail (some n)
    | none => some pl4
  some { pl5 with tail := some n }

/-- The last branch of `move_song` for the unlinked node `n` and the `target` found:
`node->next = target; node->prev = target->prev;
if (target->prev) target->prev->next = node; target->prev = node;`. The list head is not
assigned here. -/
def PlaylistEngine.linkBefore (pl2 : PlaylistEngine) (n : Nat) (target : Option Nat) :
    Option PlaylistEngine := do
  let pl3 ← pl2.setNext (some n) target
  let tnode ← pl3.read target
  let pl4 ← pl3.setPrev (some n) tnode.prev
  let tnode1 ← pl4.read target
  let pl5 ← match tnode1.prev with
    | some _ => pl4.setNext tnode1.prev (some n)
    | none => some pl4
  pl5.setPrev target (some n)

/-- `PlaylistEngine::move_song`. -/
def PlaylistEngine.move_song (pl : PlaylistEngine) (from_index to_index : Int) :
    Option (Bool × PlaylistEngine) :=
  if from_index < 0 ∨ from_index ≥ pl.size ∨ to_index < 0 ∨ to_index ≥ pl.size ∨
      from_index = to_index then some (false, pl)
  else do
    let found ← pl.getNodeAt from_index
    match found with
    | none => some (false, pl)
    | some n =>
      let pl2 ← pl.unlink n
      if to_index = 0 then do
        let pl3 ← pl2.linkFront n
        some (true, pl3)
      else if to_index = pl2.size - 1 then do
        let pl3 ← pl2.linkBack n
        some (true, pl3)
      else do
        let target ← pl2.getNodeAt to_index
        let pl3 ← pl2.linkBefore n target
        some (true, pl3)

/-- The `while (current)` loop of `PlaylistEngine::reverse_playlist`, for at most `fuel`
iterations. Each iteration swaps the two links of the current node and follows its old `next`
link, so on a list that is not well formed the loop can come back to a node it has already
swapped and leave it by the other link. -/
def PlaylistEngine.reverseLoop : Nat → PlaylistEngine → Option Nat → Option PlaylistEngine
  | _, pl, none => some pl
  | 0, _, some _ => none
  | fuel + 1, pl, some c => do
    let node ← pl.mem c
    let temp := node.prev
    let pl1 ← pl.setPrev (some c) node.next
    let pl2 ← pl1.setNext (some c) temp
    let node2 ← pl2.mem c
    reverseLoop fuel pl2 node2.prev

/-- The number of iterations after which the loop of `reverse_playlist` is cut off. While the
loop runs, each of the at most `fresh` nodes has its links either as at the start or swapped,
and `current` points to one of the nodes: these are at most `fresh * 2 ^ fresh` situations,
and a run that takes more iterations is twice in the same situation and never ends. -/
def PlaylistEngine.reverseFuel (pl : PlaylistEngine) : Nat :=
  (pl.fresh + 1) * 2 ^ pl.fresh

/-- `PlaylistEngine::reverse_playlist`; `none` when a dangling pointer is read or the loop
never ends. -/
def PlaylistEngine.reverse_playlist (pl : PlaylistEngine) : Option PlaylistEngine :=
  if pl.size ≤ 1 then some pl
  else do
    let pl1 ← PlaylistEngine.reverseLoop pl.reverseFuel pl pl.head
    some { pl1 with head := pl1.tail, tail := pl1.head }

/-- The `while (current)` loop of `PlaylistEngine::getAllSongs`, for at most `fuel`
iterations. The loop writes no link, so a walk over more nodes than were ever allocated passes
a node twice and never ends. -/
def PlaylistEngine.collect (pl : PlaylistEngine) :
    Nat → Option Nat → List SongRef → Option (List SongRef)
  | _, none, songs => some songs
  | 0, some _, _ => none
  | fuel + 1, some c, songs => do
    let node ← pl.mem c
    collect pl fuel node.next (songs ++ [node.song])

/-- `PlaylistEngine::getAllSongs`. -/
def PlaylistEngine.getAllSongs (pl : PlaylistEngine) : Option (List SongRef) :=
  pl.collect pl.fresh pl.head []

/-- `PlaylistEngine::getSize`. -/
def PlaylistEngine.getSize (pl : PlaylistEngine) : Int := pl.size

/-- The `while (head)` loop of `PlaylistEngine::clear`, for at most `fuel` iterations. Each
iteration deletes a node that was still allocated, so there are no more iterations than nodes
were ever allocated before a deleted node is read. -/
def PlaylistEngine.clearLoop : Nat → PlaylistEngine → Option PlaylistEngine
  | fuel, pl =>
    match pl.head with
    | none => some pl
    | some h =>
      match fuel with
      | 0 => none
      | fuel1 + 1 => do
        let node ← pl.mem h
        let pl1 : PlaylistEngine := { pl with head := node.next }
        let pl2 ← pl1.free h
        clearLoop fuel1 pl2

/-- `PlaylistEngine::clear`. -/
def PlaylistEngine.clear (pl : PlaylistEngine) : Option PlaylistEngine := do
  let pl1 ← PlaylistEngine.clearLoop pl.fresh pl
  some { pl1 with tail := none, size := 0 }

/-- `PlaylistEngine::rebuildFromVector`. -/
def PlaylistEngine.rebuildFromVector (pl : PlaylistEngine) (songs : List SongRef) :
    Option PlaylistEngine := do
  let pl1 ← pl.clear
  songs.foldlM PlaylistEngine.add_song pl1

/-- The playlist obtained from the empty one by `add_song` of each song in turn. -/
def PlaylistEngine.ofList (songs : List SongRef) : Option PlaylistEngine :=
  songs.foldlM PlaylistEngine.add_song PlaylistEngine.empty

/-! ### PlaybackHistory, InstantLookup, AutoReplayManager -/

/-- Model of `class PlaybackHistory`: the `std::stack`, top first. -/
structure PlaybackHistory where
  history : List SongRef

/-- `PlaybackHistory::play_song`. -/
def PlaybackHistory.play_song (h : PlaybackHistory) (song : SongRef) : PlaybackHistory :=
  { history := song :: h.history }

/-- `PlaybackHistory::undo_last_play`: the popped song (`none` for `nullptr`) and the stack. -/
def PlaybackHistory.undo_last_play (h : PlaybackHistory) : Option SongRef × PlaybackHistory :=
  match h.history with
  | [] => (none, h)
  | lastPlayed :: rest => (some lastPlayed, { history := rest })

/-- `PlaybackHistory::getRecentlyPlayed`. The loop compares with `static_cast<size_t>(n)`,
which for a negative `n` is larger than any stack, so that everything is returned. -/
def PlaybackHistory.getRecentlyPlayed (h : PlaybackHistory) (n : Int) : List SongRef :=
  if n < 0 then h.history else h.history.take n.toNat

/-- `PlaybackHistory::isEmpty`. -/
def PlaybackHistory.isEmpty (h : PlaybackHistory) : Bool := h.history.isEmpty

/-- Model of `class InstantLookup`: the two `unordered_map`s as functions to `Option`. -/
structure InstantLookup where
  id_map : String → Option SongRef
  title_map : String → Option (List SongRef)

/-- The constructor of `InstantLookup`. -/
def InstantLookup.empty : InstantLookup :=
  { id_map := fun _ => none, title_map := fun _ => none }

/-- `InstantLookup::add_song`. -/
def InstantLookup.add_song (heap : SongHeap) (l : InstantLookup) (song : SongRef) :
    InstantLookup :=
  { id_map := Function.update l.id_map (heap song).id (some song),
    title_map := Function.update l.title_map (heap song).title
      (some (((l.title_map (heap song).title).getD []) ++ [song])) }

/-- `InstantLookup::remove_song`. -/
def InstantLookup.remove_song (heap : SongHeap) (l : InstantLookup) (song_id : String) :
    InstantLookup :=
  match l.id_map song_id with
  | none => l
  | some song =>
    let title_songs := ((l.title_map (heap song).title).getD []).filter
      (fun s => !((heap s).id == song_id))
    { id_map := Function.update l.id_map song_id none,
      title_map := Function.update l.title_map (heap song).title
        (if title_songs.isEmpty then none else some title_songs) }

/-- `InstantLookup::lookup_by_id`; `none` for `nullptr`. -/
def InstantLookup.lookup_by_id (l : InstantLookup) (id : String) : Option SongRef :=
  l.id_map id

/-- `InstantLookup::lookup_by_title`. -/
def InstantLookup.lookup_by_title (l : InstantLookup) (title : String) : List SongRef :=
  (l.title_map title).getD []

/-- Model of `class AutoReplayManager`; `replay_queue` is the `std::queue`, front first. -/
structure AutoReplayManager where
  play_counts : String → Option Int
  replay_queue : List SongRef
  auto_replay_enabled : Bool
  replay_cycles : Int

/-- The constructor `AutoReplayManager()`. -/
def AutoReplayManager.new : AutoReplayManager :=
  { play_counts := fun _ => none, replay_queue := [], auto_replay_enabled := true,
    replay_cycles := 0 }

/-- `AutoReplayManager::recordPlay` for a non-null song: `play_counts[song->id]++` and
`song->play_count++`. -/
def AutoReplayManager.recordPlay (heap : SongHeap) (m : AutoReplayManager) (song : SongRef) :
    SongHeap × AutoReplayManager :=
  let count := (m.play_counts (heap song).id).getD 0
  (Function.update heap song { heap song with play_count := (heap song).play_count + 1 },
   { m with play_counts := Function.update m.play_counts (heap song).id (some (count + 1)) })

/-- The filter loop of `getTopCalmingSongs`: `play_counts[song->id]` creates a zero entry for a
calming song not yet counted. -/
def AutoReplayManager.filterCalming (heap : SongHeap) :
    List SongRef → (String → Option Int) → List (Int × SongRef) →
      (String → Option Int) × List (Int × SongRef)
  | [], counts, acc => (counts, acc)
  | song :: rest, counts, acc =>
    if (heap song).isCalmingGenre then
      let n := (counts (heap song).id).getD 0
      let counts1 := Function.update counts (heap song).id (some n)
      if n > 0 then filterCalming heap rest counts1 (acc ++ [(n, song)])
      else filterCalming heap rest counts1 acc
    else filterCalming heap rest counts acc

/-- The comparator passed to `std::sort` in `getTopCalmingSongs`. -/
def AutoReplayManager.before (heap : SongHeap) (a b : Int × SongRef) : Bool :=
  if a.1 = b.1 then decide ((heap a.2).added_time > (heap b.2).added_time)
  else decide (a.1 > b.1)

/-- `AutoReplayManager::getTopCalmingSongs`. `std::sort` leaves the order of entries that the
comparator does not separate unspecified; the model keeps them in their input order. -/
def AutoReplayManager.getTopCalmingSongs (heap : SongHeap) (m : AutoReplayManager)
    (all_songs : List SongRef) (top_n : Int) : List SongRef × AutoReplayManager :=
  let (counts, calming_songs) := AutoReplayManager.filterCalming heap all_songs m.play_counts []
  let sorted := calming_songs.insertionSort
    (fun a b => AutoReplayManager.before heap b a = false)
  ((sorted.take (min top_n (calming_songs.length : Int)).toNat).map (fun q => q.2),
   { m with play_counts := counts })

/-- `AutoReplayManager::setupAutoReplay`. -/
def AutoReplayManager.setupAutoReplay (heap : SongHeap) (m : AutoReplayManager)
    (all_songs : List SongRef) : AutoReplayManager :=
  if !m.auto_replay_enabled then m
  else
    let m1 : AutoReplayManager := { m with replay_queue := [] }
    let (top_calming, m2) := AutoReplayManager.getTopCalmingSongs heap m1 all_songs 3
    if !top_calming.isEmpty then
      { m2 with replay_queue := m2.replay_queue ++ top_calming,
                replay_cycles := m2.replay_cycles + 1 }
    else m2

/-- `AutoReplayManager::getNextReplaySong`. -/
def AutoReplayManager.getNextReplaySong (m : AutoReplayManager) :
    Option SongRef × AutoReplayManager :=
  match m.replay_queue with
  | [] => (none, m)
  | song :: rest => (some song, { m with replay_queue := rest ++ [song] })

/-! ### PlayWiseEngine -/

/-- Model of `class PlayWiseEngine`. `heap` holds the `Song` objects the engine owns and
`next_song` is the address the next `new Song` returns. -/
structure PlayWiseEngine where
  heap : SongHeap
  next_song : Nat
  playlist : PlaylistEngine
  history : PlaybackHistory
  ratingTree : SongRatingTree
  lookup : InstantLookup
  skipped_tracker : RecentlySkippedTracker
  replay_manager : AutoReplayManager
  songDatabase : List SongRef
  current_song : Option SongRef
  playlist_ended : Bool

/-- The constructor `PlayWiseEngine()`. -/
def PlayWiseEngine.new : PlayWiseEngine :=
  { heap := fun _ => default, next_song := 0, playlist := PlaylistEngine.empty,
    history := { history := [] }, ratingTree := SongRatingTree.empty,
    lookup := InstantLookup.empty, skipped_tracker := RecentlySkippedTracker.new 10,
    replay_manager := AutoReplayManager.new, songDatabase := [], current_song := none,
    playlist_ended := false }

/-- `PlayWiseEngine::addSong`; `now` is the value of `system_clock::now()` read by the `Song`
constructor. Returns the new `Song *`. -/
def PlayWiseEngine.addSong (e : PlayWiseEngine) (now : Int) (id title artist : String)
    (duration rating : Int) (genre : String) : Option (SongRef × PlayWiseEngine) := do
  let song := e.next_song
  let heap1 := Function.update e.heap song
    { id := id, title := title, artist := artist, genre := genre, duration := duration,
      rating := rating, play_count := 0, added_time := now }
  let playlist1 ← e.playlist.add_song song
  let lookup1 := InstantLookup.add_song heap1 e.lookup song
  let e1 : PlayWiseEngine :=
    { e with heap := heap1, next_song := e.next_song + 1,
             songDatabase := e.songDatabase ++ [song], playlist := playlist1,
             lookup := lookup1 }
  if rating > 0 then
    let r := SongRatingTree.insert_song e1.heap e1.ratingTree song rating
    some (song, { e1 with heap := r.1, ratingTree := r.2 })
  else some (song, e1)

/-- `PlayWiseEngine::playSong`. -/
def PlayWiseEngine.playSong (e : PlayWiseEngine) (song_id : String) : PlayWiseEngine :=
  match e.lookup.lookup_by_id song_id with
  | some song =>
    let r := AutoReplayManager.recordPlay e.heap e.replay_manager song
    { e with current_song := some song, history := e.history.play_song song,
             heap := r.1, replay_manager := r.2, playlist_ended := false }
  | none => e

/-- `PlayWiseEngine::skipCurrentSong`. -/
def PlayWiseEngine.skipCurrentSong (e : PlayWiseEngine) : PlayWiseEngine :=
  match e.current_song with
  | some song =>
    { e with skipped_tracker := e.skipped_tracker.addSkippedSong (e.heap song).id,
             current_song := none }
  | none => e

/-- `PlayWiseEngine::checkAndHandlePlaylistEnd`. -/
def PlayWiseEngine.checkAndHandlePlaylistEnd (e : PlayWiseEngine) :
    Option (Bool × PlayWiseEngine) := do
  let all_songs ← e.playlist.getAllSongs
  if all_songs.isEmpty then
    let e1 : PlayWiseEngine := { e with playlist_ended := true }
    if e1.replay_manager.auto_replay_enabled then
      let m1 := AutoReplayManager.setupAutoReplay e1.heap e1.replay_manager e1.songDatabase
      let r := m1.getNextReplaySong
      let e2 : PlayWiseEngine := { e1 with replay_manager := r.2 }
      match r.1 with
      | some replay_song => some (false, e2.playSong (e2.heap replay_song).id)
      | none => some (true, e2)
    else some (true, e1)
  else some (false, e)

/-- `PlayWiseEngine::autoPlayNext`: the returned `Song *` (`none` for `nullptr`) and the
engine. -/
def PlayWiseEngine.autoPlayNext (e : PlayWiseEngine) :
    Option (Option SongRef × PlayWiseEngine) := do
  let all_songs ← e.playlist.getAllSongs
  match all_songs.find? (fun song => !e.skipped_tracker.wasRecentlySkipped (e.heap song).id) with
  | some song => some (some song, e.playSong (e.heap song).id)
  | none =>
    if all_songs.isEmpty then some (none, e)
    else do
      let (ended, e1) ← e.checkAndHandlePlaylistEnd
      if ended then some (none, e1)
      else
        match all_songs with
        | first :: _ => some (some first, e1.playSong (e1.heap first).id)
        | [] => some (none, e1)

/-- `PlayWiseEngine::undoLastPlay`. -/
def PlayWiseEngine.undoLastPlay (e : PlayWiseEngine) : Option PlayWiseEngine :=
  match e.history.undo_last_play with
  | (some song, history1) => do
    let playlist1 ← e.playlist.add_song song
    some { e with history := history1, playlist := playlist1 }
  | (none, history1) => some { e with history := history1 }

/-- `PlayWiseEngine::sortPlaylist`. -/
def PlayWiseEngine.sortPlaylist (e : PlayWiseEngine) (criteria : SortCriteria)
    (useQuickSort : Bool) : Option PlayWiseEngine := do
  let songs ← e.playlist.getAllSongs
  let sorted ← if useQuickSort then PlaylistSorter.quickSort e.heap songs criteria
    else PlaylistSorter.mergeSort e.heap songs criteria
  let playlist1 ← e.playlist.rebuildFromVector sorted
  some { e with playlist := playlist1 }

/-! ### Representation invariant of the doubly linked list -/

/-- The `prev` pointer expected in the node at position `k` of a list laid out at `addrs`. -/
def prevPtr (addrs : List Nat) (k : Nat) : Option Nat :=
  if k = 0 then none else addrs[k - 1]?

/-- The linking part of the representation invariant: the live nodes at the pairwise distinct
addresses `addrs`, in this order, are linked in both directions and hold `songs`. -/
structure PlaylistEngine.Linked (pl : PlaylistEngine) (addrs : List Nat) (songs : List SongRef) :
    Prop where
  len : addrs.length = songs.length
  nodup : addrs.Nodup
  bound : ∀ a ∈ addrs, a < pl.fresh
  head_eq : pl.head = addrs[0]?
  tail_eq : pl.tail = addrs[addrs.length - 1]?
  node : ∀ (k a : Nat) (s : SongRef), addrs[k]? = some a → songs[k]? = some s →
    pl.mem a = some { song := s, next := addrs[k + 1]?, prev := prevPtr addrs k }

/-- Representation invariant of `PlaylistEngine`: the nodes are linked as `Linked` says and
`size` is the number of nodes. -/
structure PlaylistEngine.Repr (pl : PlaylistEngine) (addrs : List Nat) (songs : List SongRef)
    extends PlaylistEngine.Linked pl addrs songs : Prop where
  size_eq : pl.size = (songs.length : Int)

/-- The position at which `move_song` links the moved node into the list of the other
`n - 1` nodes: `getNodeAt` still works with the size `n` from before the removal, so from the
tail it stops one node early. -/
def moveLanding (n to_index : Nat) : Nat :=
  if to_index = 0 then 0
  else if to_index = n - 1 then n - 1
  else if to_index < n / 2 then to_index
  else to_index - 1

/-! ### Engine operations and reachable states -/

/-- The operations a caller can run on the engine and on the playlist it exposes through
`getPlaylist()`. -/
inductive EngineOp where
  | addSong (now : Int) (id title artist : String) (duration rating : Int) (genre : String)
  | playSong (song_id : String)
  | skipCurrentSong
  | autoPlayNext
  | undoLastPlay
  | sortPlaylist (criteria : SortCriteria) (useQuickSort : Bool)
  | move_song (from_index to_index : Int)
  | delete_song (index : Int)
  | reverse_playlist

/-- One operation on the engine; `none` when the C++ code would dereference a null or dangling
pointer or loop forever. -/
def PlayWiseEngine.step (e : PlayWiseEngine) : EngineOp → Option PlayWiseEngine
  | EngineOp.addSong now id title artist duration rating genre =>
    (e.addSong now id title artist duration rating genre).map (fun r => r.2)
  | EngineOp.playSong song_id => some (e.playSong song_id)
  | EngineOp.skipCurrentSong => some e.skipCurrentSong
  | EngineOp.autoPlayNext => e.autoPlayNext.map (fun r => r.2)
  | EngineOp.undoLastPlay => e.undoLastPlay
  | EngineOp.sortPlaylist criteria useQuickSort => e.sortPlaylist criteria useQuickSort
  | EngineOp.move_song from_index to_index =>
    (e.playlist.move_song from_index to_index).map (fun r => { e with playlist := r.2 })
  | EngineOp.delete_song index =>
    (e.playlist.delete_song index).map (fun r => { e with playlist := r.2 })
  | EngineOp.reverse_playlist =>
    e.playlist.reverse_playlist.map (fun pl => { e with playlist := pl })

/-- A sequence of operations, from left to right. -/
def PlayWiseEngine.run (e : PlayWiseEngine) (ops : List EngineOp) : Option PlayWiseEngine :=
  ops.foldlM PlayWiseEngine.step e

/-- The operations under which the playing order stays free of duplicates: `undoLastPlay` only
when the track it pops is not in the sequence, and no `move_song` to index 1 of a sequence of
three (where the moved node is not linked to the head). -/
def PlayWiseEngine.admits (e : PlayWiseEngine) : EngineOp → Bool
  | EngineOp.undoLastPlay =>
    match e.history.history, e.playlist.getAllSongs with
    | [], _ => true
    | song :: _, some songs => decide (song ∉ songs)
    | _ :: _, none => false
  | EngineOp.move_song _ to_index => !(decide (e.playlist.size = 3) && decide (to_index = 1))
  | _ => true

/-- Every operation of the sequence is admitted in the state in which it is run. -/
def PlayWiseEngine.admitsAll : PlayWiseEngine → List EngineOp → Bool
  | _, [] => true
  | e, op :: rest =>
    e.admits op &&
      match e.step op with
      | some e1 => admitsAll e1 rest
      | none => false

/-- Invariant of the engine states considered: the playlist is a well-formed list of pairwise
different tracks, and every `Song *` held by the playlist, the history and the id map points
to a song the engine has allocated. -/
structure PlayWiseEngine.Inv (e : PlayWiseEngine) (addrs : List Nat) (songs : List SongRef) :
    Prop where
  repr : e.playlist.Repr addrs songs
  nodup : songs.Nodup
  songs_lt : ∀ x ∈ songs, x < e.next_song
  history_lt : ∀ x ∈ e.history.history, x < e.next_song
  lookup_lt : ∀ (id : String) (x : SongRef), e.lookup.id_map id = some x → x < e.next_song
  db_lt : ∀ x ∈ e.songDatabase, x < e.next_song

/-- A sequence of operations for examples: four tracks, a play, a move, a sort, a removal, an
undo of the play of the removed track, a reversal, a skip and an automatic play. -/
def sampleOps : List EngineOp :=
  [EngineOp.addSong 0 "a" "A" "x" 100 3 "Rock", EngineOp.addSong 1 "b" "B" "y" 90 0 "Jazz",
   EngineOp.addSong 2 "c" "C" "z" 80 5 "Pop", EngineOp.addSong 3 "d" "D" "w" 70 1 "Pop",
   EngineOp.playSong "b", EngineOp.move_song 0 2,
   EngineOp.sortPlaylist SortCriteria.DURATION_ASC true, EngineOp.delete_song 2,
   EngineOp.undoLastPlay, EngineOp.reverse_playlist, EngineOp.skipCurrentSong,
   EngineOp.autoPlayNext]

/-- An engine state for examples: one Jazz track that has been played once and then removed
from the playlist, so that the Ordered Sequence is empty. -/
def emptiedEngine : Option PlayWiseEngine :=
  PlayWiseEngine.new.run [EngineOp.addSong 0 "a" "A" "x" 100 0 "Jazz", EngineOp.playSong "a",
    EngineOp.delete_song 0]

/-- The playlist `pl` is a well-formed doubly linked list holding `songs` in this order. -/
def PlaylistEngine.Represents (pl : PlaylistEngine) (songs : List SongRef) : Prop :=
  ∃ addrs, pl.Repr addrs songs

/-- A playlist for examples: the three nodes at addresses 0, 1, 2 holding the songs 10, 11,
12. -/
def samplePlaylist : PlaylistEngine :=
  { mem := fun a =>
      if a = 0 then some { song := 10, next := some 1, prev := none }
      else if a = 1 then some { song := 11, next := some 2, prev := some 0 }
      else if a = 2 then some { song := 12, next := none, prev := some 1 }
      else none,
    fresh := 3, head := some 0, tail := some 2, size := 3 }

/-- A sequence of `insert_song` calls on the Rating Index, from left to right, each given as
the track and the rating. -/
def SongRatingTree.insertAll (heap : SongHeap) (t : SongRatingTree) :
    List (SongRef × Int) → SongHeap × SongRatingTree
  | [] => (heap, t)
  | (song, rating) :: rest =>
    SongRatingTree.insertAll (SongRatingTree.insert_song heap t song rating).1
      (SongRatingTree.insert_song heap t song rating).2 rest

/-- The edits under which every track of the playing order is found under its id: `addSong`
with an id that the Identity Index does not hold yet, `delete_song`, and `move_song` other than
to index 1 of a sequence of three. -/
def PlayWiseEngine.admitsEdit (e : PlayWiseEngine) : EngineOp → Bool
  | EngineOp.addSong _ id _ _ _ _ _ => (e.lookup.lookup_by_id id).isNone
  | EngineOp.delete_song _ => true
  | EngineOp.move_song from_index to_index => e.admits (EngineOp.move_song from_index to_index)
  | _ => false

/-- Every operation of the sequence is an edit admitted in the state in which it is run. -/
def PlayWiseEngine.admitsAllEdits : PlayWiseEngine → List EngineOp → Bool
  | _, [] => true
  | e, op :: rest =>
    e.admitsEdit op &&
      match e.step op with
      | some e1 => admitsAllEdits e1 rest
      | none => false

/-- An engine state for examples: two tracks added under the same id "a". -/
def twinEngine : Option PlayWiseEngine :=
  PlayWiseEngine.new.run [EngineOp.addSong 0 "a" "A" "x" 100 0 "Rock",
    EngineOp.addSong 1 "a" "B" "y" 90 0 "Pop"]

/-- An engine state for examples: three tracks, of which the first two were played and
skipped. -/
def skippedEngine : Option PlayWiseEngine :=
  PlayWiseEngine.new.run [EngineOp.addSong 0 "a" "A" "x" 100 0 "Rock",
    EngineOp.addSong 1 "b" "B" "y" 90 0 "Pop", EngineOp.addSong 2 "c" "C" "z" 80 0 "Jazz",
    EngineOp.playSong "a", EngineOp.skipCurrentSong, EngineOp.playSong "b",
    EngineOp.skipCurrentSong]

/-! ### Specifications and examples for the indexes, the tracker and the replay selector -/

/-- The Identity Index after `add_song` of each track of the list, first to last, on an
empty index. -/
def InstantLookup.addAll (heap : SongHeap) (songs : List SongRef) : InstantLookup :=
  songs.foldl (InstantLookup.add_song heap) InstantLookup.empty

/-- A heap for examples of the Identity Index: the songs at addresses 0, 1 and 2 all have the
title `"same"`, every other song has the title `"other"`, and the id is the address. -/
def titleHeap : SongHeap := fun n =>
  { id := toString n, title := if n < 3 then "same" else "other", artist := "", genre := "",
    duration := 0, rating := 0, play_count := 0, added_time := 0 }

/-- The buckets of a tree with their ratings, in root-left-right order. -/
def RatingNode.buckets : RatingNode → List (Int × List SongRef)
  | RatingNode.nil => []
  | RatingNode.node r songs left right => (r, songs) :: (left.buckets ++ right.buckets)

/-- The tree with every bucket emptied: the nodes, their ratings and their links. -/
def RatingNode.skeleton : RatingNode → RatingNode
  | RatingNode.nil => RatingNode.nil
  | RatingNode.node r _ left right => RatingNode.node r [] left.skeleton right.skeleton

/-- The ratings of the nodes of a tree, in root-left-right order. -/
def RatingNode.keys : RatingNode → List Int
  | RatingNode.nil => []
  | RatingNode.node r _ left right => r :: (left.keys ++ right.keys)

/-- The binary-search-tree ordering: every rating in the left subtree of a node is smaller
than the rating of the node and every rating in its right subtree is larger. -/
def RatingNode.IsSearchTree : RatingNode → Prop
  | RatingNode.nil => True
  | RatingNode.node r _ left right =>
    (∀ k ∈ left.keys, k < r) ∧ (∀ k ∈ right.keys, r < k) ∧
      left.IsSearchTree ∧ right.IsSearchTree

/-- What a deletion is expected to do to the list of buckets: in the first bucket that has an
entry satisfying `p`, the first such entry is erased. -/
def eraseFirstEntry (p : SongRef → Bool) :
    List (Int × List SongRef) → List (Int × List SongRef)
  | [] => []
  | b :: rest =>
    if b.2.any p then (b.1, b.2.eraseP p) :: rest else b :: eraseFirstEntry p rest

/-- A call on the Rating Index: `insert_song(song, rating)` or `delete_song(song_id)`. -/
inductive RatingOp where
  | insert_song (song : SongRef) (rating : Int)
  | delete_song (song_id : String)

/-- One call on the Rating Index; the result of `delete_song` is dropped. -/
def SongRatingTree.applyOp (st : SongHeap × SongRatingTree) : RatingOp → SongHeap × SongRatingTree
  | RatingOp.insert_song song rating => SongRatingTree.insert_song st.1 st.2 song rating
  | RatingOp.delete_song song_id => (st.1, (SongRatingTree.delete_song st.1 st.2 song_id).2)

/-- The heap and the Rating Index after a sequence of calls on an empty index. -/
def SongRatingTree.runOps (heap : SongHeap) (ops : List RatingOp) : SongHeap × SongRatingTree :=
  ops.foldl SongRatingTree.applyOp (heap, SongRatingTree.empty)

/-- The count `displaySnapshot` prints for a rating from the map that `getSongCountByRating`
returned: the entry of the rating, and 0 when `find` reaches `end()`. -/
def PlayWiseEngine.ratingCountShown (rating_counts : Int → Option Int) (rating : Int) : Int :=
  match rating_counts rating with
  | some count => count
  | none => 0

/-- The count `play_counts[song->id]` reads for a song: 0 when the id has no entry. -/
def AutoReplayManager.playCount (heap : SongHeap) (m : AutoReplayManager) (song : SongRef) :
    Int :=
  (m.play_counts (heap song).id).getD 0

/-- The test of the filter loop of `getTopCalmingSongs` on the manager the call starts from:
`song->isCalmingGenre() && play_counts[song->id] > 0`. -/
def AutoReplayManager.isCandidate (heap : SongHeap) (m : AutoReplayManager) (song : SongRef) :
    Bool :=
  (heap song).isCalmingGenre && decide (m.playCount heap song > 0)

/-- The ranking asked of the result of `getTopCalmingSongs`: `a` may stand before `b` when it
has more plays, or as many plays and a creation time that is not earlier. -/
def AutoReplayManager.ranksBefore (heap : SongHeap) (m : AutoReplayManager) (a b : SongRef) :
    Prop :=
  m.playCount heap a > m.playCount heap b ∨
    (m.playCount heap a = m.playCount heap b ∧ (heap a).added_time ≥ (heap b).added_time)

/-- A heap for examples of the Replay Selector: the song at address 0 is a `"Jazz"` track, the
one at address 2 a `"lo-FI"` track created later, every other song a `"Rock"` track. -/
def moodHeap : SongHeap := fun n =>
  { id := toString n, title := toString n, artist := "",
    genre := if n = 0 then "Jazz" else if n = 2 then "lo-FI" else "Rock",
    duration := 0, rating := 0, play_count := 0, added_time := n }

/-- The heap and the Replay Selector after song 0 was played twice and song 1 once. -/
def moodManager : SongHeap × AutoReplayManager :=
  let s1 := AutoReplayManager.recordPlay moodHeap AutoReplayManager.new 0
  let s2 := AutoReplayManager.recordPlay s1.1 s1.2 0
  AutoReplayManager.recordPlay s2.1 s2.2 1

/-- The Replay Selector of `moodManager` after `setupAutoReplay` on the songs 0 and 1: its
queue holds song 0. -/
def replayingManager : AutoReplayManager :=
  AutoReplayManager.setupAutoReplay moodManager.1 moodManager.2 [0, 1]

/-! ### Specifications and examples for the engine operations -/

/-- The results of `n` consecutive `getNextReplaySong` calls, first call first, and the Replay
Selector after them. -/
def AutoReplayManager.nextSongs (m : AutoReplayManager) :
    Nat → List (Option SongRef) × AutoReplayManager
  | 0 => ([], m)
  | n + 1 =>
    ((m.getNextReplaySong).1 :: ((m.getNextReplaySong).2.nextSongs n).1,
      ((m.getNextReplaySong).2.nextSongs n).2)

/-- What holds in every engine state reached from the constructor, whatever the playlist looks
like: the Recency Tracker has the capacity 10 it was constructed with, and the id map sends an
id only to an allocated song that carries this id. -/
structure PlayWiseEngine.Wf (e : PlayWiseEngine) : Prop where
  capacity : e.skipped_tracker.max_size = 10
  lookup_id : ∀ (id : String) (x : SongRef), e.lookup.id_map id = some x →
    x < e.next_song ∧ (e.heap x).id = id

/-- A sequence of operations for examples: two tracks, of which the second is played, then the
first. -/
def playedOps : List EngineOp :=
  [EngineOp.addSong 0 "a" "A" "x" 100 3 "Rock", EngineOp.addSong 1 "b" "B" "y" 90 0 "Jazz",
   EngineOp.playSong "b", EngineOp.playSong "a"]

/-- Model of `struct SystemSnapshot`. -/
structure PlayWiseEngine.SystemSnapshot where
  top_longest_songs : List SongRef
  recently_played : List SongRef
  rating_counts : Int → Option Int
  total_songs : Int
  playlist_size : Int

/-- `PlayWiseEngine::export_snapshot`: the snapshot, together with the engine, to which no
statement of the function assigns (the sort runs on the copy `allSongs`). -/
def PlayWiseEngine.export_snapshot (e : PlayWiseEngine) :
    Option (PlayWiseEngine.SystemSnapshot × PlayWiseEngine) := do
  let allSongs ← PlaylistSorter.quickSort e.heap e.songDatabase SortCriteria.DURATION_DESC
  let top_longest_songs := allSongs.take (min 5 (allSongs.length : Int)).toNat
  some ({ top_longest_songs := top_longest_songs,
          recently_played := e.history.getRecentlyPlayed 5,
          rating_counts := e.ratingTree.getSongCountByRating,
          total_songs := (e.songDatabase.length : Int),
          playlist_size := e.playlist.getSize }, e)

/-- The playlist after `add_song` of the songs 1, 2, 3 and `move_song(0, 1)`, of which C12
shows that it returns true: the node of song 1 is linked before the node of song 2, which is
still the head, so `getAllSongs` is `[2, 3]` while `getSize` is 3. -/
def movedPlaylist : Option PlaylistEngine :=
  (PlaylistEngine.ofList [1, 2, 3]).bind (fun pl => (pl.move_song 0 1).map (fun r => r.2))

/-- The operations that lead the engine to a playlist whose tail node is deleted: three
tracks, a play, `move_song(0, 1)`, a reversal and `delete_song(2)`. -/
def danglingTailOps : List EngineOp :=
  [EngineOp.addSong 0 "a" "A" "x" 100 0 "Rock", EngineOp.addSong 1 "b" "B" "y" 90 0 "Pop",
   EngineOp.addSong 2 "c" "C" "z" 80 0 "Jazz", EngineOp.playSong "a", EngineOp.move_song 0 1,
   EngineOp.reverse_playlist, EngineOp.delete_song 2]

/-! ### The loop of `reverse_playlist` seen as a walk over finitely many situations -/

/-- A node with its two links exchanged, as an iteration of the loop of `reverse_playlist`
leaves the node it visits. -/
def PlaylistNode.swapLinks (nd : PlaylistNode) : PlaylistNode :=
  { song := nd.song, next := nd.prev, prev := nd.next }

/-- The memory `mem` with the links exchanged in the nodes at the addresses in `swapped`. -/
def swappedMem (mem : Nat → Option PlaylistNode) (swapped : Finset Nat) (a : Nat) :
    Option PlaylistNode :=
  if a ∈ swapped then (mem a).map PlaylistNode.swapLinks else mem a

/-- One iteration of the loop of `reverse_playlist` on the set of nodes whose links are
exchanged and the pointer `current`: the node is exchanged once more and `current` moves along
the link that was its `next`. The result is `none` after the read of a deleted node, and a
null `current` stays as it is. -/
def reverseStep (mem : Nat → Option PlaylistNode) :
    Option (Finset Nat × Option Nat) → Option (Finset Nat × Option Nat)
  | none => none
  | some (swapped, none) => some (swapped, none)
  | some (swapped, some c) =>
    match swappedMem mem swapped c with
    | none => none
    | some node => some (if c ∈ swapped then swapped.erase c else insert c swapped, node.next)

/-- The situations in which the loop of `reverse_playlist` can be while it runs on a memory
with `fresh` allocated addresses: a set of exchanged nodes and a non-null `current`. -/
def reverseSituations (fresh : Nat) : Finset (Option (Finset Nat × Option Nat)) :=
  ((Finset.range fresh).powerset ×ˢ Finset.range fresh).image (fun p => some (p.1, some p.2))

/-- Every allocated node lies below `fresh`, the address that the next `new PlaylistNode`
returns. -/
def PlaylistEngine.Allocated (pl : PlaylistEngine) : Prop :=
  ∀ a nd, pl.mem a = some nd → a < pl.fresh

/-- The playlist `pl1` has the allocation counter of `pl` and no node that `pl` has not. -/
def PlaylistEngine.NoNewNodes (pl pl1 : PlaylistEngine) : Prop :=
  pl1.fresh = pl.fresh ∧ ∀ a, (pl1.mem a).isSome = true → (pl.mem a).isSome = true

/-- A heap for examples: the song at address `n` has duration `n / 10`, creation time `n` and
id and title the decimal numeral of `n`. -/
def sampleHeap : SongHeap := fun n =>
  { id := toString n, title := toString n, artist := "", genre := "Unknown",
    duration := (n / 10 : Nat), rating := 0, play_count := 0, added_time := n }

/-! ## Part 2: theorems -/

/-! ### Recency tracker -/

theorem RecentlySkippedTracker.addSkippedSong_max_size (t : RecentlySkippedTracker)
    (song_id : String) : (t.addSkippedSong song_id).max_size = t.max_size := by
  unfold RecentlySkippedTracker.addSkippedSong
  simp only []
  split_ifs <;> rfl

theorem RecentlySkippedTracker.addSkippedSong_inv (t : RecentlySkippedTracker)
    (song_id : String) (hlen : t.skipped_songs.length ≤ t.max_size)
    (hnd : t.skipped_songs.Nodup) :
    (t.addSkippedSong song_id).skipped_songs.length ≤ t.max_size ∧
      (t.addSkippedSong song_id).skipped_songs.Nodup := by
  unfold RecentlySkippedTracker.addSkippedSong
  by_cases hmem : song_id ∈ t.skipped_songs
  · have hpos : 0 < t.skipped_songs.length := List.length_pos_of_mem hmem
    have hlen2 : (song_id :: t.skipped_songs.erase song_id).length = t.skipped_songs.length := by
      rw [List.length_cons, List.length_erase_of_mem hmem]; omega
    have hnd2 : (song_id :: t.skipped_songs.erase song_id).Nodup := by
      refine List.nodup_cons.mpr ⟨?_, hnd.erase _⟩
      exact fun h => ((List.Nodup.mem_erase_iff hnd).mp h).1 rfl
    simp only [hmem, if_true]
    rw [if_neg (by omega)]
    exact ⟨le_of_eq_of_le hlen2 hlen, hnd2⟩
  · have hnd2 : (song_id :: t.skipped_songs).Nodup := List.nodup_cons.mpr ⟨hmem, hnd⟩
    simp only [hmem, if_false]
    by_cases hgt : (song_id :: t.skipped_songs).length > t.max_size
    · rw [if_pos hgt]
      refine ⟨?_, hnd2.sublist (List.dropLast_sublist _)⟩
      simp only [List.length_dropLast, List.length_cons]
      omega
    · rw [if_neg hgt]
      exact ⟨Nat.le_of_not_gt hgt, hnd2⟩

theorem RecentlySkippedTracker.foldl_inv (ids : List String) :
    ∀ t : RecentlySkippedTracker, t.skipped_songs.length ≤ t.max_size → t.skipped_songs.Nodup →
      (ids.foldl RecentlySkippedTracker.addSkippedSong t).max_size = t.max_size ∧
      (ids.foldl RecentlySkippedTracker.addSkippedSong t).skipped_songs.length ≤ t.max_size ∧
      (ids.foldl RecentlySkippedTracker.addSkippedSong t).skipped_songs.Nodup := by
  induction ids with
  | nil => intro t h1 h2; exact ⟨rfl, h1, h2⟩
  | cons x rest ih =>
    intro t h1 h2
    have hstep := RecentlySkippedTracker.addSkippedSong_inv t x h1 h2
    have hmax := RecentlySkippedTracker.addSkippedSong_max_size t x
    have := ih (t.addSkippedSong x) (by rw [hmax]; exact hstep.1) hstep.2
    simpa [List.foldl, hmax] using this

/-- C10: starting from an empty Recency Tracker of capacity `c`, after any sequence of
`addSkippedSong` calls the buffer holds at most `c` ids and no id twice. -/
theorem C10_recency_tracker_invariant (c : Nat) (ids : List String) :
    (ids.foldl RecentlySkippedTracker.addSkippedSong
        (RecentlySkippedTracker.new c)).getRecentlySkipped.length ≤ c ∧
      (ids.foldl RecentlySkippedTracker.addSkippedSong
        (RecentlySkippedTracker.new c)).getRecentlySkipped.Nodup := by
  have h := RecentlySkippedTracker.foldl_inv ids (RecentlySkippedTracker.new c)
    (by simp [RecentlySkippedTracker.new]) (by simp [RecentlySkippedTracker.new])
  exact ⟨h.2.1, h.2.2⟩

/-! ### Sorter: the comparison is a strict weak order -/

theorem PlaylistSorter.compare_asymm (heap : SongHeap) (c : SortCriteria) (a b : SongRef)
    (h : PlaylistSorter.compare heap a b c = true) : PlaylistSorter.compare heap b a c = false := by
  cases c <;> simp only [PlaylistSorter.compare, decide_eq_true_eq, decide_eq_false_iff_not,
    gt_iff_lt] at h ⊢ <;> exact lt_asymm h

theorem PlaylistSorter.compare_trans (heap : SongHeap) (c : SortCriteria) (x y z : SongRef)
    (h1 : PlaylistSorter.compare heap x y c = true)
    (h2 : PlaylistSorter.compare heap y z c = true) :
    PlaylistSorter.compare heap x z c = true := by
  cases c <;> simp only [PlaylistSorter.compare, decide_eq_true_eq, gt_iff_lt] at h1 h2 ⊢
  · exact lt_trans h1 h2
  · exact lt_trans h2 h1
  · exact lt_trans h1 h2
  · exact lt_trans h2 h1
  · exact lt_trans h2 h1

theorem PlaylistSorter.compare_negtrans (heap : SongHeap) (c : SortCriteria) (x y z : SongRef)
    (h1 : PlaylistSorter.compare heap x y c = false)
    (h2 : PlaylistSorter.compare heap y z c = false) :
    PlaylistSorter.compare heap x z c = false := by
  cases c <;> simp only [PlaylistSorter.compare, decide_eq_false_iff_not, gt_iff_lt,
    not_lt] at h1 h2 ⊢
  · exact le_trans h2 h1
  · exact le_trans h1 h2
  · exact le_trans h2 h1
  · exact le_trans h1 h2
  · exact le_trans h1 h2

/-! ### Sorter: vector reads and writes on a split list -/

theorem vecGet_natCast (songs : List SongRef) (n : Nat) : vecGet songs (n : Int) = songs[n]? := by
  simp [vecGet]

theorem vecGet_split (pre post : List SongRef) (x : SongRef) (i : Int)
    (hi : i = (pre.length : Int)) : vecGet (pre ++ x :: post) i = some x := by
  subst hi
  rw [vecGet_natCast, List.getElem?_append_right (le_refl _)]
  simp

theorem vecSet_split (pre post : List SongRef) (x y : SongRef) (i : Int)
    (hi : i = (pre.length : Int)) :
    vecSet (pre ++ x :: post) i y = some (pre ++ y :: post) := by
  subst hi
  simp [vecSet]

theorem vecSwap_same (pre post : List SongRef) (x : SongRef) (i : Int)
    (hi : i = (pre.length : Int)) :
    vecSwap (pre ++ x :: post) i i = some (pre ++ x :: post) := by
  simp [vecSwap, vecGet_split pre post x i hi, vecSet_split pre post x x i hi]

theorem vecSwap_split (u v w : List SongRef) (x y : SongRef) (i j : Int)
    (hi : i = (u.length : Int)) (hj : j = (u.length : Int) + 1 + (v.length : Int)) :
    vecSwap (u ++ x :: (v ++ y :: w)) i j = some (u ++ y :: (v ++ x :: w)) := by
  have hj2 : j = ((u ++ x :: v).length : Int) := by
    rw [hj]; simp only [List.length_append, List.length_cons]; push_cast; ring
  have hj3 : j = ((u ++ y :: v).length : Int) := by
    rw [hj]; simp only [List.length_append, List.length_cons]; push_cast; ring
  have e1 : u ++ x :: (v ++ y :: w) = (u ++ x :: v) ++ y :: w := by simp
  have e2 : u ++ y :: (v ++ y :: w) = (u ++ y :: v) ++ y :: w := by simp
  have e3 : u ++ y :: (v ++ x :: w) = (u ++ y :: v) ++ x :: w := by simp
  have g1 : vecGet (u ++ x :: (v ++ y :: w)) i = some x := vecGet_split u _ x i hi
  have g2 : vecGet (u ++ x :: (v ++ y :: w)) j = some y := by
    rw [e1]; exact vecGet_split _ w y j hj2
  have s1 : vecSet (u ++ x :: (v ++ y :: w)) i y = some (u ++ y :: (v ++ y :: w)) :=
    vecSet_split u _ x y i hi
  have s2 : vecSet (u ++ y :: (v ++ y :: w)) j x = some (u ++ y :: (v ++ x :: w)) := by
    rw [e2, e3]; exact vecSet_split _ w y x j hj3
  simp [vecSwap, g1, g2, s1, s2]

/-! ### Merge sort: the loops of `merge` -/

theorem PlaylistSorter.copyRest_split (w : List SongRef) :
    ∀ (v u temp songs : List SongRef) (i : Int), songs = u ++ v ++ w → i = (u.length : Int) →
      PlaylistSorter.copyRest songs v.length i temp = some (temp ++ v) := by
  intro v
  induction v with
  | nil => intro u temp songs i _ _; simp [PlaylistSorter.copyRest]
  | cons a v ih =>
    intro u temp songs i hs hi
    have hg : vecGet songs i = some a := by
      rw [hs, List.append_assoc]; exact vecGet_split u _ a i hi
    have := ih (u ++ [a]) (temp ++ [a]) songs (i + 1) (by simp [hs]) (by simp [hi])
    simp [PlaylistSorter.copyRest, hg, this]

theorem PlaylistSorter.copyBack_split (w : List SongRef) :
    ∀ (temp v u songs : List SongRef) (pos : Int), songs = u ++ v ++ w →
      v.length = temp.length → pos = (u.length : Int) →
      PlaylistSorter.copyBack songs pos temp = some (u ++ temp ++ w) := by
  intro temp
  induction temp with
  | nil =>
    intro v u songs pos hs hl _
    have : v = [] := List.length_eq_zero.mp hl
    simp [PlaylistSorter.copyBack, hs, this]
  | cons t temp ih =>
    intro v u songs pos hs hl hp
    cases v with
    | nil => simp at hl
    | cons x v =>
      have hset : vecSet songs pos t = some (u ++ t :: (v ++ w)) := by
        rw [hs, List.append_assoc]; exact vecSet_split u _ x t pos hp
      have := ih v (u ++ [t]) (u ++ t :: (v ++ w)) (pos + 1) (by simp)
        (by simpa using hl) (by simp [hp])
      simp [PlaylistSorter.copyBack, hset, this]

theorem PlaylistSorter.mergeLists_nil_right (heap : SongHeap) (c : SortCriteria)
    (l : List SongRef) : PlaylistSorter.mergeLists heap c l [] = l := by
  cases l <;> simp [PlaylistSorter.mergeLists]

theorem PlaylistSorter.mergeLoop_spec (heap : SongHeap) (c : SortCriteria)
    (pre post songs : List SongRef) (mid right : Int) :
    ∀ (fuel : Nat) (l1 l2 r1 r2 temp : List SongRef) (i j : Int),
      songs = pre ++ l1 ++ l2 ++ r1 ++ r2 ++ post →
      l2.length + r2.length ≤ fuel →
      i = (pre.length : Int) + l1.length →
      j = (pre.length : Int) + l1.length + l2.length + r1.length →
      mid = (pre.length : Int) + l1.length + l2.length - 1 →
      right = (pre.length : Int) + l1.length + l2.length + r1.length + r2.length - 1 →
      ∃ i1 j1 temp1 temp2,
        PlaylistSorter.mergeLoop heap c songs mid right fuel i j temp = some (i1, j1, temp1) ∧
        PlaylistSorter.copyRest songs (mid - i1 + 1).toNat i1 temp1 = some temp2 ∧
        PlaylistSorter.copyRest songs (right - j1 + 1).toNat j1 temp2 =
          some (temp ++ PlaylistSorter.mergeLists heap c l2 r2) := by
  intro fuel
  induction fuel with
  | zero =>
    intro l1 l2 r1 r2 temp i j hs hf hi hj hm hr
    have hl2 : l2 = [] := List.length_eq_zero.mp (by omega)
    have hr2 : r2 = [] := List.length_eq_zero.mp (by omega)
    subst hl2 hr2
    simp only [List.length_nil, Nat.cast_zero, add_zero] at hj hm hr
    refine ⟨i, j, temp, temp, ?_, ?_, ?_⟩
    · have : ¬ (i ≤ mid ∧ j ≤ right) := by omega
      simp [PlaylistSorter.mergeLoop, this]
    · have : (mid - i + 1).toNat = 0 := by omega
      simp [this, PlaylistSorter.copyRest]
    · have : (right - j + 1).toNat = 0 := by omega
      simp [this, PlaylistSorter.copyRest, PlaylistSorter.mergeLists]
  | succ n ih =>
    intro l1 l2 r1 r2 temp i j hs hf hi hj hm hr
    cases l2 with
    | nil =>
      simp only [List.length_nil, Nat.cast_zero, add_zero] at hj hm hr
      refine ⟨i, j, temp, temp, ?_, ?_, ?_⟩
      · have : ¬ (i ≤ mid ∧ j ≤ right) := by omega
        simp [PlaylistSorter.mergeLoop, this]
      · have : (mid - i + 1).toNat = 0 := by omega
        simp [this, PlaylistSorter.copyRest]
      · have e : (right - j + 1).toNat = r2.length := by omega
        rw [e]
        simp only [PlaylistSorter.mergeLists]
        exact PlaylistSorter.copyRest_split post r2 (pre ++ l1 ++ r1) temp songs j
          (by simp [hs]) (by simp [hj]; omega)
    | cons a l2 =>
      cases r2 with
      | nil =>
        simp only [List.length_nil, List.length_cons, Nat.cast_zero, add_zero, Nat.cast_add,
          Nat.cast_one] at hj hm hr
        refine ⟨i, j, temp, temp ++ a :: l2, ?_, ?_, ?_⟩
        · have : ¬ (i ≤ mid ∧ j ≤ right) := by omega
          simp [PlaylistSorter.mergeLoop, this]
        · have e : (mid - i + 1).toNat = (a :: l2).length := by
            simp only [List.length_cons]; omega
          rw [e]
          exact PlaylistSorter.copyRest_split (r1 ++ post) (a :: l2) (pre ++ l1) temp songs i
            (by simp [hs]) (by simp [hi])
        · have : (right - j + 1).toNat = 0 := by omega
          simp [this, PlaylistSorter.copyRest, PlaylistSorter.mergeLists]
      | cons b r2 =>
        simp only [List.length_cons, Nat.cast_add, Nat.cast_one] at hf hj hm hr
        have hcond : i ≤ mid ∧ j ≤ right := by omega
        have hga : vecGet songs i = some a := by
          have : songs = (pre ++ l1) ++ a :: (l2 ++ r1 ++ b :: r2 ++ post) := by simp [hs]
          rw [this]; exact vecGet_split _ _ a i (by simp [hi])
        have hgb : vecGet songs j = some b := by
          have : songs = (pre ++ l1 ++ a :: l2 ++ r1) ++ b :: (r2 ++ post) := by simp [hs]
          rw [this]; exact vecGet_split _ _ b j (by simp [hj]; omega)
        by_cases hc : PlaylistSorter.compare heap a b c = true
        · obtain ⟨i1, j1, t1, t2, h1, h2, h3⟩ := ih (l1 ++ [a]) l2 r1 (b :: r2) (temp ++ [a])
            (i + 1) j (by simp [hs]) (by simp only [List.length_cons]; omega)
            (by simp [hi]; omega) (by simp [hj]; omega) (by simp [hm]; omega)
            (by simp [hr]; omega)
          refine ⟨i1, j1, t1, t2, ?_, h2, ?_⟩
          · simp [PlaylistSorter.mergeLoop, hcond, hga, hgb, hc, h1]
          · rw [h3]; simp [PlaylistSorter.mergeLists, hc]
        · obtain ⟨i1, j1, t1, t2, h1, h2, h3⟩ := ih l1 (a :: l2) (r1 ++ [b]) r2 (temp ++ [b])
            i (j + 1) (by simp [hs]) (by simp only [List.length_cons]; omega)
            (by simp [hi]) (by simp [hj]; omega) (by simp [hm])
            (by simp [hr]; omega)
          refine ⟨i1, j1, t1, t2, ?_, h2, ?_⟩
          · simp [PlaylistSorter.mergeLoop, hcond, hga, hgb, hc, h1]
          · rw [h3]; simp [PlaylistSorter.mergeLists, hc]

theorem PlaylistSorter.mergeLists_perm (heap : SongHeap) (c : SortCriteria) :
    ∀ l r : List SongRef, (PlaylistSorter.mergeLists heap c l r).Perm (l ++ r) := by
  intro l
  induction l with
  | nil => intro r; simp [PlaylistSorter.mergeLists]
  | cons a l ihl =>
    intro r
    induction r with
    | nil => simp [PlaylistSorter.mergeLists]
    | cons b r ihr =>
      rw [PlaylistSorter.mergeLists]
      split
      · exact (ihl (b :: r)).cons a
      · refine (ihr.cons b).trans ?_
        exact (@List.perm_middle _ b (a :: l) r).symm

/-- Refinement of `merge`: on a vector split as `pre ++ l ++ r ++ post` with `left`, `mid`,
`right` the bounds of the two runs, `merge` returns `pre ++ mergeLists l r ++ post`. -/
theorem PlaylistSorter.merge_spec (heap : SongHeap) (c : SortCriteria)
    (pre l r post songs : List SongRef) (left mid right : Int)
    (hs : songs = pre ++ l ++ r ++ post) (hl : left = (pre.length : Int))
    (hm : mid = (pre.length : Int) + l.length - 1)
    (hr : right = (pre.length : Int) + l.length + r.length - 1) :
    PlaylistSorter.merge heap c songs left mid right =
      some (pre ++ PlaylistSorter.mergeLists heap c l r ++ post) := by
  obtain ⟨i1, j1, t1, t2, h1, h2, h3⟩ := PlaylistSorter.mergeLoop_spec heap c pre post songs mid
    right (right - left + 1).toNat [] l [] r [] left (mid + 1) (by simp [hs]) (by omega)
    (by simp [hl]) (by simp [hm]) (by simp [hm]) (by simp [hr])
  have hlen : (l ++ r).length = (PlaylistSorter.mergeLists heap c l r).length :=
    ((PlaylistSorter.mergeLists_perm heap c l r).length_eq).symm
  have hb := PlaylistSorter.copyBack_split post (PlaylistSorter.mergeLists heap c l r) (l ++ r)
    pre songs left (by simp [hs]) hlen hl
  simp only [List.nil_append] at h3
  simp [PlaylistSorter.merge, h1, h2, h3, hb]

/-- Ordered by the criterion: no later element compares before an earlier one. -/
theorem PlaylistSorter.mergeLists_sorted (heap : SongHeap) (c : SortCriteria) :
    ∀ l r : List SongRef,
      l.Pairwise (fun x y => PlaylistSorter.compare heap y x c = false) →
      r.Pairwise (fun x y => PlaylistSorter.compare heap y x c = false) →
      (PlaylistSorter.mergeLists heap c l r).Pairwise
        (fun x y => PlaylistSorter.compare heap y x c = false) := by
  intro l
  induction l with
  | nil => intro r _ hr; simpa [PlaylistSorter.mergeLists] using hr
  | cons a l ihl =>
    intro r
    induction r with
    | nil => intro hl _; simpa [PlaylistSorter.mergeLists] using hl
    | cons b r ihr =>
      intro hl hr
      rw [PlaylistSorter.mergeLists]
      have hl2 := List.pairwise_cons.mp hl
      have hr2 := List.pairwise_cons.mp hr
      split
      · rename_i hc
        have hab : PlaylistSorter.compare heap b a c = false :=
          PlaylistSorter.compare_asymm heap c a b hc
        refine List.pairwise_cons.mpr ⟨?_, ihl (b :: r) hl2.2 hr⟩
        intro y hy
        rcases List.mem_append.mp ((PlaylistSorter.mergeLists_perm heap c l (b :: r)).mem_iff.mp hy)
          with hy | hy
        · exact hl2.1 y hy
        · rcases List.mem_cons.mp hy with hy | hy
          · rw [hy]; exact hab
          · exact PlaylistSorter.compare_negtrans heap c y b a (hr2.1 y hy) hab
      · rename_i hc
        have hab : PlaylistSorter.compare heap a b c = false := by simpa using hc
        refine List.pairwise_cons.mpr ⟨?_, ihr hl hr2.2⟩
        intro y hy
        rcases List.mem_append.mp ((PlaylistSorter.mergeLists_perm heap c (a :: l) r).mem_iff.mp hy)
          with hy | hy
        · rcases List.mem_cons.mp hy with hy | hy
          · rw [hy]; exact hab
          · exact PlaylistSorter.compare_negtrans heap c y a b (hl2.1 y hy) hab
        · exact hr2.1 y hy

/-! ### Merge sort: the recursion -/

theorem PlaylistSorter.mergeSortHelper_spec (heap : SongHeap) (c : SortCriteria) :
    ∀ (fuel : Nat) (songs pre seg post : List SongRef) (left right : Int),
      songs = pre ++ seg ++ post → left = (pre.length : Int) →
      right = (pre.length : Int) + seg.length - 1 → seg.length ≤ fuel →
      ∃ seg1, PlaylistSorter.mergeSortHelper heap c fuel songs left right =
          some (pre ++ seg1 ++ post) ∧ seg1.Perm seg ∧
        seg1.Pairwise (fun x y => PlaylistSorter.compare heap y x c = false) := by
  intro fuel
  induction fuel with
  | zero =>
    intro songs pre seg post left right hs hl hr hf
    have hseg : seg = [] := List.length_eq_zero.mp (by omega)
    subst hseg
    refine ⟨[], ?_, List.Perm.refl _, List.Pairwise.nil⟩
    have : left ≥ right := by simp at hr; omega
    simp [PlaylistSorter.mergeSortHelper, this, hs]
  | succ n ih =>
    intro songs pre seg post left right hs hl hr hf
    by_cases hge : left ≥ right
    · refine ⟨seg, ?_, List.Perm.refl _, ?_⟩
      · simp [PlaylistSorter.mergeSortHelper, hge, hs]
      · have hlen : seg.length ≤ 1 := by omega
        match seg, hlen with
        | [], _ => exact List.Pairwise.nil
        | [x], _ => exact List.pairwise_singleton _ _
    · have hlen : 2 ≤ seg.length := by omega
      have hdiv : (right - left).tdiv 2 = (right - left) / 2 :=
        Int.tdiv_eq_ediv (by omega) (by omega)
      obtain ⟨m, hm⟩ : ∃ m : Nat, m = (seg.length - 1) / 2 := ⟨_, rfl⟩
      have hmid : left + (right - left).tdiv 2 = (pre.length : Int) + m := by
        rw [hdiv]; omega
      have hsplit : seg = seg.take (m + 1) ++ seg.drop (m + 1) := (List.take_append_drop _ _).symm
      have hlt : (seg.take (m + 1)).length = m + 1 := by
        rw [List.length_take]; omega
      have hld : (seg.drop (m + 1)).length = seg.length - (m + 1) := List.length_drop _ _
      obtain ⟨l1, h1, p1, s1⟩ := ih songs pre (seg.take (m + 1)) (seg.drop (m + 1) ++ post)
        left (left + (right - left).tdiv 2)
        (by rw [hs]; conv_lhs => rw [hsplit]
            simp only [List.append_assoc])
        hl (by rw [hmid, hlt]; push_cast; omega) (by omega)
      have hl1 : l1.length = m + 1 := by rw [p1.length_eq, hlt]
      obtain ⟨r1, h2, p2, s2⟩ := ih (pre ++ l1 ++ (seg.drop (m + 1) ++ post)) (pre ++ l1)
        (seg.drop (m + 1)) post (left + (right - left).tdiv 2 + 1) right
        (by simp only [List.append_assoc])
        (by rw [hmid]; simp [hl1]; omega)
        (by rw [hr, hld]; simp [hl1]; omega) (by omega)
      have hr1 : r1.length = seg.length - (m + 1) := by rw [p2.length_eq, hld]
      have h3 := PlaylistSorter.merge_spec heap c pre l1 r1 post (pre ++ l1 ++ r1 ++ post) left
        (left + (right - left).tdiv 2) right rfl hl (by rw [hmid, hl1]; push_cast; omega)
        (by rw [hr, hl1, hr1]; omega)
      refine ⟨PlaylistSorter.mergeLists heap c l1 r1, ?_, ?_,
        PlaylistSorter.mergeLists_sorted heap c l1 r1 s1 s2⟩
      · simp only [PlaylistSorter.mergeSortHelper, hge, if_false, h1, Option.bind_eq_bind,
          Option.some_bind, h2, h3]
      · refine (PlaylistSorter.mergeLists_perm heap c l1 r1).trans ?_
        refine (p1.append p2).trans ?_
        rw [List.take_append_drop]

/-- C8: `mergeSort` returns, for every input and every criterion, a permutation of the input
in which no later element compares before an earlier one. -/
theorem C8_mergeSort_sorts (heap : SongHeap) (songs : List SongRef) (c : SortCriteria) :
    ∃ out, PlaylistSorter.mergeSort heap songs c = some out ∧ out.Perm songs ∧
      out.Pairwise (fun x y => PlaylistSorter.compare heap y x c = false) := by
  obtain ⟨out, h, hp, hsorted⟩ := PlaylistSorter.mergeSortHelper_spec heap c songs.length songs []
    songs [] 0 ((songs.length : Int) - 1) (by simp) (by simp) (by simp) (le_refl _)
  exact ⟨out, by simpa [PlaylistSorter.mergeSort] using h, hp, hsorted⟩

/-! ### Quicksort: the partition loop -/

theorem PlaylistSorter.partitionLoop_spec (heap : SongHeap) (c : SortCriteria) (p : SongRef)
    (pre post : List SongRef) :
    ∀ (rest A B songs : List SongRef) (i j : Int),
      songs = pre ++ A ++ B ++ rest ++ [p] ++ post →
      i = (pre.length : Int) + A.length - 1 →
      j = (pre.length : Int) + A.length + B.length →
      (∀ a ∈ A, PlaylistSorter.compare heap a p c = true) →
      (∀ b ∈ B, PlaylistSorter.compare heap b p c = false) →
      ∃ A1 B1, PlaylistSorter.partitionLoop heap c p rest.length songs i j =
          some (pre ++ A1 ++ B1 ++ [p] ++ post, (pre.length : Int) + A1.length - 1) ∧
        (A1 ++ B1).Perm (A ++ B ++ rest) ∧
        (∀ a ∈ A1, PlaylistSorter.compare heap a p c = true) ∧
        (∀ b ∈ B1, PlaylistSorter.compare heap b p c = false) := by
  intro rest
  induction rest with
  | nil =>
    intro A B songs i j hs hi _ hA hB
    refine ⟨A, B, ?_, by simp, hA, hB⟩
    simp [PlaylistSorter.partitionLoop, hs, hi]
  | cons x rest ih =>
    intro A B songs i j hs hi hj hA hB
    have hg : vecGet songs j = some x := by
      have : songs = (pre ++ A ++ B) ++ x :: (rest ++ [p] ++ post) := by simp [hs]
      rw [this]; exact vecGet_split _ _ x j (by simp [hj]; omega)
    by_cases hc : PlaylistSorter.compare heap x p c = true
    · cases B with
      | nil =>
        have hsw : vecSwap songs (i + 1) j = some songs := by
          have e : songs = (pre ++ A) ++ x :: (rest ++ [p] ++ post) := by simp [hs]
          have hij : i + 1 = j := by simp at hj; omega
          rw [hij]
          conv_lhs => rw [e]
          rw [vecSwap_same _ _ x j (by simp [hj])]
          rw [← e]
        obtain ⟨A1, B1, h1, hp, hA1, hB1⟩ := ih (A ++ [x]) [] songs (i + 1) (j + 1)
          (by simp [hs]) (by simp [hi]; omega) (by simp [hj]; omega)
          (by intro a ha
              rcases List.mem_append.mp ha with ha | ha
              · exact hA a ha
              · rw [List.mem_singleton.mp ha]; exact hc)
          (by simp)
        refine ⟨A1, B1, ?_, ?_, hA1, hB1⟩
        · simp [PlaylistSorter.partitionLoop, hg, hc, hsw, h1]
        · refine hp.trans ?_
          simp
      | cons b0 B =>
        have hsw : vecSwap songs (i + 1) j =
            some ((pre ++ A) ++ x :: (B ++ b0 :: (rest ++ [p] ++ post))) := by
          have e : songs = (pre ++ A) ++ b0 :: (B ++ x :: (rest ++ [p] ++ post)) := by simp [hs]
          rw [e]
          exact vecSwap_split _ _ _ b0 x (i + 1) j (by simp [hi]) (by simp [hj]; omega)
        obtain ⟨A1, B1, h1, hp, hA1, hB1⟩ := ih (A ++ [x]) (B ++ [b0])
          ((pre ++ A) ++ x :: (B ++ b0 :: (rest ++ [p] ++ post))) (i + 1) (j + 1)
          (by simp) (by simp [hi]; omega) (by simp [hj]; omega)
          (by intro a ha
              rcases List.mem_append.mp ha with ha | ha
              · exact hA a ha
              · rw [List.mem_singleton.mp ha]; exact hc)
          (by intro b hb
              rcases List.mem_append.mp hb with hb | hb
              · exact hB b (List.mem_cons_of_mem _ hb)
              · rw [List.mem_singleton.mp hb]; exact hB b0 (List.mem_cons_self _ _))
        refine ⟨A1, B1, ?_, ?_, hA1, hB1⟩
        · simp only [PlaylistSorter.partitionLoop, List.length_cons, hg, hc, hsw,
            Option.bind_eq_bind, Option.some_bind, if_true, h1]
        · refine hp.trans ?_
          have e1 : A ++ [x] ++ (B ++ [b0]) ++ rest = A ++ (x :: (B ++ b0 :: rest)) := by simp
          have e2 : A ++ b0 :: B ++ x :: rest = A ++ (b0 :: (B ++ x :: rest)) := by simp
          rw [e1, e2]
          refine List.Perm.append_left A ?_
          have q1 : (x :: (B ++ b0 :: rest)).Perm (x :: b0 :: (B ++ rest)) :=
            (List.perm_middle).cons x
          have q2 : (b0 :: (B ++ x :: rest)).Perm (b0 :: x :: (B ++ rest)) :=
            (List.perm_middle).cons b0
          exact q1.trans ((List.Perm.swap b0 x _).trans q2.symm)
    · have hc2 : PlaylistSorter.compare heap x p c = false := by simpa using hc
      obtain ⟨A1, B1, h1, hp, hA1, hB1⟩ := ih A (B ++ [x]) songs i (j + 1)
        (by simp [hs]) hi (by simp [hj]; omega) hA
        (by intro b hb
            rcases List.mem_append.mp hb with hb | hb
            · exact hB b hb
            · rw [List.mem_singleton.mp hb]; exact hc2)
      refine ⟨A1, B1, ?_, ?_, hA1, hB1⟩
      · simp [PlaylistSorter.partitionLoop, hg, hc2, h1]
      · refine hp.trans ?_
        simp

/-- Effect of `partition` on a segment `body ++ [p]` whose last element is the pivot. -/
theorem PlaylistSorter.partition_spec (heap : SongHeap) (c : SortCriteria) (p : SongRef)
    (pre body post songs : List SongRef) (low high : Int)
    (hs : songs = pre ++ (body ++ [p]) ++ post) (hl : low = (pre.length : Int))
    (hh : high = (pre.length : Int) + body.length) :
    ∃ A B, PlaylistSorter.partition heap c songs low high =
        some (pre ++ A ++ [p] ++ B ++ post, (pre.length : Int) + A.length) ∧
      (A ++ B).Perm body ∧
      (∀ a ∈ A, PlaylistSorter.compare heap a p c = true) ∧
      (∀ b ∈ B, PlaylistSorter.compare heap b p c = false) := by
  have hpiv : vecGet songs high = some p := by
    have : songs = (pre ++ body) ++ p :: post := by simp [hs]
    rw [this]; exact vecGet_split _ _ p high (by simp [hh])
  have hn : (high - low).toNat = body.length := by omega
  obtain ⟨A1, B1, h1, hp, hA1, hB1⟩ := PlaylistSorter.partitionLoop_spec heap c p pre post body
    [] [] songs (low - 1) low (by simp [hs]) (by simp [hl]) (by simp [hl]) (by simp) (by simp)
  have hlen : A1.length + B1.length = body.length := by
    have := hp.length_eq
    simpa using this
  cases B1 with
  | nil =>
    refine ⟨A1, [], ?_, by simpa using hp, hA1, by simp⟩
    have hsw : vecSwap (pre ++ A1 ++ [] ++ [p] ++ post) ((pre.length : Int) + A1.length - 1 + 1)
        high = some (pre ++ A1 ++ [] ++ [p] ++ post) := by
      have e : pre ++ A1 ++ [] ++ [p] ++ post = (pre ++ A1) ++ p :: post := by simp
      have hij : (pre.length : Int) + A1.length - 1 + 1 = high := by
        simp at hlen; omega
      rw [hij, e]
      exact vecSwap_same _ _ p high (by simp at hlen ⊢; omega)
    simp only [PlaylistSorter.partition, hpiv, hn, h1, Option.bind_eq_bind, Option.some_bind, hsw]
    simp
  | cons b0 B =>
    refine ⟨A1, B ++ [b0], ?_, ?_, hA1, ?_⟩
    · have hsw : vecSwap (pre ++ A1 ++ b0 :: B ++ [p] ++ post)
          ((pre.length : Int) + A1.length - 1 + 1) high =
          some ((pre ++ A1) ++ p :: (B ++ b0 :: post)) := by
        have e : pre ++ A1 ++ b0 :: B ++ [p] ++ post = (pre ++ A1) ++ b0 :: (B ++ p :: post) := by
          simp
        rw [e]
        exact vecSwap_split _ _ _ b0 p _ high (by simp)
          (by simp at hlen ⊢; omega)
      simp only [PlaylistSorter.partition, hpiv, hn, h1, Option.bind_eq_bind, Option.some_bind,
        hsw]
      simp
    · refine List.Perm.trans ?_ (by simpa using hp)
      refine List.Perm.append_left A1 ?_
      exact (List.perm_append_singleton b0 B)
    · intro b hb
      rcases List.mem_append.mp hb with hb | hb
      · exact hB1 b (List.mem_cons_of_mem _ hb)
      · rw [List.mem_singleton.mp hb]; exact hB1 b0 (List.mem_cons_self _ _)

/-! ### Quicksort: the recursion -/

theorem PlaylistSorter.quickSortHelper_spec (heap : SongHeap) (c : SortCriteria) :
    ∀ (fuel : Nat) (songs pre seg post : List SongRef) (low high : Int),
      songs = pre ++ seg ++ post → low = (pre.length : Int) →
      high = (pre.length : Int) + seg.length - 1 → seg.length ≤ fuel →
      ∃ seg1, PlaylistSorter.quickSortHelper heap c fuel songs low high =
          some (pre ++ seg1 ++ post) ∧ seg1.Perm seg ∧
        seg1.Pairwise (fun x y => PlaylistSorter.compare heap y x c = false) := by
  intro fuel
  induction fuel with
  | zero =>
    intro songs pre seg post low high hs hl hh hf
    have hseg : seg = [] := List.length_eq_zero.mp (by omega)
    subst hseg
    refine ⟨[], ?_, List.Perm.refl _, List.Pairwise.nil⟩
    have : ¬ low < high := by simp at hh; omega
    simp [PlaylistSorter.quickSortHelper, this, hs]
  | succ n ih =>
    intro songs pre seg post low high hs hl hh hf
    by_cases hlt : low < high
    · have hne : seg ≠ [] := by
        intro h; rw [h] at hh; simp at hh; omega
      obtain ⟨body, p, hbp⟩ : ∃ body p, seg = body ++ [p] :=
        ⟨seg.dropLast, seg.getLast hne, (List.dropLast_append_getLast hne).symm⟩
      have hbl : seg.length = body.length + 1 := by rw [hbp]; simp
      obtain ⟨A, B, hpart, hperm, hA, hB⟩ := PlaylistSorter.partition_spec heap c p pre body post
        songs low high (by rw [hs, hbp]) hl (by rw [hh, hbl]; push_cast; omega)
      have hAB : A.length + B.length = body.length := by
        have := hperm.length_eq
        simpa using this
      obtain ⟨A1, h1, pA, sA⟩ := ih (pre ++ A ++ [p] ++ B ++ post) pre A ([p] ++ B ++ post) low
        ((pre.length : Int) + A.length - 1) (by simp) hl rfl (by omega)
      have hA1 : A1.length = A.length := pA.length_eq
      obtain ⟨B1, h2, pB, sB⟩ := ih (pre ++ A1 ++ ([p] ++ B ++ post)) (pre ++ A1 ++ [p]) B post
        ((pre.length : Int) + A.length + 1) high (by simp)
        (by simp [hA1]; omega) (by rw [hh, hbl]; simp [hA1]; omega) (by omega)
      refine ⟨A1 ++ [p] ++ B1, ?_, ?_, ?_⟩
      · simp only [PlaylistSorter.quickSortHelper, hlt, if_true, hpart, Option.bind_eq_bind,
          Option.some_bind, add_sub_cancel_right, h1, h2]
        simp
      · rw [hbp]
        have q1 : (A1 ++ [p] ++ B1).Perm (A ++ [p] ++ B) := (pA.append_right [p]).append pB
        refine q1.trans ?_
        have q2 : (A ++ [p] ++ B).Perm (A ++ B ++ [p]) := by
          rw [List.append_assoc, List.append_assoc]
          exact List.Perm.append_left A (List.perm_append_comm)
        exact q2.trans (hperm.append_right [p])
      · have hA1c : ∀ a ∈ A1, PlaylistSorter.compare heap a p c = true :=
          fun a ha => hA a (pA.mem_iff.mp ha)
        have hB1c : ∀ b ∈ B1, PlaylistSorter.compare heap b p c = false :=
          fun b hb => hB b (pB.mem_iff.mp hb)
        rw [List.append_assoc]
        refine List.pairwise_append.mpr ⟨sA, ?_, ?_⟩
        · refine List.pairwise_cons.mpr ⟨fun b hb => hB1c b hb, sB⟩
        · intro a ha b hb
          rcases List.mem_cons.mp hb with hb | hb
          · rw [hb]; exact PlaylistSorter.compare_asymm heap c a p (hA1c a ha)
          · cases hba : PlaylistSorter.compare heap b a c with
            | false => rfl
            | true =>
              have := PlaylistSorter.compare_trans heap c b a p hba (hA1c a ha)
              rw [hB1c b hb] at this
              exact absurd this (by simp)
    · refine ⟨seg, ?_, List.Perm.refl _, ?_⟩
      · simp [PlaylistSorter.quickSortHelper, hlt, hs]
      · have hlen : seg.length ≤ 1 := by omega
        match seg, hlen with
        | [], _ => exact List.Pairwise.nil
        | [x], _ => exact List.pairwise_singleton _ _

/-- C9: `quickSort` (last-element pivot) returns, for every input and every criterion, a
permutation of the input in which no later element compares before an earlier one. -/
theorem C9_quickSort_sorts (heap : SongHeap) (songs : List SongRef) (c : SortCriteria) :
    ∃ out, PlaylistSorter.quickSort heap songs c = some out ∧ out.Perm songs ∧
      out.Pairwise (fun x y => PlaylistSorter.compare heap y x c = false) := by
  obtain ⟨out, h, hp, hsorted⟩ := PlaylistSorter.quickSortHelper_spec heap c songs.length songs []
    songs [] 0 ((songs.length : Int) - 1) (by simp) (by simp) (by simp) (le_refl _)
  exact ⟨out, by simpa [PlaylistSorter.quickSort] using h, hp, hsorted⟩

/-! ### The two sorts compared -/

/-- Two orderings of the same tracks that are both sorted by the criterion are equal when no
two tracks of the input tie. -/
theorem PlaylistSorter.sorted_perm_unique (heap : SongHeap) (c : SortCriteria)
    (songs out1 out2 : List SongRef)
    (hd : songs.Pairwise (fun a b => PlaylistSorter.compare heap a b c = true ∨
      PlaylistSorter.compare heap b a c = true))
    (p1 : out1.Perm songs) (p2 : out2.Perm songs)
    (s1 : out1.Pairwise (fun x y => PlaylistSorter.compare heap y x c = false))
    (s2 : out2.Pairwise (fun x y => PlaylistSorter.compare heap y x c = false)) :
    out1 = out2 := by
  have hsymm : ∀ {x y : SongRef}, (PlaylistSorter.compare heap x y c = true ∨
      PlaylistSorter.compare heap y x c = true) → (PlaylistSorter.compare heap y x c = true ∨
      PlaylistSorter.compare heap x y c = true) := fun h => h.symm
  have strict : ∀ out : List SongRef, out.Perm songs →
      out.Pairwise (fun x y => PlaylistSorter.compare heap y x c = false) →
      out.Pairwise (fun x y => PlaylistSorter.compare heap x y c = true) := by
    intro out hp hsorted
    have hd2 := (hp.pairwise_iff hsymm).mpr hd
    refine (hsorted.and hd2).imp ?_
    intro x y h
    rcases h.2 with h2 | h2
    · exact h2
    · rw [h.1] at h2; exact absurd h2 (by simp)
  haveI : IsAntisymm SongRef (fun x y => PlaylistSorter.compare heap x y c = true) :=
    ⟨fun a b h1 h2 => by
      have := PlaylistSorter.compare_asymm heap c a b h1
      rw [this] at h2; exact absurd h2 (by simp)⟩
  exact List.eq_of_perm_of_sorted (p1.trans p2.symm) (strict out1 p1 s1) (strict out2 p2 s2)

/-- C2 (counterexample): on three tracks of equal duration the two sorts return different
orders. -/
theorem C2_counterexample :
    PlaylistSorter.mergeSort sampleHeap [10, 11, 12] SortCriteria.DURATION_ASC =
        some [12, 11, 10] ∧
      PlaylistSorter.quickSort sampleHeap [10, 11, 12] SortCriteria.DURATION_ASC =
        some [12, 10, 11] ∧
      PlaylistSorter.mergeSort sampleHeap [10, 11, 12] SortCriteria.DURATION_ASC ≠
        PlaylistSorter.quickSort sampleHeap [10, 11, 12] SortCriteria.DURATION_ASC := by
  decide

/-- C2 (amended): when no two tracks of the input have equal sort keys, `mergeSort` and
`quickSort` both return, and return the same sequence. -/
theorem C2_sorts_agree_without_ties (heap : SongHeap) (songs : List SongRef) (c : SortCriteria)
    (hd : songs.Pairwise (fun a b => PlaylistSorter.compare heap a b c = true ∨
      PlaylistSorter.compare heap b a c = true)) :
    ∃ out, PlaylistSorter.mergeSort heap songs c = some out ∧
      PlaylistSorter.quickSort heap songs c = some out := by
  obtain ⟨o1, h1, p1, s1⟩ := PlaylistSorter.mergeSortHelper_spec heap c songs.length songs []
    songs [] 0 ((songs.length : Int) - 1) (by simp) (by simp) (by simp) (le_refl _)
  obtain ⟨o2, h2, p2, s2⟩ := PlaylistSorter.quickSortHelper_spec heap c songs.length songs []
    songs [] 0 ((songs.length : Int) - 1) (by simp) (by simp) (by simp) (le_refl _)
  have e := PlaylistSorter.sorted_perm_unique heap c songs o1 o2 hd p1 p2 s1 s2
  refine ⟨o1, by simpa [PlaylistSorter.mergeSort] using h1, ?_⟩
  rw [e]
  simpa [PlaylistSorter.quickSort] using h2

theorem C2_sorts_agree_without_ties_witness :
    ([30, 11, 5, 41] : List SongRef).Pairwise
        (fun a b => PlaylistSorter.compare sampleHeap a b SortCriteria.DURATION_ASC = true ∨
          PlaylistSorter.compare sampleHeap b a SortCriteria.DURATION_ASC = true) ∧
      ∃ out, PlaylistSorter.mergeSort sampleHeap [30, 11, 5, 41] SortCriteria.DURATION_ASC =
          some out ∧
        PlaylistSorter.quickSort sampleHeap [30, 11, 5, 41] SortCriteria.DURATION_ASC =
          some out :=
  ⟨by decide, C2_sorts_agree_without_ties sampleHeap [30, 11, 5, 41] SortCriteria.DURATION_ASC
    (by decide)⟩

/-- C3 (failing input): two tracks of equal duration come out of `mergeSort` in the opposite
order: `merge` takes from the right run when `compare` is false. -/
theorem C3_mergeSort_swaps_equal_keys :
    PlaylistSorter.compare sampleHeap 10 11 SortCriteria.DURATION_ASC = false ∧
      PlaylistSorter.compare sampleHeap 11 10 SortCriteria.DURATION_ASC = false ∧
      PlaylistSorter.mergeSort sampleHeap [10, 11] SortCriteria.DURATION_ASC = some [11, 10] := by
  decide

/-! ### Rating index -/

/-- C1 (failing input): a track inserted with rating 3 and inserted again with rating 5 is
still returned by `search_by_rating 3`, and by `search_by_rating 5` as well. -/
theorem C1_rerate_keeps_old_bucket :
    (SongRatingTree.insert_song
        (SongRatingTree.insert_song sampleHeap SongRatingTree.empty 7 3).1
        (SongRatingTree.insert_song sampleHeap SongRatingTree.empty 7 3).2 7 5).2.search_by_rating 3
        = [7] ∧
      (SongRatingTree.insert_song
        (SongRatingTree.insert_song sampleHeap SongRatingTree.empty 7 3).1
        (SongRatingTree.insert_song sampleHeap SongRatingTree.empty 7 3).2 7 5).2.search_by_rating 5
        = [7] ∧
      ((SongRatingTree.insert_song
        (SongRatingTree.insert_song sampleHeap SongRatingTree.empty 7 3).1
        (SongRatingTree.insert_song sampleHeap SongRatingTree.empty 7 3).2 7 5).1 7).rating = 5 := by
  decide

/-! ### Ordered sequence: basic facts of the representation -/

theorem length_le_of_nodup_bound (addrs : List Nat) (n : Nat) (hnd : addrs.Nodup)
    (hb : ∀ a ∈ addrs, a < n) : addrs.length ≤ n := by
  have hsub : addrs ⊆ List.range n := fun a ha => List.mem_range.mpr (hb a ha)
  have := (List.subperm_of_subset hnd hsub).length_le
  simpa using this

theorem PlaylistEngine.Repr.length_le_fresh {pl : PlaylistEngine} {addrs : List Nat}
    {songs : List SongRef} (r : pl.Repr addrs songs) : addrs.length ≤ pl.fresh :=
  length_le_of_nodup_bound addrs pl.fresh r.nodup r.bound

/-- The node at position `k`, with the song it holds. -/
theorem PlaylistEngine.Linked.node_at {pl : PlaylistEngine} {addrs : List Nat}
    {songs : List SongRef} (r : pl.Linked addrs songs) (k : Nat) (hk : k < addrs.length) :
    ∃ a s, addrs[k]? = some a ∧ songs[k]? = some s ∧
      pl.mem a = some { song := s, next := addrs[k + 1]?, prev := prevPtr addrs k } := by
  have hk2 : k < songs.length := r.len ▸ hk
  exact ⟨addrs[k], songs[k], List.getElem?_eq_getElem hk, List.getElem?_eq_getElem hk2,
    r.node k _ _ (List.getElem?_eq_getElem hk) (List.getElem?_eq_getElem hk2)⟩

theorem PlaylistEngine.collect_spec (pl : PlaylistEngine) (addrs : List Nat)
    (songs : List SongRef) (r : pl.Repr addrs songs) :
    ∀ (fuel k : Nat) (acc : List SongRef), addrs.length ≤ k + fuel →
      pl.collect fuel addrs[k]? acc = some (acc ++ songs.drop k) := by
  intro fuel
  induction fuel with
  | zero =>
    intro k acc hf
    have h1 : addrs[k]? = none := List.getElem?_eq_none (by omega)
    have h2 : songs.drop k = [] := List.drop_eq_nil_of_le (by rw [← r.len]; omega)
    rw [h1, h2]; simp [PlaylistEngine.collect]
  | succ n ih =>
    intro k acc hf
    by_cases hk : k < addrs.length
    · obtain ⟨a, s, ha, hs, hm⟩ := r.node_at k hk
      have hd : songs.drop k = s :: songs.drop (k + 1) := by
        have hk2 : k < songs.length := r.len ▸ hk
        rw [List.getElem?_eq_getElem hk2] at hs
        rw [List.drop_eq_getElem_cons hk2]
        simp only [Option.some.injEq] at hs
        rw [hs]
      rw [ha, hd]
      simp only [PlaylistEngine.collect, hm, Option.bind_eq_bind, Option.some_bind]
      rw [ih (k + 1) (acc ++ [s]) (by omega)]
      simp
    · have h1 : addrs[k]? = none := List.getElem?_eq_none (by omega)
      have h2 : songs.drop k = [] := List.drop_eq_nil_of_le (by rw [← r.len]; omega)
      rw [h1, h2]; simp [PlaylistEngine.collect]

/-- On a well-formed list `getAllSongs` returns the represented sequence. -/
theorem PlaylistEngine.Repr.getAllSongs_eq {pl : PlaylistEngine} {addrs : List Nat}
    {songs : List SongRef} (r : pl.Repr addrs songs) : pl.getAllSongs = some songs := by
  have h := PlaylistEngine.collect_spec pl addrs songs r pl.fresh 0 [] (by
    have := r.length_le_fresh; omega)
  rw [← r.head_eq] at h
  simpa [PlaylistEngine.getAllSongs] using h

theorem PlaylistEngine.Repr.empty : PlaylistEngine.empty.Repr [] [] :=
  ⟨⟨rfl, List.nodup_nil, by simp, rfl, rfl, by simp⟩, rfl⟩

theorem idx_inj {addrs : List Nat} (hnd : addrs.Nodup) {i j a : Nat}
    (hi : addrs[i]? = some a) (hj : addrs[j]? = some a) : i = j := by
  have hlt : i < addrs.length := (List.getElem?_eq_some_iff.mp hi).1
  exact List.getElem?_inj hlt hnd (hi.trans hj.symm)

theorem idx_lt {addrs : List Nat} {i a : Nat} (hi : addrs[i]? = some a) : i < addrs.length :=
  (List.getElem?_eq_some_iff.mp hi).1

theorem idx_mem {addrs : List Nat} {i a : Nat} (hi : addrs[i]? = some a) : a ∈ addrs :=
  List.mem_iff_getElem?.mpr ⟨i, hi⟩

/-- `add_song` on a well-formed list appends a fresh node holding the song. -/
theorem PlaylistEngine.Repr.add_song {pl : PlaylistEngine} {addrs : List Nat}
    {songs : List SongRef} (r : pl.Repr addrs songs) (song : SongRef) :
    ∃ pl1, pl.add_song song = some pl1 ∧ pl1.Repr (addrs ++ [pl.fresh]) (songs ++ [song]) ∧
      pl1.fresh = pl.fresh + 1 := by
  have hfresh : pl.fresh ∉ addrs := fun h => Nat.lt_irrefl _ (r.bound _ h)
  by_cases hempty : addrs.length = 0
  · have ha : addrs = [] := List.length_eq_zero.mp hempty
    have hs : songs = [] := List.length_eq_zero.mp (by rw [← r.len]; exact hempty)
    subst ha hs
    have hhead : pl.head = none := by simpa using r.head_eq
    refine ⟨_, by simp only [PlaylistEngine.add_song, hhead]; rfl, ?_, rfl⟩
    refine ⟨⟨rfl, by simp, by simp, by simp, by simp, ?_⟩, ?_⟩
    · intro k a s hk hsk
      have hk0 : k = 0 := by
        have := idx_lt hk; simp at this; omega
      subst hk0
      simp at hk hsk
      subst hk hsk
      simp [prevPtr]
    · have := r.size_eq; simp at this ⊢; omega
  · have hpos : 0 < addrs.length := Nat.pos_of_ne_zero hempty
    obtain ⟨h0, s0, hh0, _, _⟩ := r.node_at 0 hpos
    obtain ⟨t, st, ht, hst, hmt⟩ := r.node_at (addrs.length - 1) (by omega)
    have hhead : pl.head = some h0 := by rw [r.head_eq, hh0]
    have htail : pl.tail = some t := by rw [r.tail_eq, ht]
    have htne : t ≠ pl.fresh := fun h => hfresh (h ▸ idx_mem ht)
    have hnone : addrs[addrs.length - 1 + 1]? = none := List.getElem?_eq_none (by omega)
    rw [hnone] at hmt
    refine ⟨_, by
      simp only [PlaylistEngine.add_song, hhead, htail, PlaylistEngine.setNext,
        PlaylistEngine.setPrev, Option.bind_eq_bind, Option.some_bind,
        Function.update_noteq htne, Function.update_noteq (Ne.symm htne), hmt,
        Function.update_same]
      rfl, ?_, rfl⟩
    refine ⟨⟨by simp [r.len], ?_, ?_, ?_, ?_, ?_⟩, by have := r.size_eq; simp at this ⊢; omega⟩
    · exact List.Nodup.append r.nodup (List.nodup_singleton _) (by simpa using hfresh)
    · intro a ha
      rcases List.mem_append.mp ha with ha | ha
      · exact Nat.lt_succ_of_lt (r.bound a ha)
      · rw [List.mem_singleton.mp ha]; exact Nat.lt_succ_self _
    · simp only []
      rw [List.getElem?_append_left hpos, hh0]
    · simp
    · intro k a s hk hsk
      have hklt : k < addrs.length + 1 := by have := idx_lt hk; simpa using this
      by_cases hk1 : k < addrs.length
      · rw [List.getElem?_append_left hk1] at hk
        rw [List.getElem?_append_left (r.len ▸ hk1)] at hsk
        have hm := r.node k a s hk hsk
        have hane : a ≠ pl.fresh := fun h => hfresh (h ▸ idx_mem hk)
        have hprev : prevPtr (addrs ++ [pl.fresh]) k = prevPtr addrs k := by
          unfold prevPtr
          split
          · rfl
          · rw [List.getElem?_append_left (by omega)]
        rw [hprev]
        by_cases hkl : k = addrs.length - 1
        · have hat : a = t := by
            rw [hkl] at hk; rw [ht] at hk; exact (Option.some.inj hk).symm
          have hsst : s = st := by
            rw [hkl] at hsk; rw [hst] at hsk; exact (Option.some.inj hsk).symm
          subst hat hsst
          have hnext : (addrs ++ [pl.fresh])[k + 1]? = some pl.fresh := by
            rw [hkl, Nat.sub_add_cancel hpos]; exact List.getElem?_concat_length _ _
          rw [hnext, hkl]
          simp [Function.update_noteq hane]
        · have hat : a ≠ t := fun h => hkl (idx_inj r.nodup hk (h ▸ ht))
          rw [List.getElem?_append_left (by omega)]
          simp [Function.update_noteq hane, Function.update_noteq hat, hm]
      · have hk2 : k = addrs.length := by omega
        subst hk2
        rw [List.getElem?_concat_length] at hk
        rw [r.len, List.getElem?_concat_length] at hsk
        have hak := (Option.some.inj hk).symm
        have hsk2 := (Option.some.inj hsk).symm
        subst hak hsk2
        have hnext : (addrs ++ [pl.fresh])[addrs.length + 1]? = none :=
          List.getElem?_eq_none (by simp)
        have hprev : prevPtr (addrs ++ [pl.fresh]) addrs.length = some t := by
          unfold prevPtr
          rw [if_neg hempty, List.getElem?_append_left (by omega), ht]
        rw [hnext, hprev]
        simp

/-! ### Ordered sequence: positional access -/

theorem PlaylistEngine.Linked.walkNext_eq {pl : PlaylistEngine} {addrs : List Nat}
    {songs : List SongRef} (r : pl.Linked addrs songs) :
    ∀ (n k : Nat), k + n ≤ addrs.length → pl.walkNext n addrs[k]? = some addrs[k + n]? := by
  intro n
  induction n with
  | zero => intro k _; simp [PlaylistEngine.walkNext]
  | succ n ih =>
    intro k hk
    obtain ⟨a, s, ha, _, hm⟩ := r.node_at k (by omega)
    rw [ha]
    simp only [PlaylistEngine.walkNext, PlaylistEngine.read, hm, Option.bind_eq_bind,
      Option.some_bind]
    rw [ih (k + 1) (by omega)]
    congr 2
    omega

theorem PlaylistEngine.Linked.walkPrev_eq {pl : PlaylistEngine} {addrs : List Nat}
    {songs : List SongRef} (r : pl.Linked addrs songs) :
    ∀ (n k : Nat), n ≤ k → k < addrs.length → pl.walkPrev n addrs[k]? = some addrs[k - n]? := by
  intro n
  induction n with
  | zero => intro k _ _; simp [PlaylistEngine.walkPrev]
  | succ n ih =>
    intro k hn hk
    obtain ⟨a, s, ha, _, hm⟩ := r.node_at k hk
    rw [ha]
    have hp : prevPtr addrs k = addrs[k - 1]? := by
      unfold prevPtr; rw [if_neg (by omega)]
    simp only [PlaylistEngine.walkPrev, PlaylistEngine.read, hm, Option.bind_eq_bind,
      Option.some_bind, hp]
    rw [ih (k - 1) (by omega) (by omega)]
    congr 2
    omega

/-- On a well-formed list `getNodeAt` finds the node at a valid index, from either end. -/
theorem PlaylistEngine.Repr.getNodeAt_eq {pl : PlaylistEngine} {addrs : List Nat}
    {songs : List SongRef} (r : pl.Repr addrs songs) (k : Nat) (hk : k < addrs.length) :
    pl.getNodeAt (k : Int) = some addrs[k]? := by
  have hsz : pl.size = (addrs.length : Int) := by rw [r.size_eq, r.len]
  have hin : ¬ ((k : Int) < 0 ∨ (k : Int) ≥ pl.size) := by rw [hsz]; omega
  unfold PlaylistEngine.getNodeAt
  rw [if_neg hin]
  split
  · rw [r.head_eq, Int.toNat_ofNat]
    have := r.toLinked.walkNext_eq k 0 (by omega)
    simpa using this
  · rw [r.tail_eq, hsz]
    have hn : ((addrs.length : Int) - 1 - (k : Int)).toNat = addrs.length - 1 - k := by omega
    rw [hn, r.toLinked.walkPrev_eq (addrs.length - 1 - k) (addrs.length - 1) (by omega) (by omega)]
    congr 2
    omega

/-! ### Ordered sequence: unlinking a node -/

theorem prevPtr_eq_some {addrs : List Nat} {k a : Nat} :
    prevPtr addrs k = some a ↔ 0 < k ∧ addrs[k - 1]? = some a := by
  unfold prevPtr
  by_cases hk : k = 0
  · simp [hk]
  · simp [hk, Nat.pos_of_ne_zero hk]

theorem prevPtr_eraseIdx (addrs : List Nat) (k j : Nat) :
    prevPtr (addrs.eraseIdx k) j =
      if j < k then prevPtr addrs j else if j = k then prevPtr addrs k else addrs[j]? := by
  unfold prevPtr
  by_cases hj0 : j = 0
  · subst hj0
    by_cases hk0 : 0 < k
    · simp [hk0]
    · have : k = 0 := by omega
      simp [this]
  · rw [if_neg hj0, List.getElem?_eraseIdx]
    by_cases hjk : j < k
    · rw [if_pos hjk, if_pos (by omega), if_neg hj0]
    · rw [if_neg hjk]
      by_cases hjk2 : j = k
      · subst hjk2
        rw [if_pos (by omega), if_pos rfl, if_neg hj0]
      · rw [if_neg (by omega), if_neg hjk2]
        congr 1
        omega

/-- A memory that differs from a linked one only in the `next` of the predecessor and the
`prev` of the successor of position `k`, which now bypass it, is linked as the list without
position `k`. -/
theorem PlaylistEngine.Linked.bypass {pl pl2 : PlaylistEngine} {addrs : List Nat}
    {songs : List SongRef} (r : pl.Linked addrs songs) (k : Nat) (hk : k < addrs.length)
    (hfresh : pl2.fresh = pl.fresh)
    (hhead : pl2.head = if k = 0 then addrs[1]? else pl.head)
    (htail : pl2.tail = if k + 1 = addrs.length then prevPtr addrs k else pl.tail)
    (hmem : ∀ a, pl2.mem a =
      if addrs[k + 1]? = some a then
        (pl.mem a).map (fun nd => { nd with prev := prevPtr addrs k })
      else if prevPtr addrs k = some a then
        (pl.mem a).map (fun nd => { nd with next := addrs[k + 1]? })
      else pl.mem a) :
    pl2.Linked (addrs.eraseIdx k) (songs.eraseIdx k) := by
  have hlen : (addrs.eraseIdx k).length = addrs.length - 1 := List.length_eraseIdx_of_lt hk
  refine ⟨?_, ?_, ?_, ?_, ?_, ?_⟩
  · rw [List.length_eraseIdx_of_lt hk, List.length_eraseIdx_of_lt (r.len ▸ hk), r.len]
  · exact r.nodup.sublist (List.eraseIdx_sublist _ _)
  · intro a ha
    rw [hfresh]
    exact r.bound a ((List.eraseIdx_sublist _ _).subset ha)
  · rw [hhead, List.getElem?_eraseIdx]
    by_cases hk0 : k = 0
    · simp [hk0]
    · rw [if_neg hk0, if_pos (by omega), r.head_eq]
  · rw [htail, hlen, List.getElem?_eraseIdx]
    by_cases hkl : k + 1 = addrs.length
    · rw [if_pos hkl]
      unfold prevPtr
      by_cases hk0 : k = 0
      · have : addrs.length - 1 - 1 + 1 ≥ addrs.length := by omega
        rw [if_pos hk0, if_neg (by omega)]
        exact (List.getElem?_eq_none (by omega)).symm
      · rw [if_neg hk0, if_pos (by omega)]
        congr 1
        omega
    · rw [if_neg hkl, if_neg (by omega), r.tail_eq]
      congr 1
      omega
  · intro j a s hja hjs
    rw [List.getElem?_eraseIdx] at hja hjs
    by_cases hjk : j < k
    · rw [if_pos hjk] at hja hjs
      have hm := r.node j a s hja hjs
      have hprev : prevPtr (addrs.eraseIdx k) j = prevPtr addrs j := by
        rw [prevPtr_eraseIdx, if_pos hjk]
      have hq : addrs[k + 1]? ≠ some a := fun h => by
        have := idx_inj r.nodup h hja; omega
      by_cases hjk1 : j + 1 = k
      · have hnext : (addrs.eraseIdx k)[j + 1]? = addrs[k + 1]? := by
          rw [List.getElem?_eraseIdx, if_neg (by omega), hjk1]
        have hp : prevPtr addrs k = some a :=
          prevPtr_eq_some.mpr ⟨by omega, by rw [← hjk1]; simpa using hja⟩
        rw [hnext, hprev, hmem a, if_neg hq, if_pos hp, hm]
        rfl
      · have hnext : (addrs.eraseIdx k)[j + 1]? = addrs[j + 1]? := by
          rw [List.getElem?_eraseIdx, if_pos (by omega)]
        have hp : prevPtr addrs k ≠ some a := fun h => by
          have := idx_inj r.nodup (prevPtr_eq_some.mp h).2 hja; omega
        rw [hnext, hprev, hmem a, if_neg hq, if_neg hp, hm]
    · rw [if_neg hjk] at hja hjs
      have hm := r.node (j + 1) a s hja hjs
      have hnext : (addrs.eraseIdx k)[j + 1]? = addrs[j + 1 + 1]? := by
        rw [List.getElem?_eraseIdx, if_neg (by omega)]
      have hp : prevPtr addrs k ≠ some a := fun h => by
        have := idx_inj r.nodup (prevPtr_eq_some.mp h).2 hja; omega
      by_cases hjk2 : j = k
      · subst hjk2
        have hprev : prevPtr (addrs.eraseIdx j) j = prevPtr addrs j := by
          rw [prevPtr_eraseIdx, if_neg hjk, if_pos rfl]
        rw [hnext, hprev, hmem a, if_pos hja, hm]
        rfl
      · have hprev : prevPtr (addrs.eraseIdx k) j = prevPtr addrs (j + 1) := by
          rw [prevPtr_eraseIdx, if_neg hjk, if_neg hjk2]
          unfold prevPtr; rw [if_neg (by omega)]; rfl
        have hq : addrs[k + 1]? ≠ some a := fun h => by
          have := idx_inj r.nodup h hja; omega
        rw [hnext, hprev, hmem a, if_neg hq, if_neg hp, hm]

theorem prevPtr_eq_none {addrs : List Nat} {k : Nat} (hk : k < addrs.length) :
    prevPtr addrs k = none ↔ k = 0 := by
  unfold prevPtr
  by_cases hk0 : k = 0
  · simp [hk0]
  · simp only [hk0, if_false, iff_false]
    rw [List.getElem?_eq_getElem (by omega)]
    simp

/-- The effect of the unlinking statements on the node at position `k` of a linked list. -/
theorem PlaylistEngine.Linked.unlink_spec {pl : PlaylistEngine} {addrs : List Nat}
    {songs : List SongRef} (r : pl.Linked addrs songs) (k c : Nat) (hc : addrs[k]? = some c) :
    ∃ pl2, pl.unlink c = some pl2 ∧ pl2.fresh = pl.fresh ∧ pl2.size = pl.size ∧
      (pl2.head = if k = 0 then addrs[1]? else pl.head) ∧
      (pl2.tail = if k + 1 = addrs.length then prevPtr addrs k else pl.tail) ∧
      (∀ a, pl2.mem a =
        if addrs[k + 1]? = some a then
          (pl.mem a).map (fun nd => { nd with prev := prevPtr addrs k })
        else if prevPtr addrs k = some a then
          (pl.mem a).map (fun nd => { nd with next := addrs[k + 1]? })
        else pl.mem a) := by
  have hk : k < addrs.length := idx_lt hc
  obtain ⟨c1, s, hc1, hs, hm⟩ := r.node_at k hk
  have hcc : c1 = c := Option.some.inj (hc1.symm.trans hc)
  subst hcc
  cases hP : prevPtr addrs k with
  | none =>
    have hk0 : k = 0 := (prevPtr_eq_none hk).mp hP
    subst hk0
    rw [hP] at hm
    cases hQ : addrs[0 + 1]? with
    | none =>
      rw [hQ] at hm
      have hl : 0 + 1 = addrs.length := by
        have := List.getElem?_eq_none_iff.mp hQ; omega
      refine ⟨{ pl with head := none, tail := none }, ?_, rfl, rfl, ?_, ?_, ?_⟩
      · simp [PlaylistEngine.unlink, hm]
      · simp [hQ]
      · simp [hl]
      · intro a; simp
    | some q =>
      rw [hQ] at hm
      obtain ⟨q1, sq, hq1, _, hmq⟩ := r.node_at (0 + 1) (idx_lt hQ)
      have hqq : q1 = q := Option.some.inj (hq1.symm.trans hQ)
      subst hqq
      have hl : ¬ (0 + 1 = addrs.length) := by have := idx_lt hQ; omega
      refine ⟨{ pl with head := some q1,
                        mem := Function.update pl.mem q1
                          (some { song := sq, next := addrs[0 + 1 + 1]?, prev := none }) },
        ?_, rfl, rfl, ?_, ?_, ?_⟩
      · simp [PlaylistEngine.unlink, hm, PlaylistEngine.setPrev, hmq]
      · simp [hQ]
      · simp [hl]
      · intro a
        by_cases haq : a = q1
        · subst haq; simp [hmq]
        · have : ¬ (q1 = a) := fun h => haq h.symm
          simp [Function.update_noteq haq, this]
  | some p =>
    have hpk := prevPtr_eq_some.mp hP
    have hk0 : ¬ (k = 0) := by omega
    rw [hP] at hm
    obtain ⟨p1, sp, hp1, _, hmp⟩ := r.node_at (k - 1) (by omega)
    have hpp : p1 = p := Option.some.inj (hp1.symm.trans hpk.2)
    subst hpp
    have hcp : c1 ≠ p1 := fun h => by
      have := idx_inj r.nodup hc (h ▸ hp1); omega
    cases hQ : addrs[k + 1]? with
    | none =>
      rw [hQ] at hm
      have hl : k + 1 = addrs.length := by
        have := List.getElem?_eq_none_iff.mp hQ; omega
      refine ⟨{ pl with tail := some p1,
                        mem := Function.update pl.mem p1
                          (some { song := sp, next := none, prev := prevPtr addrs (k - 1) }) },
        ?_, rfl, rfl, ?_, ?_, ?_⟩
      · simp [PlaylistEngine.unlink, hm, PlaylistEngine.setNext, hmp,
          Function.update_noteq hcp]
      · simp [hk0]
      · simp [hl]
      · intro a
        by_cases hap : a = p1
        · subst hap; simp [hmp]
        · have : ¬ (p1 = a) := fun h => hap h.symm
          simp [Function.update_noteq hap, this]
    | some q =>
      rw [hQ] at hm
      obtain ⟨q1, sq, hq1, _, hmq⟩ := r.node_at (k + 1) (idx_lt hQ)
      have hqq : q1 = q := Option.some.inj (hq1.symm.trans hQ)
      subst hqq
      have hl : ¬ (k + 1 = addrs.length) := by have := idx_lt hQ; omega
      have hqp : q1 ≠ p1 := fun h => by
        have := idx_inj r.nodup hq1 (h ▸ hp1); omega
      refine ⟨{ pl with mem := Function.update (Function.update pl.mem p1
                          (some { song := sp, next := some q1, prev := prevPtr addrs (k - 1) })) q1
                          (some { song := sq, next := addrs[k + 1 + 1]?, prev := some p1 }) },
        ?_, rfl, rfl, ?_, ?_, ?_⟩
      · simp [PlaylistEngine.unlink, hm, PlaylistEngine.setNext, PlaylistEngine.setPrev, hmp,
          hmq, Function.update_noteq hcp, Function.update_noteq hqp]
      · simp [hk0]
      · simp [hl]
      · intro a
        by_cases haq : a = q1
        · subst haq; simp [hmq]
        · have h1 : ¬ (q1 = a) := fun h => haq h.symm
          by_cases hap : a = p1
          · subst hap; simp [hmp, Function.update_noteq haq, h1]
          · have h2 : ¬ (p1 = a) := fun h => hap h.symm
            simp [Function.update_noteq hap, Function.update_noteq haq, h1, h2]

/-- A linked list stays linked when the memory changes only outside its nodes. -/
theorem PlaylistEngine.Linked.frame {pl pl2 : PlaylistEngine} {addrs : List Nat}
    {songs : List SongRef} (r : pl.Linked addrs songs) (hfresh : pl.fresh ≤ pl2.fresh)
    (hhead : pl2.head = pl.head) (htail : pl2.tail = pl.tail)
    (hmem : ∀ a ∈ addrs, pl2.mem a = pl.mem a) : pl2.Linked addrs songs :=
  ⟨r.len, r.nodup, fun a ha => Nat.lt_of_lt_of_le (r.bound a ha) hfresh,
    hhead.trans r.head_eq, htail.trans r.tail_eq,
    fun k a s hk hs => (hmem a (idx_mem hk)).trans (r.node k a s hk hs)⟩

theorem not_mem_eraseIdx_of_nodup {addrs : List Nat} (hnd : addrs.Nodup) {k c : Nat}
    (hc : addrs[k]? = some c) : c ∉ addrs.eraseIdx k := by
  intro hmem
  obtain ⟨j, hj⟩ := List.mem_iff_getElem?.mp hmem
  rw [List.getElem?_eraseIdx] at hj
  by_cases hjk : j < k
  · rw [if_pos hjk] at hj
    have := idx_inj hnd hj hc; omega
  · rw [if_neg hjk] at hj
    have := idx_inj hnd hj hc; omega

/-- `delete_song` at a valid index of a well-formed list removes exactly that position. -/
theorem PlaylistEngine.Repr.delete_song {pl : PlaylistEngine} {addrs : List Nat}
    {songs : List SongRef} (r : pl.Repr addrs songs) (k : Nat) (hk : k < addrs.length) :
    ∃ pl1, pl.delete_song (k : Int) = some (true, pl1) ∧
      pl1.Repr (addrs.eraseIdx k) (songs.eraseIdx k) ∧ pl1.fresh = pl.fresh := by
  have hsz : pl.size = (addrs.length : Int) := by rw [r.size_eq, r.len]
  have hin : ¬ ((k : Int) < 0 ∨ (k : Int) ≥ pl.size) := by rw [hsz]; omega
  obtain ⟨c, s, hc, hs, hm⟩ := r.toLinked.node_at k hk
  obtain ⟨pl2, hun, hf2, hs2, hh2, ht2, hm2⟩ := r.toLinked.unlink_spec k c hc
  have hl2 : pl2.Linked (addrs.eraseIdx k) (songs.eraseIdx k) :=
    r.toLinked.bypass k hk hf2 hh2 ht2 hm2
  have hq : addrs[k + 1]? ≠ some c := fun h => by
    have := idx_inj r.nodup h hc; omega
  have hp : prevPtr addrs k ≠ some c := fun h => by
    have h2 := prevPtr_eq_some.mp h
    have := idx_inj r.nodup h2.2 hc; omega
  have hmc : pl2.mem c = some { song := s, next := addrs[k + 1]?, prev := prevPtr addrs k } := by
    rw [hm2 c, if_neg hq, if_neg hp, hm]
  have hnot : c ∉ addrs.eraseIdx k := not_mem_eraseIdx_of_nodup r.nodup hc
  refine ⟨{ pl2 with mem := Function.update pl2.mem c none, size := pl2.size - 1 }, ?_, ?_, ?_⟩
  · simp only [PlaylistEngine.delete_song, hin, if_false, r.getNodeAt_eq k hk, hc,
      Option.bind_eq_bind, Option.some_bind, hun, PlaylistEngine.free, hmc]
  · refine ⟨hl2.frame (le_refl _) rfl rfl ?_, ?_⟩
    · intro a ha
      have : a ≠ c := fun h => hnot (h ▸ ha)
      simp [Function.update_noteq this]
    · simp only [hs2, r.size_eq]
      rw [List.length_eraseIdx_of_lt (r.len ▸ hk)]
      have : 0 < songs.length := by rw [← r.len]; omega
      omega
  · exact hf2

/-! ### Ordered sequence: reversal -/

theorem PlaylistEngine.reverseLoop_spec (addrs : List Nat) (songs : List SongRef)
    (hlen : addrs.length = songs.length) (hnd : addrs.Nodup) :
    ∀ (fuel m : Nat) (pl : PlaylistEngine), addrs.length ≤ m + fuel →
      (∀ (j a : Nat) (s : SongRef), addrs[j]? = some a → songs[j]? = some s →
        pl.mem a = some (if j < m then { song := s, next := prevPtr addrs j, prev := addrs[j + 1]? }
          else { song := s, next := addrs[j + 1]?, prev := prevPtr addrs j })) →
      ∃ pl1, PlaylistEngine.reverseLoop fuel pl addrs[m]? = some pl1 ∧
        pl1.head = pl.head ∧ pl1.tail = pl.tail ∧ pl1.fresh = pl.fresh ∧ pl1.size = pl.size ∧
        (∀ (j a : Nat) (s : SongRef), addrs[j]? = some a → songs[j]? = some s →
          pl1.mem a = some { song := s, next := prevPtr addrs j, prev := addrs[j + 1]? }) := by
  intro fuel
  induction fuel with
  | zero =>
    intro m pl hf hinv
    have hnone : addrs[m]? = none := List.getElem?_eq_none (by omega)
    refine ⟨pl, by rw [hnone]; simp [PlaylistEngine.reverseLoop], rfl, rfl, rfl, rfl, ?_⟩
    intro j a s hj hs
    have := hinv j a s hj hs
    rwa [if_pos (by have := idx_lt hj; omega)] at this
  | succ n ih =>
    intro m pl hf hinv
    by_cases hm : m < addrs.length
    · have hm2 : m < songs.length := hlen ▸ hm
      have hc : addrs[m]? = some addrs[m] := List.getElem?_eq_getElem hm
      have hs : songs[m]? = some songs[m] := List.getElem?_eq_getElem hm2
      have hnode := hinv m _ _ hc hs
      rw [if_neg (Nat.lt_irrefl m)] at hnode
      obtain ⟨pl1, h1, hh, ht, hfr, hsz, hfin⟩ := ih (m + 1)
        { pl with
          mem := Function.update pl.mem addrs[m]
                  (some { song := songs[m], next := prevPtr addrs m, prev := addrs[m + 1]? }) }
        (by omega)
        (by
          intro j a s hj hsj
          by_cases hjm : j = m
          · subst hjm
            have ha : a = addrs[j] := (Option.some.inj (hc.symm.trans hj)).symm
            have hss : s = songs[j] := (Option.some.inj (hs.symm.trans hsj)).symm
            subst ha hss
            simp
          · have hne : a ≠ addrs[m] := fun h => hjm (idx_inj hnd hj (h ▸ hc))
            have := hinv j a s hj hsj
            simp only [Function.update_noteq hne, this]
            by_cases hjlt : j < m
            · rw [if_pos hjlt, if_pos (by omega)]
            · rw [if_neg hjlt, if_neg (by omega)])
      refine ⟨pl1, ?_, hh, ht, hfr, hsz, hfin⟩
      rw [hc]
      simp only [PlaylistEngine.reverseLoop, hnode, PlaylistEngine.setPrev,
        PlaylistEngine.setNext, Option.bind_eq_bind, Option.some_bind, Function.update_same,
        Function.update_idem]
      exact h1
    · have hnone : addrs[m]? = none := List.getElem?_eq_none (by omega)
      refine ⟨pl, by rw [hnone]; simp [PlaylistEngine.reverseLoop], rfl, rfl, rfl, rfl, ?_⟩
      intro j a s hj hs
      have := hinv j a s hj hs
      rwa [if_pos (by have := idx_lt hj; omega)] at this

theorem prevPtr_reverse (addrs : List Nat) (j : Nat) (hj : j < addrs.length) :
    prevPtr addrs.reverse j = addrs[addrs.length - 1 - j + 1]? := by
  unfold prevPtr
  by_cases hj0 : j = 0
  · subst hj0
    rw [if_pos rfl]
    exact (List.getElem?_eq_none (by omega)).symm
  · rw [if_neg hj0, List.getElem?_reverse (by omega)]
    congr 1
    omega

theorem getElem?_reverse_succ (addrs : List Nat) (j : Nat) (hj : j < addrs.length) :
    addrs.reverse[j + 1]? = prevPtr addrs (addrs.length - 1 - j) := by
  unfold prevPtr
  by_cases hj1 : j + 1 < addrs.length
  · rw [List.getElem?_reverse hj1, if_neg (by omega)]
    congr 1
  · rw [if_pos (by omega)]
    exact List.getElem?_eq_none (by simp; omega)

/-- `reverse_playlist` on a well-formed list reverses the represented sequence. -/
theorem PlaylistEngine.Repr.reverse_playlist {pl : PlaylistEngine} {addrs : List Nat}
    {songs : List SongRef} (r : pl.Repr addrs songs) :
    ∃ pl1, pl.reverse_playlist = some pl1 ∧ pl1.Repr addrs.reverse songs.reverse ∧
      pl1.fresh = pl.fresh := by
  by_cases hsz : pl.size ≤ 1
  · have hl : addrs.length ≤ 1 := by
      have := r.size_eq; have := r.len; omega
    have ha : addrs.reverse = addrs := by
      match addrs, hl with
      | [], _ => rfl
      | [x], _ => rfl
    have hs : songs.reverse = songs := by
      have hl2 : songs.length ≤ 1 := by rw [← r.len]; exact hl
      match songs, hl2 with
      | [], _ => rfl
      | [x], _ => rfl
    refine ⟨pl, by simp [PlaylistEngine.reverse_playlist, hsz], ?_, rfl⟩
    rw [ha, hs]; exact r
  · have hfuel : pl.fresh ≤ pl.reverseFuel := by
      unfold PlaylistEngine.reverseFuel
      exact le_trans (Nat.le_succ _) (Nat.le_mul_of_pos_right _ (Nat.pos_pow_of_pos _ (by decide)))
    obtain ⟨pl1, h1, hh, ht, hfr, hsize, hfin⟩ := PlaylistEngine.reverseLoop_spec addrs songs
      r.len r.nodup pl.reverseFuel 0 pl (by have := r.length_le_fresh; omega)
      (by intro j a s hj hs; simpa using r.node j a s hj hs)
    rw [← r.head_eq] at h1
    refine ⟨{ pl1 with head := pl1.tail, tail := pl1.head }, ?_, ?_, hfr⟩
    · simp [PlaylistEngine.reverse_playlist, hsz, h1]
    · have hpos : 0 < addrs.length := by
        have := r.size_eq; have := r.len; omega
      refine ⟨⟨by simp [r.len], List.nodup_reverse.mpr r.nodup, ?_, ?_, ?_, ?_⟩, ?_⟩
      · intro a ha
        show a < pl1.fresh
        rw [hfr]; exact r.bound a (List.mem_reverse.mp ha)
      · show pl1.tail = _
        rw [ht, r.tail_eq, List.getElem?_reverse hpos]
        simp
      · show pl1.head = _
        rw [hh, r.head_eq, List.length_reverse, List.getElem?_reverse (by omega)]
        congr 1
        omega
      · intro j a s hj hs
        have hjl : j < addrs.length := by have := idx_lt hj; simpa using this
        rw [List.getElem?_reverse hjl] at hj
        rw [List.getElem?_reverse (r.len ▸ hjl), ← r.len] at hs
        show pl1.mem a = _
        rw [hfin _ a s hj hs, getElem?_reverse_succ addrs j hjl, prevPtr_reverse addrs j hjl]
      · show pl1.size = _
        rw [hsize, r.size_eq]; simp

/-! ### Ordered sequence: clear and rebuild -/

theorem PlaylistEngine.clearLoop_spec (addrs : List Nat) (hnd : addrs.Nodup) :
    ∀ (fuel m : Nat) (pl : PlaylistEngine), addrs.length ≤ m + fuel → pl.head = addrs[m]? →
      (∀ (j a : Nat), m ≤ j → addrs[j]? = some a →
        ∃ nd, pl.mem a = some nd ∧ nd.next = addrs[j + 1]?) →
      ∃ pl1, PlaylistEngine.clearLoop fuel pl = some pl1 ∧ pl1.head = none ∧
        pl1.fresh = pl.fresh := by
  intro fuel
  induction fuel with
  | zero =>
    intro m pl hf hh _
    have hnone : pl.head = none := by rw [hh]; exact List.getElem?_eq_none (by omega)
    exact ⟨pl, by simp [PlaylistEngine.clearLoop, hnone], hnone, rfl⟩
  | succ n ih =>
    intro m pl hf hh hinv
    by_cases hm : m < addrs.length
    · have hc : addrs[m]? = some addrs[m] := List.getElem?_eq_getElem hm
      obtain ⟨nd, hnode, hnext⟩ := hinv m _ (le_refl _) hc
      obtain ⟨pl1, h1, hh1, hf1⟩ := ih (m + 1)
        { pl with head := nd.next, mem := Function.update pl.mem addrs[m] none }
        (by omega) hnext
        (by
          intro j a hj ha
          have hne : a ≠ addrs[m] := fun h => by
            have := idx_inj hnd ha (h ▸ hc); omega
          simpa [Function.update_noteq hne] using hinv j a (by omega) ha)
      refine ⟨pl1, ?_, hh1, hf1⟩
      rw [hc] at hh
      rw [PlaylistEngine.clearLoop]
      simp only [hh, hnode, PlaylistEngine.free, Option.bind_eq_bind, Option.some_bind]
      exact h1
    · have hnone : pl.head = none := by rw [hh]; exact List.getElem?_eq_none (by omega)
      refine ⟨pl, ?_, hnone, rfl⟩
      rw [PlaylistEngine.clearLoop]
      simp [hnone]

/-- `clear` on a well-formed list leaves the empty list. -/
theorem PlaylistEngine.Repr.clear {pl : PlaylistEngine} {addrs : List Nat}
    {songs : List SongRef} (r : pl.Repr addrs songs) :
    ∃ pl1, pl.clear = some pl1 ∧ pl1.Repr [] [] := by
  obtain ⟨pl1, h1, hh, _⟩ := PlaylistEngine.clearLoop_spec addrs r.nodup pl.fresh 0 pl
    (by have := r.length_le_fresh; omega) r.head_eq
    (by
      intro j a _ ha
      obtain ⟨a1, s, ha1, _, hm⟩ := r.toLinked.node_at j (idx_lt ha)
      have : a1 = a := Option.some.inj (ha1.symm.trans ha)
      subst this
      exact ⟨_, hm, rfl⟩)
  refine ⟨{ pl1 with tail := none, size := 0 }, by simp [PlaylistEngine.clear, h1], ?_⟩
  exact ⟨⟨rfl, List.nodup_nil, by simp, by simpa using hh, rfl, by simp⟩, rfl⟩

theorem PlaylistEngine.Repr.foldlM_add_song :
    ∀ (more : List SongRef) (pl : PlaylistEngine) (addrs : List Nat) (songs : List SongRef),
      pl.Repr addrs songs →
      ∃ pl1 addrs1, more.foldlM PlaylistEngine.add_song pl = some pl1 ∧
        pl1.Repr addrs1 (songs ++ more) := by
  intro more
  induction more with
  | nil => intro pl addrs songs r; exact ⟨pl, addrs, rfl, by simpa using r⟩
  | cons x more ih =>
    intro pl addrs songs r
    obtain ⟨pl1, h1, r1, _⟩ := r.add_song x
    obtain ⟨pl2, addrs2, h2, r2⟩ := ih pl1 _ _ r1
    refine ⟨pl2, addrs2, ?_, by simpa using r2⟩
    simp only [List.foldlM, h1, Option.bind_eq_bind, Option.some_bind]
    exact h2

/-- `rebuildFromVector` on a well-formed list installs exactly the given sequence. -/
theorem PlaylistEngine.Repr.rebuildFromVector {pl : PlaylistEngine} {addrs : List Nat}
    {songs : List SongRef} (r : pl.Repr addrs songs) (v : List SongRef) :
    ∃ pl1 addrs1, pl.rebuildFromVector v = some pl1 ∧ pl1.Repr addrs1 v := by
  obtain ⟨pl1, h1, r1⟩ := r.clear
  obtain ⟨pl2, addrs2, h2, r2⟩ := PlaylistEngine.Repr.foldlM_add_song v pl1 [] [] r1
  exact ⟨pl2, addrs2, by simp [PlaylistEngine.rebuildFromVector, h1, h2], by simpa using r2⟩

/-! ### Ordered sequence: linking a detached node in -/

theorem getElem?_insertIdx_eq {α : Type} (x : α) :
    ∀ (i : Nat) (l : List α) (j : Nat), i ≤ l.length →
      (l.insertIdx i x)[j]? = if j < i then l[j]? else if j = i then some x else l[j - 1]? := by
  intro i
  induction i with
  | zero =>
    intro l j _
    rw [List.insertIdx_zero]
    cases j with
    | zero => simp
    | succ j => simp
  | succ i ih =>
    intro l j hi
    cases l with
    | nil => simp at hi
    | cons a l =>
      rw [List.insertIdx_succ_cons]
      cases j with
      | zero => simp
      | succ j =>
        simp only [List.getElem?_cons_succ, Nat.add_lt_add_iff_right, Nat.add_right_cancel_iff,
          Nat.add_sub_cancel]
        rw [ih l j (by simpa using hi)]
        by_cases h1 : j < i
        · simp [h1]
        · by_cases h2 : j = i
          · simp [h2]
          · rw [if_neg h1, if_neg h2, if_neg h1, if_neg h2]
            have : j - 1 + 1 = j := by omega
            rw [← this, List.getElem?_cons_succ, this]

theorem prevPtr_insertIdx (addrs : List Nat) (i c j : Nat) (hi : i ≤ addrs.length) :
    prevPtr (addrs.insertIdx i c) j =
      if j ≤ i then prevPtr addrs j else if j = i + 1 then some c else prevPtr addrs (j - 1) := by
  unfold prevPtr
  by_cases hj0 : j = 0
  · subst hj0; simp
  · rw [if_neg hj0, getElem?_insertIdx_eq c i addrs (j - 1) hi]
    by_cases h1 : j ≤ i
    · rw [if_pos h1, if_pos (by omega), if_neg hj0]
    · rw [if_neg h1, if_neg (by omega)]
      by_cases h2 : j = i + 1
      · rw [if_pos h2, if_pos (by omega)]
      · rw [if_neg h2, if_neg (by omega), if_neg (by omega)]

/-- A memory that differs from a linked one in a node `c` placed before position `i`, with its
two neighbours pointing to it, is linked as the list with `c` inserted at position `i`. -/
theorem PlaylistEngine.Linked.insert {pl pl2 : PlaylistEngine} {addrs : List Nat}
    {songs : List SongRef} (r : pl.Linked addrs songs) (i c : Nat) (s : SongRef)
    (hi : i ≤ addrs.length) (hcA : c ∉ addrs) (hcf : c < pl.fresh)
    (hfresh : pl2.fresh = pl.fresh)
    (hhead : pl2.head = if i = 0 then some c else pl.head)
    (htail : pl2.tail = if i = addrs.length then some c else pl.tail)
    (hmem : ∀ a, pl2.mem a =
      if a = c then some { song := s, next := addrs[i]?, prev := prevPtr addrs i }
      else if addrs[i]? = some a then (pl.mem a).map (fun nd => { nd with prev := some c })
      else if prevPtr addrs i = some a then (pl.mem a).map (fun nd => { nd with next := some c })
      else pl.mem a) :
    pl2.Linked (addrs.insertIdx i c) (songs.insertIdx i s) := by
  have hlenA : (addrs.insertIdx i c).length = addrs.length + 1 := List.length_insertIdx _ _ hi
  refine ⟨?_, ?_, ?_, ?_, ?_, ?_⟩
  · rw [hlenA, List.length_insertIdx _ _ (r.len ▸ hi), r.len]
  · exact ((List.perm_insertIdx c addrs hi).nodup_iff).mpr (List.nodup_cons.mpr ⟨hcA, r.nodup⟩)
  · intro a ha
    rw [hfresh]
    rcases (List.mem_insertIdx hi).mp ha with h | h
    · rw [h]; exact hcf
    · exact r.bound a h
  · rw [hhead, getElem?_insertIdx_eq c i addrs 0 hi]
    by_cases hi0 : i = 0
    · simp [hi0]
    · rw [if_neg hi0, if_pos (by omega), r.head_eq]
  · rw [htail, hlenA, getElem?_insertIdx_eq c i addrs _ hi]
    by_cases hil : i = addrs.length
    · rw [if_pos hil, if_neg (by omega), if_pos (by omega)]
    · rw [if_neg hil, if_neg (by omega), if_neg (by omega), r.tail_eq]
      rfl
  · intro j a sj hja hjs
    rw [getElem?_insertIdx_eq c i addrs j hi] at hja
    rw [getElem?_insertIdx_eq s i songs j (r.len ▸ hi)] at hjs
    by_cases hji : j < i
    · rw [if_pos hji] at hja hjs
      have hm := r.node j a sj hja hjs
      have hac : a ≠ c := fun h => hcA (h ▸ idx_mem hja)
      have hq : addrs[i]? ≠ some a := fun h => by
        have := idx_inj r.nodup h hja; omega
      have hprev : prevPtr (addrs.insertIdx i c) j = prevPtr addrs j := by
        rw [prevPtr_insertIdx addrs i c j hi, if_pos (by omega)]
      by_cases hji1 : j + 1 = i
      · have hp : prevPtr addrs i = some a :=
          prevPtr_eq_some.mpr ⟨by omega, by rw [← hji1]; simpa using hja⟩
        have hnext : (addrs.insertIdx i c)[j + 1]? = some c := by
          rw [getElem?_insertIdx_eq c i addrs (j + 1) hi, if_neg (by omega), if_pos hji1]
        rw [hnext, hprev, hmem a, if_neg hac, if_neg hq, if_pos hp, hm]
        rfl
      · have hp : prevPtr addrs i ≠ some a := fun h => by
          have h2 := prevPtr_eq_some.mp h
          have := idx_inj r.nodup h2.2 hja; omega
        have hnext : (addrs.insertIdx i c)[j + 1]? = addrs[j + 1]? := by
          rw [getElem?_insertIdx_eq c i addrs (j + 1) hi, if_pos (by omega)]
        rw [hnext, hprev, hmem a, if_neg hac, if_neg hq, if_neg hp, hm]
    · rw [if_neg hji] at hja hjs
      by_cases hji2 : j = i
      · subst hji2
        rw [if_pos rfl] at hja hjs
        have hac : c = a := Option.some.inj hja
        have hss : s = sj := Option.some.inj hjs
        subst hac hss
        have hnext : (addrs.insertIdx j c)[j + 1]? = addrs[j]? := by
          rw [getElem?_insertIdx_eq c j addrs (j + 1) hi, if_neg (by omega), if_neg (by omega)]
          rfl
        have hprev : prevPtr (addrs.insertIdx j c) j = prevPtr addrs j := by
          rw [prevPtr_insertIdx addrs j c j hi, if_pos (le_refl _)]
        rw [hnext, hprev, hmem c, if_pos rfl]
      · rw [if_neg hji2] at hja hjs
        have hm := r.node (j - 1) a sj hja hjs
        have hac : a ≠ c := fun h => hcA (h ▸ idx_mem hja)
        have hp : prevPtr addrs i ≠ some a := fun h => by
          have h2 := prevPtr_eq_some.mp h
          have := idx_inj r.nodup h2.2 hja; omega
        have hj1 : j - 1 + 1 = j := by omega
        rw [hj1] at hm
        have hnext : (addrs.insertIdx i c)[j + 1]? = addrs[j]? := by
          rw [getElem?_insertIdx_eq c i addrs (j + 1) hi, if_neg (by omega), if_neg (by omega)]
          rfl
        by_cases hji3 : j = i + 1
        · have hq : addrs[i]? = some a := by rw [← hja]; congr 1; omega
          have hprev : prevPtr (addrs.insertIdx i c) j = some c := by
            rw [prevPtr_insertIdx addrs i c j hi, if_neg (by omega), if_pos hji3]
          rw [hnext, hprev, hmem a, if_neg hac, if_pos hq, hm]
          rfl
        · have hq : addrs[i]? ≠ some a := fun h => by
            have := idx_inj r.nodup h hja; omega
          have hprev : prevPtr (addrs.insertIdx i c) j = prevPtr addrs (j - 1) := by
            rw [prevPtr_insertIdx addrs i c j hi, if_neg (by omega), if_neg hji3]
          rw [hnext, hprev, hmem a, if_neg hac, if_neg hq, if_neg hp, hm]

/-! ### Ordered sequence: move -/

/-- The state in which `move_song` is after unlinking the node at position `k`. -/
theorem PlaylistEngine.Repr.unlinked {pl : PlaylistEngine} {addrs : List Nat}
    {songs : List SongRef} (r : pl.Repr addrs songs) (k c : Nat) (s : SongRef)
    (hc : addrs[k]? = some c) (hs : songs[k]? = some s) :
    ∃ pl2, pl.unlink c = some pl2 ∧ pl2.Linked (addrs.eraseIdx k) (songs.eraseIdx k) ∧
      pl2.mem c = some { song := s, next := addrs[k + 1]?, prev := prevPtr addrs k } ∧
      c ∉ addrs.eraseIdx k ∧ c < pl2.fresh ∧ pl2.fresh = pl.fresh ∧ pl2.size = pl.size := by
  have hk : k < addrs.length := idx_lt hc
  have hm := r.node k c s hc hs
  obtain ⟨pl2, hun, hf2, hs2, hh2, ht2, hm2⟩ := r.toLinked.unlink_spec k c hc
  have hq : addrs[k + 1]? ≠ some c := fun h => by
    have := idx_inj r.nodup h hc; omega
  have hp : prevPtr addrs k ≠ some c := fun h => by
    have h2 := prevPtr_eq_some.mp h
    have := idx_inj r.nodup h2.2 hc; omega
  refine ⟨pl2, hun, r.toLinked.bypass k hk hf2 hh2 ht2 hm2, ?_,
    not_mem_eraseIdx_of_nodup r.nodup hc, ?_, hf2, hs2⟩
  · rw [hm2 c, if_neg hq, if_neg hp, hm]
  · rw [hf2]; exact r.bound c (idx_mem hc)

/-- Linking a detached node in front of a non-empty linked list (`to_index == 0`). -/
theorem PlaylistEngine.Linked.linkFront_spec {pl : PlaylistEngine} {addrs : List Nat}
    {songs : List SongRef} (r : pl.Linked addrs songs) (c : Nat) (nd : PlaylistNode)
    (hpos : 0 < addrs.length) (hmc : pl.mem c = some nd) (hcA : c ∉ addrs)
    (hcf : c < pl.fresh) :
    ∃ pl3, pl.linkFront c = some pl3 ∧
      pl3.Linked (addrs.insertIdx 0 c) (songs.insertIdx 0 nd.song) ∧
      pl3.fresh = pl.fresh ∧ pl3.size = pl.size := by
  obtain ⟨h0, s0, hh0, _, hm0⟩ := r.node_at 0 hpos
  obtain ⟨tl, _, htl, _, _⟩ := r.node_at (addrs.length - 1) (by omega)
  have hne : h0 ≠ c := fun h => hcA (h ▸ idx_mem hh0)
  have hhead : pl.head = some h0 := by rw [r.head_eq, hh0]
  have htail : pl.tail = some tl := by rw [r.tail_eq, htl]
  refine ⟨{ pl with
            head := some c
            mem := Function.update
                     (Function.update pl.mem c (some { nd with next := some h0, prev := none }))
                     h0 (some { song := s0, next := addrs[0 + 1]?, prev := some c }) },
    ?_, ?_, rfl, rfl⟩
  · simp [PlaylistEngine.linkFront, PlaylistEngine.setPrev, PlaylistEngine.setNext, hmc, hhead,
      htail, Function.update_noteq hne, hm0, prevPtr]
  · refine r.insert 0 c nd.song (Nat.zero_le _) hcA hcf rfl (by simp) ?_ ?_
    · have : ¬ (0 = addrs.length) := by omega
      simp [this]
    · intro a
      by_cases hac : a = c
      · subst hac
        simp [Function.update_noteq (Ne.symm hne), hh0, prevPtr]
      · by_cases hah : a = h0
        · subst hah
          simp [hac, hh0, hm0]
        · have h1 : ¬ (h0 = a) := fun h => hah h.symm
          simp [hac, hh0, h1, prevPtr, Function.update_noteq hah, Function.update_noteq hac]

/-- Linking a detached node behind a non-empty linked list (`to_index == size - 1`). -/
theorem PlaylistEngine.Linked.linkBack_spec {pl : PlaylistEngine} {addrs : List Nat}
    {songs : List SongRef} (r : pl.Linked addrs songs) (c : Nat) (nd : PlaylistNode)
    (hpos : 0 < addrs.length) (hmc : pl.mem c = some nd) (hcA : c ∉ addrs)
    (hcf : c < pl.fresh) :
    ∃ pl3, pl.linkBack c = some pl3 ∧
      pl3.Linked (addrs.insertIdx addrs.length c) (songs.insertIdx addrs.length nd.song) ∧
      pl3.fresh = pl.fresh ∧ pl3.size = pl.size := by
  obtain ⟨tl, st, htl, _, hmt⟩ := r.node_at (addrs.length - 1) (by omega)
  have hne : tl ≠ c := fun h => hcA (h ▸ idx_mem htl)
  have htail : pl.tail = some tl := by rw [r.tail_eq, htl]
  have hpl : prevPtr addrs addrs.length = some tl := prevPtr_eq_some.mpr ⟨hpos, htl⟩
  have hnone : addrs[addrs.length]? = none := List.getElem?_eq_none (le_refl _)
  refine ⟨{ pl with
            tail := some c
            mem := Function.update
                     (Function.update pl.mem c (some { nd with next := none, prev := some tl }))
                     tl (some { song := st, next := some c,
                                prev := prevPtr addrs (addrs.length - 1) }) },
    ?_, ?_, rfl, rfl⟩
  · simp [PlaylistEngine.linkBack, PlaylistEngine.setPrev, PlaylistEngine.setNext, hmc, htail,
      Function.update_noteq hne, hmt]
  · refine r.insert addrs.length c nd.song (le_refl _) hcA hcf rfl ?_ (by simp) ?_
    · have : ¬ (addrs.length = 0) := by omega
      simp [this]
    · intro a
      by_cases hac : a = c
      · subst hac
        simp [Function.update_noteq (Ne.symm hne), hnone, hpl]
      · by_cases hat : a = tl
        · subst hat
          simp [hac, hnone, hpl, hmt]
        · have h1 : ¬ (tl = a) := fun h => hat h.symm
          simp [hac, hnone, hpl, h1, Function.update_noteq hat, Function.update_noteq hac]

/-- Linking a detached node before the node at an inner position `i` of a linked list. -/
theorem PlaylistEngine.Linked.linkBefore_spec {pl : PlaylistEngine} {addrs : List Nat}
    {songs : List SongRef} (r : pl.Linked addrs songs) (c : Nat) (nd : PlaylistNode) (i : Nat)
    (hi0 : 0 < i) (hil : i < addrs.length) (hmc : pl.mem c = some nd) (hcA : c ∉ addrs)
    (hcf : c < pl.fresh) :
    ∃ pl3, pl.linkBefore c addrs[i]? = some pl3 ∧
      pl3.Linked (addrs.insertIdx i c) (songs.insertIdx i nd.song) ∧
      pl3.fresh = pl.fresh ∧ pl3.size = pl.size := by
  obtain ⟨tg, st, htg, _, hmt⟩ := r.node_at i hil
  obtain ⟨pv, sp, hpv, _, hmp⟩ := r.node_at (i - 1) (by omega)
  have hi1 : i - 1 + 1 = i := by omega
  rw [hi1] at hmp
  have hpp : prevPtr addrs i = some pv := prevPtr_eq_some.mpr ⟨hi0, hpv⟩
  rw [hpp] at hmt
  have hne1 : tg ≠ c := fun h => hcA (h ▸ idx_mem htg)
  have hne2 : pv ≠ c := fun h => hcA (h ▸ idx_mem hpv)
  have hne3 : tg ≠ pv := fun h => by
    have := idx_inj r.nodup htg (h ▸ hpv); omega
  refine ⟨{ pl with
            mem := Function.update
                     (Function.update
                       (Function.update pl.mem c (some { nd with next := some tg, prev := some pv }))
                       pv (some { song := sp, next := some c, prev := prevPtr addrs (i - 1) }))
                     tg (some { song := st, next := addrs[i + 1]?, prev := some c }) },
    ?_, ?_, rfl, rfl⟩
  · simp [PlaylistEngine.linkBefore, PlaylistEngine.setPrev, PlaylistEngine.setNext,
      PlaylistEngine.read, hmc, htg, Function.update_noteq hne1, Function.update_noteq hne2,
      Function.update_noteq hne3, hmt, hmp]
  · refine r.insert i c nd.song (le_of_lt hil) hcA hcf rfl ?_ ?_ ?_
    · have : ¬ (i = 0) := by omega
      simp [this]
    · have : ¬ (i = addrs.length) := by omega
      simp [this]
    · intro a
      by_cases hac : a = c
      · subst hac
        simp [Function.update_noteq (Ne.symm hne1), Function.update_noteq (Ne.symm hne2), htg,
          hpp]
      · by_cases hat : a = tg
        · subst hat
          simp [hac, htg, hmt]
        · have h1 : ¬ (tg = a) := fun h => hat h.symm
          by_cases hap : a = pv
          · subst hap
            simp [hac, htg, hpp, h1, hmp, Function.update_noteq hat]
          · have h2 : ¬ (pv = a) := fun h => hap h.symm
            simp [hac, htg, hpp, h1, h2, Function.update_noteq hat, Function.update_noteq hap,
              Function.update_noteq hac]

/-- After the unlinking, `getNodeAt` still uses the size from before: from the head it finds
position `t` of the remaining list, from the tail position `t - 1`. -/
theorem PlaylistEngine.Linked.getNodeAt_stale {pl : PlaylistEngine} {addrs : List Nat}
    {songs : List SongRef} (r : pl.Linked addrs songs) (hsz : pl.size = (addrs.length : Int) + 1)
    (t : Nat) (ht0 : 0 < t) (htl : t < addrs.length) :
    pl.getNodeAt (t : Int) =
      some addrs[if t < (addrs.length + 1) / 2 then t else t - 1]? := by
  have hin : ¬ ((t : Int) < 0 ∨ (t : Int) ≥ pl.size) := by rw [hsz]; omega
  have hdiv : pl.size.tdiv 2 = pl.size / 2 := Int.tdiv_eq_ediv (by omega) (by omega)
  unfold PlaylistEngine.getNodeAt
  rw [if_neg hin, hdiv, hsz]
  by_cases hlt : t < (addrs.length + 1) / 2
  · rw [if_pos (by omega), if_pos hlt, r.head_eq, Int.toNat_ofNat]
    have := r.walkNext_eq t 0 (by omega)
    simpa using this
  · rw [if_neg (by omega), if_neg hlt, r.tail_eq]
    have hn : ((addrs.length : Int) + 1 - 1 - (t : Int)).toNat = addrs.length - t := by omega
    rw [hn, r.walkPrev_eq (addrs.length - t) (addrs.length - 1) (by omega) (by omega)]
    congr 2
    omega

/-- `move_song` with valid, different indices, other than a move to index 1 in a list of
three: the node is unlinked and linked in again at position `moveLanding`. -/
theorem PlaylistEngine.Repr.move_song {pl : PlaylistEngine} {addrs : List Nat}
    {songs : List SongRef} (r : pl.Repr addrs songs) (k t c : Nat) (s : SongRef)
    (hc : addrs[k]? = some c) (hs : songs[k]? = some s) (ht : t < addrs.length) (hkt : k ≠ t)
    (hbad : ¬ (addrs.length = 3 ∧ t = 1)) :
    ∃ pl1, pl.move_song (k : Int) (t : Int) = some (true, pl1) ∧
      pl1.Repr ((addrs.eraseIdx k).insertIdx (moveLanding addrs.length t) c)
        ((songs.eraseIdx k).insertIdx (moveLanding addrs.length t) s) ∧
      pl1.fresh = pl.fresh := by
  have hk : k < addrs.length := idx_lt hc
  have hsz : pl.size = (addrs.length : Int) := by rw [r.size_eq, r.len]
  have hin : ¬ ((k : Int) < 0 ∨ (k : Int) ≥ pl.size ∨ (t : Int) < 0 ∨ (t : Int) ≥ pl.size ∨
      (k : Int) = (t : Int)) := by rw [hsz]; omega
  obtain ⟨pl2, hun, hl2, hmc, hcA, hcf, hf2, hs2⟩ := r.unlinked k c s hc hs
  have hlenA : (addrs.eraseIdx k).length = addrs.length - 1 := List.length_eraseIdx_of_lt hk
  have hlenX : (songs.eraseIdx k).length = addrs.length - 1 := by
    rw [List.length_eraseIdx_of_lt (r.len ▸ hk), r.len]
  have hsize : ∀ (pl3 : PlaylistEngine) (i : Nat), i ≤ (addrs.eraseIdx k).length →
      pl3.size = pl2.size →
      pl3.size = (((songs.eraseIdx k).insertIdx i s).length : Int) := by
    intro pl3 i hi h3
    rw [h3, hs2, hsz, List.length_insertIdx _ _ (by rw [hlenX, ← hlenA]; exact hi), hlenX]
    omega
  by_cases ht0 : t = 0
  · obtain ⟨pl3, h3, hl3, hf3, hs3⟩ := hl2.linkFront_spec c _ (by omega) hmc hcA hcf
    have hland : moveLanding addrs.length t = 0 := by simp [moveLanding, ht0]
    rw [hland]
    refine ⟨pl3, ?_, ⟨hl3, hsize pl3 0 (Nat.zero_le _) hs3⟩, hf3.trans hf2⟩
    have hti0 : (t : Int) = 0 := by omega
    unfold PlaylistEngine.move_song
    rw [if_neg hin]
    simp only [r.getNodeAt_eq k hk, hc, Option.bind_eq_bind, Option.some_bind, hun,
      if_pos hti0, h3]
  · by_cases htn : t = addrs.length - 1
    · obtain ⟨pl3, h3, hl3, hf3, hs3⟩ := hl2.linkBack_spec c _ (by omega) hmc hcA hcf
      have hland : moveLanding addrs.length t = (addrs.eraseIdx k).length := by
        unfold moveLanding
        rw [if_neg ht0, if_pos htn, hlenA]
      rw [hland]
      refine ⟨pl3, ?_, ⟨hl3, hsize pl3 _ (le_refl _) hs3⟩, hf3.trans hf2⟩
      have hti : (t : Int) = pl2.size - 1 := by rw [hs2, hsz]; omega
      have hti0 : ¬ ((t : Int) = 0) := by omega
      unfold PlaylistEngine.move_song
      rw [if_neg hin]
      simp only [r.getNodeAt_eq k hk, hc, Option.bind_eq_bind, Option.some_bind, hun,
        if_neg hti0, if_pos hti, h3]
    · have hsz2 : pl2.size = ((addrs.eraseIdx k).length : Int) + 1 := by
        rw [hs2, hsz, hlenA]; omega
      have hget := hl2.getNodeAt_stale hsz2 t (by omega) (by rw [hlenA]; omega)
      have hland : moveLanding addrs.length t =
          if t < ((addrs.eraseIdx k).length + 1) / 2 then t else t - 1 := by
        have : (addrs.eraseIdx k).length + 1 = addrs.length := by rw [hlenA]; omega
        unfold moveLanding
        rw [if_neg ht0, if_neg htn, this]
      rw [← hland] at hget
      have hi0 : 0 < moveLanding addrs.length t := by
        rw [hland, hlenA]
        have e : addrs.length - 1 + 1 = addrs.length := by omega
        rw [e]
        split
        · omega
        · omega
      have hil : moveLanding addrs.length t < (addrs.eraseIdx k).length := by
        rw [hland, hlenA]
        split <;> omega
      obtain ⟨pl3, h3, hl3, hf3, hs3⟩ := hl2.linkBefore_spec c _ _ hi0 hil hmc hcA hcf
      refine ⟨pl3, ?_, ⟨hl3, hsize pl3 _ (le_of_lt hil) hs3⟩, hf3.trans hf2⟩
      have hti : ¬ ((t : Int) = pl2.size - 1) := by rw [hs2, hsz]; omega
      have hti0 : ¬ ((t : Int) = 0) := by omega
      unfold PlaylistEngine.move_song
      rw [if_neg hin]
      simp only [r.getNodeAt_eq k hk, hc, Option.bind_eq_bind, Option.some_bind, hun,
        if_neg hti0, if_neg hti, hget, h3]

/-! ### Engine: the invariant is kept by every admitted operation -/

theorem PlayWiseEngine.Inv.new : PlayWiseEngine.new.Inv [] [] :=
  ⟨PlaylistEngine.Repr.empty, List.nodup_nil, by simp, by simp [PlayWiseEngine.new],
    by simp [PlayWiseEngine.new, InstantLookup.empty], by simp [PlayWiseEngine.new]⟩

theorem PlayWiseEngine.Inv.playSong {e : PlayWiseEngine} {addrs : List Nat}
    {songs : List SongRef} (h : e.Inv addrs songs) (song_id : String) :
    (e.playSong song_id).Inv addrs songs ∧ (e.playSong song_id).playlist = e.playlist ∧
      (e.playSong song_id).next_song = e.next_song := by
  unfold PlayWiseEngine.playSong
  cases hl : e.lookup.lookup_by_id song_id with
  | none => exact ⟨h, rfl, rfl⟩
  | some song =>
    refine ⟨⟨h.repr, h.nodup, h.songs_lt, ?_, h.lookup_lt, h.db_lt⟩, rfl, rfl⟩
    intro x hx
    simp only [PlaybackHistory.play_song, List.mem_cons] at hx
    rcases hx with hx | hx
    · rw [hx]; exact h.lookup_lt song_id song hl
    · exact h.history_lt x hx

theorem PlayWiseEngine.Inv.checkAndHandlePlaylistEnd {e : PlayWiseEngine} {addrs : List Nat}
    {songs : List SongRef} (h : e.Inv addrs songs) :
    ∃ b e1, e.checkAndHandlePlaylistEnd = some (b, e1) ∧ e1.Inv addrs songs := by
  have hall := h.repr.getAllSongs_eq
  unfold PlayWiseEngine.checkAndHandlePlaylistEnd
  simp only [hall, Option.bind_eq_bind, Option.some_bind]
  have base : ∀ (m : AutoReplayManager),
      ({ e with playlist_ended := true, replay_manager := m } : PlayWiseEngine).Inv addrs songs :=
    fun m => ⟨h.repr, h.nodup, h.songs_lt, h.history_lt, h.lookup_lt, h.db_lt⟩
  split
  · split
    · split
      · exact ⟨_, _, rfl, ((base _).playSong _).1⟩
      · exact ⟨_, _, rfl, base _⟩
    · exact ⟨_, _, rfl, ⟨h.repr, h.nodup, h.songs_lt, h.history_lt, h.lookup_lt, h.db_lt⟩⟩
  · exact ⟨_, _, rfl, h⟩

theorem PlayWiseEngine.Inv.autoPlayNext {e : PlayWiseEngine} {addrs : List Nat}
    {songs : List SongRef} (h : e.Inv addrs songs) :
    ∃ r e1, e.autoPlayNext = some (r, e1) ∧ e1.Inv addrs songs := by
  have hall := h.repr.getAllSongs_eq
  unfold PlayWiseEngine.autoPlayNext
  simp only [hall, Option.bind_eq_bind, Option.some_bind]
  split
  · exact ⟨_, _, rfl, (h.playSong _).1⟩
  · split
    · exact ⟨_, _, rfl, h⟩
    · obtain ⟨b, e1, hc, h1⟩ := h.checkAndHandlePlaylistEnd
      rw [hc]
      simp only [Option.some_bind]
      split
      · exact ⟨_, _, rfl, h1⟩
      · split
        · exact ⟨_, _, rfl, (h1.playSong _).1⟩
        · exact ⟨_, _, rfl, h1⟩

theorem PlaylistSorter.sort_perm (heap : SongHeap) (songs : List SongRef) (c : SortCriteria)
    (useQuickSort : Bool) :
    ∃ out, (if useQuickSort then PlaylistSorter.quickSort heap songs c
      else PlaylistSorter.mergeSort heap songs c) = some out ∧ out.Perm songs := by
  cases useQuickSort with
  | true =>
    obtain ⟨out, h, hp, _⟩ := PlaylistSorter.quickSortHelper_spec heap c songs.length songs []
      songs [] 0 ((songs.length : Int) - 1) (by simp) (by simp) (by simp) (le_refl _)
    exact ⟨out, by simpa [PlaylistSorter.quickSort] using h, hp⟩
  | false =>
    obtain ⟨out, h, hp, _⟩ := PlaylistSorter.mergeSortHelper_spec heap c songs.length songs []
      songs [] 0 ((songs.length : Int) - 1) (by simp) (by simp) (by simp) (le_refl _)
    exact ⟨out, by simpa [PlaylistSorter.mergeSort] using h, hp⟩

/-- What `addSong` does in a state that satisfies the invariant: it never fails, allocates a
new track, appends it to the owned set and to the playlist and maps the id to it. -/
theorem PlayWiseEngine.Inv.addSong {e : PlayWiseEngine} {addrs : List Nat}
    {songs : List SongRef} (h : e.Inv addrs songs) (now : Int) (id title artist : String)
    (duration rating : Int) (genre : String) :
    ∃ e1, e.addSong now id title artist duration rating genre = some (e.next_song, e1) ∧
      e1.Inv (addrs ++ [e.playlist.fresh]) (songs ++ [e.next_song]) ∧
      e1.songDatabase = e.songDatabase ++ [e.next_song] ∧
      e1.lookup.lookup_by_id id = some e.next_song ∧
      e1.next_song = e.next_song + 1 := by
  obtain ⟨pl1, hadd, r1, _⟩ := h.repr.add_song e.next_song
  have hnd : (songs ++ [e.next_song]).Nodup := by
    refine List.Nodup.append h.nodup (List.nodup_singleton _) ?_
    intro x hx hx2
    rw [List.mem_singleton.mp hx2] at hx
    exact Nat.lt_irrefl _ (h.songs_lt _ hx)
  have hlt : ∀ x ∈ songs ++ [e.next_song], x < e.next_song + 1 := by
    intro x hx
    rcases List.mem_append.mp hx with hx | hx
    · exact Nat.lt_succ_of_lt (h.songs_lt x hx)
    · rw [List.mem_singleton.mp hx]; exact Nat.lt_succ_self _
  have hhist : ∀ x ∈ e.history.history, x < e.next_song + 1 :=
    fun x hx => Nat.lt_succ_of_lt (h.history_lt x hx)
  have hlook : ∀ (i : String) (x : SongRef),
      Function.update e.lookup.id_map id (some e.next_song) i = some x → x < e.next_song + 1 := by
    intro i x hx
    by_cases hi : i = id
    · subst hi
      rw [Function.update_same] at hx
      rw [← Option.some.inj hx]; exact Nat.lt_succ_self _
    · rw [Function.update_noteq hi] at hx
      exact Nat.lt_succ_of_lt (h.lookup_lt i x hx)
  have hdb : ∀ x ∈ e.songDatabase ++ [e.next_song], x < e.next_song + 1 := by
    intro x hx
    rcases List.mem_append.mp hx with hx | hx
    · exact Nat.lt_succ_of_lt (h.db_lt x hx)
    · rw [List.mem_singleton.mp hx]; exact Nat.lt_succ_self _
  unfold PlayWiseEngine.addSong
  simp only [hadd, Option.bind_eq_bind, Option.some_bind, InstantLookup.add_song,
    Function.update_same]
  split
  · refine ⟨_, rfl, ⟨r1, hnd, hlt, hhist, hlook, hdb⟩, rfl, ?_, rfl⟩
    simp [InstantLookup.lookup_by_id]
  · refine ⟨_, rfl, ⟨r1, hnd, hlt, hhist, hlook, hdb⟩, rfl, ?_, rfl⟩
    simp [InstantLookup.lookup_by_id]

theorem PlayWiseEngine.Inv.undoLastPlay {e : PlayWiseEngine} {addrs : List Nat}
    {songs : List SongRef} (h : e.Inv addrs songs)
    (hadm : e.admits EngineOp.undoLastPlay = true) :
    ∃ e1 addrs1 songs1, e.undoLastPlay = some e1 ∧ e1.Inv addrs1 songs1 := by
  unfold PlayWiseEngine.undoLastPlay PlaybackHistory.undo_last_play
  cases hh : e.history.history with
  | nil =>
    refine ⟨_, addrs, songs, rfl, ⟨h.repr, h.nodup, h.songs_lt, ?_, h.lookup_lt, h.db_lt⟩⟩
    intro x hx
    exact h.history_lt x hx
  | cons song rest =>
    have hnot : song ∉ songs := by
      simpa [PlayWiseEngine.admits, hh, h.repr.getAllSongs_eq] using hadm
    have hsl : song < e.next_song := h.history_lt song (by rw [hh]; exact List.mem_cons_self _ _)
    obtain ⟨pl1, hadd, r1, _⟩ := h.repr.add_song song
    refine ⟨{ e with history := { history := rest }, playlist := pl1 }, _, _,
      by simp only [hadd, Option.bind_eq_bind, Option.some_bind],
      ⟨r1, ?_, ?_, ?_, h.lookup_lt, h.db_lt⟩⟩
    · refine List.Nodup.append h.nodup (List.nodup_singleton _) ?_
      intro x hx hx2
      rw [List.mem_singleton.mp hx2] at hx
      exact hnot hx
    · intro x hx
      rcases List.mem_append.mp hx with hx | hx
      · exact h.songs_lt x hx
      · rw [List.mem_singleton.mp hx]; exact hsl
    · intro x hx
      exact h.history_lt x (by rw [hh]; exact List.mem_cons_of_mem _ hx)

theorem PlayWiseEngine.Inv.sortPlaylist {e : PlayWiseEngine} {addrs : List Nat}
    {songs : List SongRef} (h : e.Inv addrs songs) (c : SortCriteria) (useQuickSort : Bool) :
    ∃ e1 addrs1 songs1, e.sortPlaylist c useQuickSort = some e1 ∧ e1.Inv addrs1 songs1 := by
  obtain ⟨out, hsort, hperm⟩ := PlaylistSorter.sort_perm e.heap songs c useQuickSort
  obtain ⟨pl1, addrs1, hre, r1⟩ := h.repr.rebuildFromVector out
  have heq : e.sortPlaylist c useQuickSort = some { e with playlist := pl1 } := by
    cases useQuickSort <;> simp at hsort <;>
      simp [PlayWiseEngine.sortPlaylist, h.repr.getAllSongs_eq, hsort, hre]
  exact ⟨_, addrs1, out, heq,
    ⟨r1, hperm.nodup_iff.mpr h.nodup, fun x hx => h.songs_lt x (hperm.mem_iff.mp hx),
      h.history_lt, h.lookup_lt, h.db_lt⟩⟩

theorem PlayWiseEngine.Inv.with_playlist {e : PlayWiseEngine} {addrs addrs1 : List Nat}
    {songs songs1 : List SongRef} (h : e.Inv addrs songs) (pl1 : PlaylistEngine)
    (r1 : pl1.Repr addrs1 songs1) (hnd : songs1.Nodup) (hsub : ∀ x ∈ songs1, x ∈ songs) :
    ({ e with playlist := pl1 } : PlayWiseEngine).Inv addrs1 songs1 :=
  ⟨r1, hnd, fun x hx => h.songs_lt x (hsub x hx), h.history_lt, h.lookup_lt, h.db_lt⟩

theorem PlayWiseEngine.Inv.step_delete_song {e : PlayWiseEngine} {addrs : List Nat}
    {songs : List SongRef} (h : e.Inv addrs songs) (index : Int) :
    ∃ e1 addrs1 songs1, e.step (EngineOp.delete_song index) = some e1 ∧
      e1.Inv addrs1 songs1 ∧ e1.heap = e.heap ∧ e1.lookup = e.lookup ∧
      ∀ x ∈ songs1, x ∈ songs := by
  have hsz : e.playlist.size = (addrs.length : Int) := by rw [h.repr.size_eq, h.repr.len]
  by_cases hin : index < 0 ∨ index ≥ e.playlist.size
  · refine ⟨e, addrs, songs, ?_, h, rfl, rfl, fun x hx => hx⟩
    simp [PlayWiseEngine.step, PlaylistEngine.delete_song, hin]
  · obtain ⟨k, hk⟩ : ∃ k : Nat, (k : Int) = index := ⟨index.toNat, by omega⟩
    subst hk
    have hkl : k < addrs.length := by omega
    obtain ⟨pl1, hdel, r1, _⟩ := h.repr.delete_song k hkl
    refine ⟨{ e with playlist := pl1 }, _, _, by simp [PlayWiseEngine.step, hdel],
      h.with_playlist pl1 r1 (h.nodup.sublist (List.eraseIdx_sublist _ _))
        (fun x hx => (List.eraseIdx_sublist _ _).subset hx), rfl, rfl,
      fun x hx => (List.eraseIdx_sublist _ _).subset hx⟩

theorem PlayWiseEngine.Inv.step_reverse_playlist {e : PlayWiseEngine} {addrs : List Nat}
    {songs : List SongRef} (h : e.Inv addrs songs) :
    ∃ e1 addrs1 songs1, e.step EngineOp.reverse_playlist = some e1 ∧ e1.Inv addrs1 songs1 := by
  obtain ⟨pl1, hrev, r1, _⟩ := h.repr.reverse_playlist
  exact ⟨{ e with playlist := pl1 }, _, _, by simp [PlayWiseEngine.step, hrev],
    h.with_playlist pl1 r1 (List.nodup_reverse.mpr h.nodup) (fun x hx => List.mem_reverse.mp hx)⟩

theorem PlayWiseEngine.Inv.step_move_song {e : PlayWiseEngine} {addrs : List Nat}
    {songs : List SongRef} (h : e.Inv addrs songs) (from_index to_index : Int)
    (hadm : e.admits (EngineOp.move_song from_index to_index) = true) :
    ∃ e1 addrs1 songs1, e.step (EngineOp.move_song from_index to_index) = some e1 ∧
      e1.Inv addrs1 songs1 ∧ e1.heap = e.heap ∧ e1.lookup = e.lookup ∧
      ∀ x ∈ songs1, x ∈ songs := by
  have hsz : e.playlist.size = (addrs.length : Int) := by rw [h.repr.size_eq, h.repr.len]
  by_cases hin : from_index < 0 ∨ from_index ≥ e.playlist.size ∨ to_index < 0 ∨
      to_index ≥ e.playlist.size ∨ from_index = to_index
  · refine ⟨e, addrs, songs, ?_, h, rfl, rfl, fun x hx => hx⟩
    simp only [PlayWiseEngine.step, PlaylistEngine.move_song, if_pos hin, Option.map_some']
  · obtain ⟨k, hk⟩ : ∃ k : Nat, (k : Int) = from_index := ⟨from_index.toNat, by omega⟩
    obtain ⟨t, ht⟩ : ∃ t : Nat, (t : Int) = to_index := ⟨to_index.toNat, by omega⟩
    subst hk ht
    have hkl : k < addrs.length := by omega
    have htl : t < addrs.length := by omega
    have hkt : k ≠ t := by omega
    have hbad : ¬ (addrs.length = 3 ∧ t = 1) := by
      simp only [PlayWiseEngine.admits, Bool.not_eq_true', Bool.and_eq_false_imp,
        decide_eq_true_eq, decide_eq_false_iff_not] at hadm
      intro hb
      exact hadm (by rw [hsz, hb.1]; rfl) (by rw [hb.2]; rfl)
    have hks : k < songs.length := h.repr.len ▸ hkl
    obtain ⟨pl1, hmv, r1, _⟩ := h.repr.move_song k t addrs[k] songs[k]
      (List.getElem?_eq_getElem hkl) (List.getElem?_eq_getElem hks) htl hkt hbad
    have hland : moveLanding addrs.length t ≤ (songs.eraseIdx k).length := by
      rw [List.length_eraseIdx_of_lt hks, ← h.repr.len]
      unfold moveLanding
      split
      · omega
      · split
        · omega
        · split <;> omega
    have hperm := List.perm_insertIdx songs[k] (songs.eraseIdx k) hland
    have hnot : songs[k] ∉ songs.eraseIdx k :=
      not_mem_eraseIdx_of_nodup h.nodup (List.getElem?_eq_getElem hks)
    have hsub : ∀ x ∈ (songs.eraseIdx k).insertIdx (moveLanding addrs.length t) songs[k],
        x ∈ songs := by
      intro x hx
      rcases List.mem_cons.mp (hperm.mem_iff.mp hx) with hx | hx
      · rw [hx]; exact List.getElem_mem _
      · exact (List.eraseIdx_sublist _ _).subset hx
    refine ⟨{ e with playlist := pl1 }, _, _, by simp [PlayWiseEngine.step, hmv],
      h.with_playlist pl1 r1 ?_ hsub, rfl, rfl, hsub⟩
    exact hperm.nodup_iff.mpr
      (List.nodup_cons.mpr ⟨hnot, h.nodup.sublist (List.eraseIdx_sublist _ _)⟩)

/-- Every admitted operation runs to completion and keeps the invariant. -/
theorem PlayWiseEngine.Inv.step {e : PlayWiseEngine} {addrs : List Nat}
    {songs : List SongRef} (h : e.Inv addrs songs) (op : EngineOp)
    (hadm : e.admits op = true) :
    ∃ e1 addrs1 songs1, e.step op = some e1 ∧ e1.Inv addrs1 songs1 := by
  cases op with
  | addSong now id title artist duration rating genre =>
    obtain ⟨e1, h1, hi, _⟩ := h.addSong now id title artist duration rating genre
    exact ⟨e1, _, _, by simp [PlayWiseEngine.step, h1], hi⟩
  | playSong song_id => exact ⟨_, addrs, songs, rfl, (h.playSong song_id).1⟩
  | skipCurrentSong =>
    refine ⟨_, addrs, songs, rfl, ?_⟩
    unfold PlayWiseEngine.skipCurrentSong
    split
    · exact ⟨h.repr, h.nodup, h.songs_lt, h.history_lt, h.lookup_lt, h.db_lt⟩
    · exact h
  | autoPlayNext =>
    obtain ⟨r, e1, h1, hi⟩ := h.autoPlayNext
    exact ⟨e1, addrs, songs, by simp [PlayWiseEngine.step, h1], hi⟩
  | undoLastPlay => exact h.undoLastPlay hadm
  | sortPlaylist c q => exact h.sortPlaylist c q
  | move_song f t =>
    obtain ⟨e1, a1, s1, h1, hi, _⟩ := h.step_move_song f t hadm
    exact ⟨e1, a1, s1, h1, hi⟩
  | delete_song i =>
    obtain ⟨e1, a1, s1, h1, hi, _⟩ := h.step_delete_song i
    exact ⟨e1, a1, s1, h1, hi⟩
  | reverse_playlist => exact h.step_reverse_playlist

theorem PlayWiseEngine.Inv.run :
    ∀ (ops : List EngineOp) (e : PlayWiseEngine) (addrs : List Nat) (songs : List SongRef),
      e.Inv addrs songs → e.admitsAll ops = true →
      ∃ e1 addrs1 songs1, e.run ops = some e1 ∧ e1.Inv addrs1 songs1 := by
  intro ops
  induction ops with
  | nil => intro e addrs songs h _; exact ⟨e, addrs, songs, rfl, h⟩
  | cons op rest ih =>
    intro e addrs songs h hadm
    simp only [PlayWiseEngine.admitsAll, Bool.and_eq_true] at hadm
    obtain ⟨e1, addrs1, songs1, hstep, h1⟩ := h.step op hadm.1
    rw [hstep] at hadm
    obtain ⟨e2, addrs2, songs2, hrun, h2⟩ := ih e1 addrs1 songs1 h1 hadm.2
    refine ⟨e2, addrs2, songs2, ?_, h2⟩
    simp only [PlayWiseEngine.run, List.foldlM, hstep, Option.bind_eq_bind, Option.some_bind]
    exact hrun

/-! ### Claims on the engine and the ordered sequence -/

/-- C4 (failing input): on the sequence `[1, 2, 3, 4]` the call `move_song(0, 2)` returns true
and leaves the moved track at index 1, not 2; on `[1, 2, 3]` the call `move_song(0, 1)` returns
true and the moved track is no longer reached from the head. -/
theorem C4_move_misses_requested_index :
    ((PlaylistEngine.ofList [1, 2, 3, 4]).bind (fun pl => pl.move_song 0 2)).map (fun r => r.1) =
        some true ∧
      ((PlaylistEngine.ofList [1, 2, 3, 4]).bind (fun pl => pl.move_song 0 2)).bind
        (fun r => r.2.getAllSongs) = some [2, 1, 3, 4] ∧
      ((PlaylistEngine.ofList [1, 2, 3]).bind (fun pl => pl.move_song 0 1)).map (fun r => r.1) =
        some true ∧
      ((PlaylistEngine.ofList [1, 2, 3]).bind (fun pl => pl.move_song 0 1)).bind
        (fun r => r.2.getAllSongs) = some [2, 3] := by
  decide

/-- C5 (counterexample): after `addSong`, `playSong` of that track and `undoLastPlay`, the
track occurs twice in the playing order. -/
theorem C5_counterexample :
    (PlayWiseEngine.new.run [EngineOp.addSong 0 "a" "A" "x" 100 0 "Rock",
        EngineOp.playSong "a", EngineOp.undoLastPlay]).bind (fun e => e.playlist.getAllSongs) =
      some [0, 0] ∧ ¬ ([0, 0] : List SongRef).Nodup := by
  decide

/-- C5 (amended): in every state reached from the empty engine by operations that are admitted
when they run (`undoLastPlay` only when the popped track is not in the sequence, no
`move_song` to index 1 of a sequence of three), every operation returns and `getAllSongs` has
no repeated track. -/
theorem C5_no_duplicates_when_admitted (ops : List EngineOp)
    (hadm : PlayWiseEngine.new.admitsAll ops = true) :
    ∃ e songs, PlayWiseEngine.new.run ops = some e ∧ e.playlist.getAllSongs = some songs ∧
      songs.Nodup := by
  obtain ⟨e, addrs, songs, hrun, hinv⟩ := PlayWiseEngine.Inv.run ops PlayWiseEngine.new [] []
    PlayWiseEngine.Inv.new hadm
  exact ⟨e, songs, hrun, hinv.repr.getAllSongs_eq, hinv.nodup⟩

theorem C5_no_duplicates_when_admitted_witness :
    PlayWiseEngine.new.admitsAll sampleOps = true ∧
      ∃ e songs, PlayWiseEngine.new.run sampleOps = some e ∧
        e.playlist.getAllSongs = some songs ∧ songs.Nodup :=
  ⟨by decide, C5_no_duplicates_when_admitted sampleOps (by decide)⟩

/-- C6 (counterexample): a second `addSong` with the id of an existing track returns a new
track, and the owned set, the playing order and the id map all change. -/
theorem C6_counterexample :
    ((PlayWiseEngine.new.addSong 0 "a" "A" "x" 100 0 "Rock").bind
        (fun r => r.2.addSong 1 "a" "B" "y" 90 0 "Pop")).map
        (fun r => (r.1, r.2.songDatabase, r.2.lookup.lookup_by_id "a")) =
        some (1, [0, 1], some 1) ∧
      ((PlayWiseEngine.new.addSong 0 "a" "A" "x" 100 0 "Rock").bind
        (fun r => r.2.addSong 1 "a" "B" "y" 90 0 "Pop")).bind
        (fun r => r.2.playlist.getAllSongs) = some [0, 1] ∧
      (PlayWiseEngine.new.addSong 0 "a" "A" "x" 100 0 "Rock").map
        (fun r => (r.2.songDatabase, r.2.lookup.lookup_by_id "a")) = some ([0], some 0) := by
  decide

/-- C6 (amended): in every state reached by admitted operations `addSong` returns for every
id, present or not: it allocates a track that was not owned before, appends it to the owned
set and to the playing order, and the id map then gives the new track for the id, not the
track it gave before. -/
theorem C6_addSong_adds_a_track_for_any_id (ops : List EngineOp)
    (hadm : PlayWiseEngine.new.admitsAll ops = true) (now : Int) (id title artist : String)
    (duration rating : Int) (genre : String) :
    ∃ e songs e1, PlayWiseEngine.new.run ops = some e ∧ e.playlist.getAllSongs = some songs ∧
      e.addSong now id title artist duration rating genre = some (e.next_song, e1) ∧
      e.next_song ∉ e.songDatabase ∧
      e1.songDatabase = e.songDatabase ++ [e.next_song] ∧
      e1.playlist.getAllSongs = some (songs ++ [e.next_song]) ∧
      e1.lookup.lookup_by_id id = some e.next_song ∧
      (∀ old, e.lookup.lookup_by_id id = some old → old ≠ e.next_song) := by
  obtain ⟨e, addrs, songs, hrun, hinv⟩ := PlayWiseEngine.Inv.run ops PlayWiseEngine.new [] []
    PlayWiseEngine.Inv.new hadm
  obtain ⟨e1, hadd, hinv1, hdb, hlook, _⟩ :=
    hinv.addSong now id title artist duration rating genre
  refine ⟨e, songs, e1, hrun, hinv.repr.getAllSongs_eq, hadd, ?_, hdb,
    hinv1.repr.getAllSongs_eq, hlook, ?_⟩
  · exact fun hmem => Nat.lt_irrefl _ (hinv.db_lt _ hmem)
  · intro old hold heq
    have hlt : old < e.next_song := hinv.lookup_lt id old hold
    rw [heq] at hlt
    exact Nat.lt_irrefl _ hlt

theorem C6_addSong_adds_a_track_for_any_id_witness :
    PlayWiseEngine.new.admitsAll [EngineOp.addSong 0 "a" "A" "x" 100 0 "Rock"] = true ∧
      ∃ e songs e1,
        PlayWiseEngine.new.run [EngineOp.addSong 0 "a" "A" "x" 100 0 "Rock"] = some e ∧
        e.playlist.getAllSongs = some songs ∧
        e.addSong 1 "a" "B" "y" 90 0 "Pop" = some (e.next_song, e1) ∧
        e.next_song ∉ e.songDatabase ∧
        e1.songDatabase = e.songDatabase ++ [e.next_song] ∧
        e1.playlist.getAllSongs = some (songs ++ [e.next_song]) ∧
        e1.lookup.lookup_by_id "a" = some e.next_song ∧
        (∀ old, e.lookup.lookup_by_id "a" = some old → old ≠ e.next_song) :=
  ⟨by decide, C6_addSong_adds_a_track_for_any_id [EngineOp.addSong 0 "a" "A" "x" 100 0 "Rock"]
    (by decide) 1 "a" "B" "y" 90 0 "Pop"⟩

/-- C7 (failing input): with one Jazz track played once and then removed from the playlist,
the Replay Selector would yield that track, and `checkAndHandlePlaylistEnd` called on its own
plays it; but `autoPlayNext` returns no track and changes nothing: the current track, the
history, the play count and the `playlist_ended` flag stay as they were. -/
theorem C7_autoPlayNext_skips_end_handling :
    emptiedEngine.bind (fun e => e.playlist.getAllSongs) = some [] ∧
      emptiedEngine.map (fun e =>
        (AutoReplayManager.setupAutoReplay e.heap e.replay_manager
          e.songDatabase).getNextReplaySong.1) = some (some 0) ∧
      (emptiedEngine.bind (fun e => e.checkAndHandlePlaylistEnd)).map
        (fun r => (r.1, r.2.history.history, (r.2.heap 0).play_count)) =
        some (false, [0, 0], 2) ∧
      emptiedEngine.map
        (fun e => (e.playlist_ended, e.current_song, e.history.history, (e.heap 0).play_count)) =
        some (false, some 0, [0], 1) ∧
      (emptiedEngine.bind (fun e => e.autoPlayNext)).map (fun r =>
        (r.1, r.2.playlist_ended, r.2.current_song, r.2.history.history,
          (r.2.heap 0).play_count)) = some (none, false, some 0, [0], 1) := by
  decide

/-! ### Claims on the ordered sequence alone -/

theorem samplePlaylist_represents : samplePlaylist.Represents [10, 11, 12] := by
  refine ⟨[0, 1, 2], ⟨⟨rfl, by decide, by decide, rfl, rfl, ?_⟩, rfl⟩⟩
  intro k a s hk hs
  match k with
  | 0 => simp at hk hs; subst hk hs; rfl
  | 1 => simp at hk hs; subst hk hs; rfl
  | 2 => simp at hk hs; subst hk hs; rfl
  | n + 3 => simp at hk

/-- C16: for every playlist state, also the empty one, `delete_song` with an index below 0 or
at least `size` returns false and leaves the state, hence `getAllSongs` and `getSize`, as it
was. -/
theorem C16_delete_out_of_range_is_noop (pl : PlaylistEngine) (index : Int)
    (h : index < 0 ∨ index ≥ pl.getSize) :
    pl.delete_song index = some (false, pl) := by
  unfold PlaylistEngine.getSize at h
  simp [PlaylistEngine.delete_song, h]

theorem C16_delete_out_of_range_is_noop_witness :
    ((0 : Int) < 0 ∨ (0 : Int) ≥ PlaylistEngine.empty.getSize) ∧
      PlaylistEngine.empty.delete_song 0 = some (false, PlaylistEngine.empty) :=
  ⟨by decide, C16_delete_out_of_range_is_noop PlaylistEngine.empty 0 (by decide)⟩

/-- C17: for every playlist state, `move_song` returns false and leaves the state, hence
`getAllSongs`, as it was whenever `from_index` or `to_index` lies outside `[0, size)` or the
two are equal. -/
theorem C17_invalid_move_is_noop (pl : PlaylistEngine) (from_index to_index : Int)
    (h : from_index < 0 ∨ from_index ≥ pl.getSize ∨ to_index < 0 ∨ to_index ≥ pl.getSize ∨
      from_index = to_index) :
    pl.move_song from_index to_index = some (false, pl) := by
  unfold PlaylistEngine.getSize at h
  simp only [PlaylistEngine.move_song, if_pos h]

theorem C17_invalid_move_is_noop_witness :
    ((1 : Int) < 0 ∨ (1 : Int) ≥ samplePlaylist.getSize ∨ (1 : Int) < 0 ∨
        (1 : Int) ≥ samplePlaylist.getSize ∨ (1 : Int) = 1) ∧
      samplePlaylist.move_song 1 1 = some (false, samplePlaylist) :=
  ⟨by decide, C17_invalid_move_is_noop samplePlaylist 1 1 (by decide)⟩

/-- On a well-formed playlist holding `songs`, `delete_song` with `0 <= index < size`
returns true, `getAllSongs` afterwards is `songs` without the element at `index`, and
`getSize` is one less. -/
theorem PlaylistEngine.Represents.delete_song_at (pl : PlaylistEngine) (songs : List SongRef)
    (h : pl.Represents songs) (index : Int) (h0 : 0 ≤ index) (h1 : index < pl.getSize) :
    pl.getAllSongs = some songs ∧
      ∃ pl1, pl.delete_song index = some (true, pl1) ∧
        pl1.getAllSongs = some (songs.eraseIdx index.toNat) ∧
        pl1.getSize = pl.getSize - 1 := by
  obtain ⟨addrs, r⟩ := h
  have hsz : pl.size = (addrs.length : Int) := by rw [r.size_eq, r.len]
  unfold PlaylistEngine.getSize at h1
  obtain ⟨k, hk⟩ : ∃ k : Nat, (k : Int) = index := ⟨index.toNat, by omega⟩
  subst hk
  have hkl : k < addrs.length := by omega
  obtain ⟨pl1, hdel, r1, _⟩ := r.delete_song k hkl
  refine ⟨r.getAllSongs_eq, pl1, hdel, by simpa using r1.getAllSongs_eq, ?_⟩
  unfold PlaylistEngine.getSize
  rw [r1.size_eq, r.size_eq, List.length_eraseIdx_of_lt (r.len ▸ hkl)]
  have : 0 < songs.length := by rw [← r.len]; omega
  omega

/-- On a well-formed playlist holding `songs`, also an empty or single-element one,
`reverse_playlist` returns, `getAllSongs` afterwards is the reverse of `songs`, and `getSize`
is unchanged. -/
theorem PlaylistEngine.Represents.reverse_playlist_eq (pl : PlaylistEngine) (songs : List SongRef)
    (h : pl.Represents songs) :
    pl.getAllSongs = some songs ∧
      ∃ pl1, pl.reverse_playlist = some pl1 ∧ pl1.getAllSongs = some songs.reverse ∧
        pl1.getSize = pl.getSize := by
  obtain ⟨addrs, r⟩ := h
  obtain ⟨pl1, hrev, r1, _⟩ := r.reverse_playlist
  refine ⟨r.getAllSongs_eq, pl1, hrev, r1.getAllSongs_eq, ?_⟩
  unfold PlaylistEngine.getSize
  rw [r1.size_eq, r.size_eq, List.length_reverse]

/-! ### Rating index: search after insertions -/

theorem SongRatingTree.search_insertHelper (song : SongRef) (rating : Int) :
    ∀ (node : RatingNode) (r : Int),
      SongRatingTree.search_by_rating
          { root := SongRatingTree.insertHelper node song rating } r =
        if r = rating then SongRatingTree.search_by_rating { root := node } r ++ [song]
        else SongRatingTree.search_by_rating { root := node } r := by
  intro node
  induction node with
  | nil =>
    intro r
    by_cases h : r = rating
    · subst h
      simp [SongRatingTree.search_by_rating, SongRatingTree.insertHelper,
        SongRatingTree.searchHelper]
    · have h2 : ¬ (rating = r) := fun e => h e.symm
      simp only [SongRatingTree.search_by_rating, SongRatingTree.insertHelper,
        SongRatingTree.searchHelper, if_neg h, if_neg h2]
      split_ifs <;> rfl
  | node q songs left right ihl ihr =>
    intro r
    simp only [SongRatingTree.search_by_rating] at ihl ihr ⊢
    unfold SongRatingTree.insertHelper
    by_cases hrq : rating = q
    · subst hrq
      rw [if_pos rfl]
      by_cases h : r = rating
      · subst h
        simp [SongRatingTree.searchHelper]
      · have h2 : ¬ (rating = r) := fun e => h e.symm
        simp only [SongRatingTree.searchHelper, if_neg h, if_neg h2]
    · rw [if_neg hrq]
      by_cases hlt : rating < q
      · rw [if_pos hlt]
        by_cases h : r = rating
        · subst h
          have h3 : ¬ (q = r) := fun e => hrq e.symm
          simp only [SongRatingTree.searchHelper, if_neg h3, if_pos hlt, if_true]
          have := ihl r
          rw [if_pos rfl] at this
          exact this
        · rw [if_neg h]
          by_cases hq : q = r
          · simp only [SongRatingTree.searchHelper, if_pos hq]
          · simp only [SongRatingTree.searchHelper, if_neg hq]
            by_cases hrl : r < q
            · simp only [if_pos hrl]
              have := ihl r
              rw [if_neg h] at this
              exact this
            · simp only [if_neg hrl]
      · rw [if_neg hlt]
        by_cases h : r = rating
        · subst h
          have h3 : ¬ (q = r) := fun e => hrq e.symm
          simp only [SongRatingTree.searchHelper, if_neg h3, if_neg hlt, if_true]
          have := ihr r
          rw [if_pos rfl] at this
          exact this
        · rw [if_neg h]
          by_cases hq : q = r
          · simp only [SongRatingTree.searchHelper, if_pos hq]
          · simp only [SongRatingTree.searchHelper, if_neg hq]
            by_cases hrl : r < q
            · simp only [if_pos hrl]
            · simp only [if_neg hrl]
              have := ihr r
              rw [if_neg h] at this
              exact this

theorem SongRatingTree.search_insertAll :
    ∀ (ins : List (SongRef × Int)) (heap : SongHeap) (t : SongRatingTree) (r : Int),
      (∀ p ∈ ins, 1 ≤ p.2 ∧ p.2 ≤ 5) →
      (SongRatingTree.insertAll heap t ins).2.search_by_rating r =
        t.search_by_rating r ++ (ins.filter (fun p => decide (p.2 = r))).map (fun p => p.1) := by
  intro ins
  induction ins with
  | nil => intro heap t r _; simp [SongRatingTree.insertAll]
  | cons p rest ih =>
    intro heap t r hall
    obtain ⟨song, rating⟩ := p
    have hp : 1 ≤ rating ∧ rating ≤ 5 := hall (song, rating) (List.mem_cons_self _ _)
    have hguard : ¬ (rating < 1 ∨ rating > 5) := by omega
    have hstep : (SongRatingTree.insert_song heap t song rating).2 =
        { root := SongRatingTree.insertHelper t.root song rating } := by
      simp [SongRatingTree.insert_song, hguard]
    rw [SongRatingTree.insertAll, ih _ _ r (fun q hq => hall q (List.mem_cons_of_mem _ hq)),
      hstep, SongRatingTree.search_insertHelper song rating t.root r]
    by_cases h : r = rating
    · subst h
      simp [List.filter_cons]
    · have h2 : ¬ (rating = r) := fun e => h e.symm
      simp [List.filter_cons, h, h2]

/-- C20: starting from the empty Rating Index, after any sequence of `insert_song` calls with
ratings in 1..5, `search_by_rating r` returns exactly the tracks inserted with rating `r`, in
insertion order (the empty list when there is none). -/
theorem C20_search_returns_the_bucket (heap : SongHeap) (ins : List (SongRef × Int)) (r : Int)
    (hall : ∀ p ∈ ins, 1 ≤ p.2 ∧ p.2 ≤ 5) :
    (SongRatingTree.insertAll heap SongRatingTree.empty ins).2.search_by_rating r =
      (ins.filter (fun p => decide (p.2 = r))).map (fun p => p.1) := by
  rw [SongRatingTree.search_insertAll ins heap SongRatingTree.empty r hall]
  simp [SongRatingTree.search_by_rating, SongRatingTree.empty, SongRatingTree.searchHelper]

theorem C20_search_returns_the_bucket_witness :
    (∀ p ∈ ([(1, 5), (2, 3), (3, 5), (4, 4)] : List (SongRef × Int)), 1 ≤ p.2 ∧ p.2 ≤ 5) ∧
      (SongRatingTree.insertAll sampleHeap SongRatingTree.empty
          [(1, 5), (2, 3), (3, 5), (4, 4)]).2.search_by_rating 5 =
        (([(1, 5), (2, 3), (3, 5), (4, 4)] : List (SongRef × Int)).filter
          (fun p => decide (p.2 = 5))).map (fun p => p.1) :=
  ⟨by decide, C20_search_returns_the_bucket sampleHeap [(1, 5), (2, 3), (3, 5), (4, 4)] 5
    (by decide)⟩

/-! ### Engine: tracks of the sequence are found under their id -/

theorem PlayWiseEngine.addSong_effect {e e1 : PlayWiseEngine} {song : SongRef} (now : Int)
    (id title artist : String) (duration rating : Int) (genre : String)
    (h : e.addSong now id title artist duration rating genre = some (song, e1)) :
    e1.lookup.id_map = Function.update e.lookup.id_map id (some e.next_song) ∧
      (∀ t, t ≠ e.next_song → e1.heap t = e.heap t) ∧ (e1.heap e.next_song).id = id := by
  unfold PlayWiseEngine.addSong at h
  cases hadd : e.playlist.add_song e.next_song with
  | none => simp [hadd] at h
  | some pl1 =>
    simp only [hadd, Option.bind_eq_bind, Option.some_bind, InstantLookup.add_song,
      Function.update_same] at h
    split at h
    · simp only [Option.some.injEq, Prod.mk.injEq] at h
      obtain ⟨_, h2⟩ := h
      subst h2
      refine ⟨rfl, ?_, ?_⟩
      · intro t ht
        simp only [SongRatingTree.insert_song]
        split
        · simp [Function.update_noteq ht]
        · simp [Function.update_noteq ht]
      · simp only [SongRatingTree.insert_song]
        split
        · simp
        · simp
    · simp only [Option.some.injEq, Prod.mk.injEq] at h
      obtain ⟨_, h2⟩ := h
      subst h2
      refine ⟨rfl, ?_, ?_⟩
      · intro t ht
        simp [Function.update_noteq ht]
      · simp

theorem PlayWiseEngine.Inv.run_edits :
    ∀ (ops : List EngineOp) (e : PlayWiseEngine) (addrs : List Nat) (songs : List SongRef),
      e.Inv addrs songs → (∀ t ∈ songs, e.lookup.lookup_by_id (e.heap t).id = some t) →
      e.admitsAllEdits ops = true →
      ∃ e1 addrs1 songs1, e.run ops = some e1 ∧ e1.Inv addrs1 songs1 ∧
        ∀ t ∈ songs1, e1.lookup.lookup_by_id (e1.heap t).id = some t := by
  intro ops
  induction ops with
  | nil => intro e addrs songs h hc _; exact ⟨e, addrs, songs, rfl, h, hc⟩
  | cons op rest ih =>
    intro e addrs songs h hc hadm
    simp only [PlayWiseEngine.admitsAllEdits, Bool.and_eq_true] at hadm
    have hstep : ∃ e1 addrs1 songs1, e.step op = some e1 ∧ e1.Inv addrs1 songs1 ∧
        ∀ t ∈ songs1, e1.lookup.lookup_by_id (e1.heap t).id = some t := by
      cases op with
      | addSong now id title artist duration rating genre =>
        have hfresh : e.lookup.id_map id = none := by
          simpa [PlayWiseEngine.admitsEdit, InstantLookup.lookup_by_id] using hadm.1
        obtain ⟨e1, h1, hi, _⟩ := h.addSong now id title artist duration rating genre
        obtain ⟨hl, hh, hid⟩ := PlayWiseEngine.addSong_effect now id title artist duration
          rating genre h1
        refine ⟨e1, _, _, by simp [PlayWiseEngine.step, h1], hi, ?_⟩
        intro t ht
        simp only [InstantLookup.lookup_by_id, hl]
        rcases List.mem_append.mp ht with ht | ht
        · have hne : t ≠ e.next_song := fun heq => by
            have hlt : t < e.next_song := h.songs_lt t ht
            rw [heq] at hlt
            exact Nat.lt_irrefl _ hlt
          have hct := hc t ht
          simp only [InstantLookup.lookup_by_id] at hct
          rw [hh t hne]
          have hidne : (e.heap t).id ≠ id := fun heq => by
            rw [heq, hfresh] at hct; exact absurd hct (by simp)
          rw [Function.update_noteq hidne]
          exact hct
        · rw [List.mem_singleton.mp ht, hid, Function.update_same]
      | delete_song i =>
        obtain ⟨e1, a1, s1, h1, hi, hheap, hlook, hsub⟩ := h.step_delete_song i
        exact ⟨e1, a1, s1, h1, hi, fun t ht => by rw [hheap, hlook]; exact hc t (hsub t ht)⟩
      | move_song f t =>
        obtain ⟨e1, a1, s1, h1, hi, hheap, hlook, hsub⟩ := h.step_move_song f t
          (by simpa [PlayWiseEngine.admitsEdit] using hadm.1)
        exact ⟨e1, a1, s1, h1, hi, fun t ht => by rw [hheap, hlook]; exact hc t (hsub t ht)⟩
      | playSong _ => simp [PlayWiseEngine.admitsEdit] at hadm
      | skipCurrentSong => simp [PlayWiseEngine.admitsEdit] at hadm
      | autoPlayNext => simp [PlayWiseEngine.admitsEdit] at hadm
      | undoLastPlay => simp [PlayWiseEngine.admitsEdit] at hadm
      | sortPlaylist _ _ => simp [PlayWiseEngine.admitsEdit] at hadm
      | reverse_playlist => simp [PlayWiseEngine.admitsEdit] at hadm
    obtain ⟨e1, addrs1, songs1, hs, h1, hc1⟩ := hstep
    rw [hs] at hadm
    obtain ⟨e2, addrs2, songs2, hrun, h2, hc2⟩ := ih e1 addrs1 songs1 h1 hc1 hadm.2
    refine ⟨e2, addrs2, songs2, ?_, h2, hc2⟩
    simp only [PlayWiseEngine.run, List.foldlM, hs, Option.bind_eq_bind, Option.some_bind]
    exact hrun

/-! ### Claims C11 to C14 -/

/-- C11 (counterexample): with two tracks added under the same id, `autoPlayNext` returns the
first track of the sequence but the track that becomes current, is pushed on the history and
counted is the second one. -/
theorem C11_counterexample :
    twinEngine.bind (fun e => e.playlist.getAllSongs) = some [0, 1] ∧
      (twinEngine.bind (fun e => e.autoPlayNext)).map (fun r =>
        (r.1, r.2.current_song, r.2.history.history, (r.2.heap 0).play_count,
          (r.2.heap 1).play_count)) = some (some 0, some 1, [1], 0, 1) := by
  decide

/-- C11 (amended): on a non-empty sequence `autoPlayNext` returns the first track whose id is
not in the Recency Tracker, or the track at position 0 when every track is in the tracker, and
calls `playSong` with that track's id; the returned track is the one that becomes current and
goes on top of the history whenever the Identity Index finds it under its id. -/
theorem C11_autoPlayNext_selection (e : PlayWiseEngine) (songs : List SongRef)
    (hall : e.playlist.getAllSongs = some songs) (hne : songs ≠ []) :
    ∃ s, (songs.find? (fun t => !e.skipped_tracker.wasRecentlySkipped (e.heap t).id) = some s ∨
        ((∀ t ∈ songs, e.skipped_tracker.wasRecentlySkipped (e.heap t).id = true) ∧
          songs.head? = some s)) ∧
      e.autoPlayNext = some (some s, e.playSong (e.heap s).id) ∧
      (e.lookup.lookup_by_id (e.heap s).id = some s →
        (e.playSong (e.heap s).id).current_song = some s ∧
        (e.playSong (e.heap s).id).history.history = s :: e.history.history ∧
        ((e.playSong (e.heap s).id).heap s).play_count = (e.heap s).play_count + 1) := by
  have hplay : ∀ s, e.lookup.lookup_by_id (e.heap s).id = some s →
      (e.playSong (e.heap s).id).current_song = some s ∧
      (e.playSong (e.heap s).id).history.history = s :: e.history.history ∧
      ((e.playSong (e.heap s).id).heap s).play_count = (e.heap s).play_count + 1 := by
    intro s hs
    simp [PlayWiseEngine.playSong, hs, PlaybackHistory.play_song, AutoReplayManager.recordPlay]
  cases hf : songs.find? (fun t => !e.skipped_tracker.wasRecentlySkipped (e.heap t).id) with
  | some s =>
    refine ⟨s, Or.inl rfl, ?_, hplay s⟩
    simp only [PlayWiseEngine.autoPlayNext, hall, Option.bind_eq_bind, Option.some_bind, hf]
  | none =>
    cases songs with
    | nil => exact absurd rfl hne
    | cons first rest =>
      refine ⟨first, Or.inr ⟨?_, rfl⟩, ?_, hplay first⟩
      · intro t ht
        have := List.find?_eq_none.mp hf t ht
        simpa using this
      · have hcheck : e.checkAndHandlePlaylistEnd = some (false, e) := by
          simp [PlayWiseEngine.checkAndHandlePlaylistEnd, hall]
        simp [PlayWiseEngine.autoPlayNext, hall, hf, hcheck]

theorem C11_autoPlayNext_selection_witness :
    ∃ e, skippedEngine = some e ∧ e.playlist.getAllSongs = some [0, 1, 2] ∧
      ([0, 1, 2] : List SongRef) ≠ [] ∧
      ∃ s, (([0, 1, 2] : List SongRef).find?
            (fun t => !e.skipped_tracker.wasRecentlySkipped (e.heap t).id) = some s ∨
          ((∀ t ∈ ([0, 1, 2] : List SongRef),
              e.skipped_tracker.wasRecentlySkipped (e.heap t).id = true) ∧
            ([0, 1, 2] : List SongRef).head? = some s)) ∧
        e.autoPlayNext = some (some s, e.playSong (e.heap s).id) ∧
        (e.lookup.lookup_by_id (e.heap s).id = some s →
          (e.playSong (e.heap s).id).current_song = some s ∧
          (e.playSong (e.heap s).id).history.history = s :: e.history.history ∧
          ((e.playSong (e.heap s).id).heap s).play_count = (e.heap s).play_count + 1) := by
  cases h : skippedEngine with
  | none =>
    have hsome : skippedEngine.isSome = true := by decide
    rw [h] at hsome
    exact absurd hsome (by decide)
  | some e =>
    have hall : e.playlist.getAllSongs = some [0, 1, 2] := by
      have : skippedEngine.bind (fun e => e.playlist.getAllSongs) = some [0, 1, 2] := by decide
      rw [h] at this
      exact this
    exact ⟨e, rfl, hall, by decide, C11_autoPlayNext_selection e [0, 1, 2] hall (by decide)⟩

/-- C12 (failing input): after three `add_song` calls and `move_song(0, 1)`, which returns
true, `getSize` is 3 but `getAllSongs` has two elements. -/
theorem C12_size_differs_from_list_length :
    ((PlaylistEngine.ofList [1, 2, 3]).bind (fun pl => pl.move_song 0 1)).map
        (fun r => (r.1, r.2.getSize)) = some (true, 3) ∧
      (((PlaylistEngine.ofList [1, 2, 3]).bind (fun pl => pl.move_song 0 1)).bind
        (fun r => r.2.getAllSongs)).map List.length = some 2 := by
  decide

/-- C13 (counterexample): after two `addSong` calls with the same id the first track is in the
playing order but the Identity Index returns the second one under its id. -/
theorem C13_counterexample :
    twinEngine.bind (fun e => e.playlist.getAllSongs) = some [0, 1] ∧
      twinEngine.map (fun e => e.lookup.lookup_by_id (e.heap 0).id) = some (some 1) := by
  decide

/-- C13 (amended): in every state reached from the empty engine by `addSong` with ids not yet
in the Identity Index, `delete_song` and `move_song` (other than to index 1 of a sequence of
three), every track of `getAllSongs` is returned by `lookup_by_id` for its id. -/
theorem C13_sequence_tracks_found_by_id (ops : List EngineOp)
    (hadm : PlayWiseEngine.new.admitsAllEdits ops = true) :
    ∃ e songs, PlayWiseEngine.new.run ops = some e ∧ e.playlist.getAllSongs = some songs ∧
      ∀ t ∈ songs, e.lookup.lookup_by_id (e.heap t).id = some t := by
  obtain ⟨e, addrs, songs, hrun, hinv, hc⟩ := PlayWiseEngine.Inv.run_edits ops
    PlayWiseEngine.new [] [] PlayWiseEngine.Inv.new (by simp) hadm
  exact ⟨e, songs, hrun, hinv.repr.getAllSongs_eq, hc⟩

theorem C13_sequence_tracks_found_by_id_witness :
    PlayWiseEngine.new.admitsAllEdits [EngineOp.addSong 0 "a" "A" "x" 100 3 "Rock",
        EngineOp.addSong 1 "b" "B" "y" 90 0 "Jazz", EngineOp.addSong 2 "c" "C" "z" 80 5 "Pop",
        EngineOp.addSong 3 "d" "D" "w" 70 1 "Pop", EngineOp.move_song 0 2,
        EngineOp.delete_song 1] = true ∧
      ∃ e songs, PlayWiseEngine.new.run [EngineOp.addSong 0 "a" "A" "x" 100 3 "Rock",
          EngineOp.addSong 1 "b" "B" "y" 90 0 "Jazz", EngineOp.addSong 2 "c" "C" "z" 80 5 "Pop",
          EngineOp.addSong 3 "d" "D" "w" 70 1 "Pop", EngineOp.move_song 0 2,
          EngineOp.delete_song 1] = some e ∧
        e.playlist.getAllSongs = some songs ∧
        ∀ t ∈ songs, e.lookup.lookup_by_id (e.heap t).id = some t :=
  ⟨by decide, C13_sequence_tracks_found_by_id _ (by decide)⟩

/-- C14 (failing input): on the sequence `[1, 2, 3]` the call `move_song(2, 1)` returns true
and leaves `getSize` at 3, but the moved track 3 is no longer in `getAllSongs`. -/
theorem C14_move_loses_the_moved_track :
    ((PlaylistEngine.ofList [1, 2, 3]).bind (fun pl => pl.move_song 2 1)).map
        (fun r => (r.1, r.2.getSize)) = some (true, 3) ∧
      ((PlaylistEngine.ofList [1, 2, 3]).bind (fun pl => pl.move_song 2 1)).bind
        (fun r => r.2.getAllSongs) = some [1, 2] := by
  decide

/-! ### Rating index: rejected ratings -/

/-- C21: for every Rating Index, every track and every rating below 1 or above 5,
`insert_song` changes neither the tree (so no bucket) nor the heap of tracks (so not the
rating field of the track). -/
theorem C21_out_of_range_rating_is_noop (heap : SongHeap) (t : SongRatingTree) (song : SongRef)
    (rating : Int) (hr : rating < 1 ∨ rating > 5) :
    SongRatingTree.insert_song heap t song rating = (heap, t) := by
  unfold SongRatingTree.insert_song
  rw [if_pos hr]

theorem C21_out_of_range_rating_is_noop_witness :
    ((6 : Int) < 1 ∨ (6 : Int) > 5) ∧
      SongRatingTree.insert_song sampleHeap
          (SongRatingTree.insert_song sampleHeap SongRatingTree.empty 10 3).2 11 6 =
        (sampleHeap, (SongRatingTree.insert_song sampleHeap SongRatingTree.empty 10 3).2) :=
  ⟨by decide, C21_out_of_range_rating_is_noop sampleHeap _ 11 6 (by decide)⟩

/-! ### Recency tracker: one `addSkippedSong` -/

theorem RecentlySkippedTracker.addSkippedSong_of_mem (t : RecentlySkippedTracker)
    (song_id : String) (hlen : t.size ≤ t.max_size) (hnd : t.getRecentlySkipped.Nodup)
    (hmem : song_id ∈ t.getRecentlySkipped) :
    (t.addSkippedSong song_id).size = t.size ∧
      (t.addSkippedSong song_id).getRecentlySkipped =
        song_id :: t.getRecentlySkipped.filter (fun x => x ≠ song_id) := by
  unfold RecentlySkippedTracker.size RecentlySkippedTracker.getRecentlySkipped at *
  have hpos : 0 < t.skipped_songs.length := List.length_pos_of_mem hmem
  have hlen2 : (song_id :: t.skipped_songs.erase song_id).length = t.skipped_songs.length := by
    rw [List.length_cons, List.length_erase_of_mem hmem]; omega
  have hres : (t.addSkippedSong song_id).skipped_songs =
      song_id :: t.skipped_songs.erase song_id := by
    unfold RecentlySkippedTracker.addSkippedSong
    simp only [hmem, if_true]
    rw [if_neg (by omega)]
  rw [hres]
  refine ⟨hlen2, ?_⟩
  rw [hnd.erase_eq_filter]
  congr 1
  apply List.filter_congr
  intro x _
  by_cases h : x = song_id <;> simp [h]

/-- C27: in a tracker reached from `RecentlySkippedTracker(cap)` by `addSkippedSong` calls,
`addSkippedSong` of an id already present leaves the size unchanged and yields the id
followed by the other ids in their previous order. -/
theorem C27_rerecord_moves_to_front (cap : Nat) (ids : List String) (song_id : String)
    (hmem : song_id ∈ (ids.foldl RecentlySkippedTracker.addSkippedSong
      (RecentlySkippedTracker.new cap)).getRecentlySkipped) :
    ((ids.foldl RecentlySkippedTracker.addSkippedSong
        (RecentlySkippedTracker.new cap)).addSkippedSong song_id).size =
        (ids.foldl RecentlySkippedTracker.addSkippedSong (RecentlySkippedTracker.new cap)).size ∧
      ((ids.foldl RecentlySkippedTracker.addSkippedSong
        (RecentlySkippedTracker.new cap)).addSkippedSong song_id).getRecentlySkipped =
        song_id :: (ids.foldl RecentlySkippedTracker.addSkippedSong
          (RecentlySkippedTracker.new cap)).getRecentlySkipped.filter
            (fun x => x ≠ song_id) := by
  obtain ⟨h1, h2, h3⟩ := RecentlySkippedTracker.foldl_inv ids (RecentlySkippedTracker.new cap)
    (Nat.zero_le _) List.nodup_nil
  exact RecentlySkippedTracker.addSkippedSong_of_mem _ song_id (by rw [h1]; exact h2) h3 hmem

theorem C27_rerecord_moves_to_front_witness :
    "b" ∈ (["c", "b", "a"].foldl RecentlySkippedTracker.addSkippedSong
        (RecentlySkippedTracker.new 3)).getRecentlySkipped ∧
      ((["c", "b", "a"].foldl RecentlySkippedTracker.addSkippedSong
          (RecentlySkippedTracker.new 3)).addSkippedSong "b").size = 3 ∧
      ((["c", "b", "a"].foldl RecentlySkippedTracker.addSkippedSong
          (RecentlySkippedTracker.new 3)).addSkippedSong "b").getRecentlySkipped =
        ["b", "a", "c"] :=
  ⟨by decide,
    (C27_rerecord_moves_to_front 3 ["c", "b", "a"] "b" (by decide)).1.trans (by decide),
    (C27_rerecord_moves_to_front 3 ["c", "b", "a"] "b" (by decide)).2.trans (by decide)⟩

/-- C28: when `song_id` is not in a tracker that holds at most `max_size` ids and
`max_size` is at least 1, `addSkippedSong` yields, at capacity, the id followed by the old
ids without the last one, and below capacity the id followed by all the old ids. -/
theorem C28_eviction_from_the_back (t : RecentlySkippedTracker) (song_id : String)
    (hcap : 1 ≤ t.max_size) (hlen : t.size ≤ t.max_size)
    (hmem : song_id ∉ t.getRecentlySkipped) :
    (t.addSkippedSong song_id).getRecentlySkipped =
      if t.size = t.max_size then song_id :: t.getRecentlySkipped.dropLast
      else song_id :: t.getRecentlySkipped := by
  unfold RecentlySkippedTracker.size RecentlySkippedTracker.getRecentlySkipped at *
  unfold RecentlySkippedTracker.addSkippedSong
  simp only [hmem, if_false, List.length_cons]
  by_cases heq : t.skipped_songs.length = t.max_size
  · rw [if_pos heq, if_pos (by omega)]
    cases hs : t.skipped_songs with
    | nil => rw [hs] at heq; simp at heq; omega
    | cons a l => rfl
  · rw [if_neg heq, if_neg (by omega)]

theorem C28_eviction_from_the_back_witness :
    1 ≤ (RecentlySkippedTracker.mk ["a", "b", "c"] 3).max_size ∧
      (RecentlySkippedTracker.mk ["a", "b", "c"] 3).size ≤
        (RecentlySkippedTracker.mk ["a", "b", "c"] 3).max_size ∧
      "d" ∉ (RecentlySkippedTracker.mk ["a", "b", "c"] 3).getRecentlySkipped ∧
      ((RecentlySkippedTracker.mk ["a", "b", "c"] 3).addSkippedSong "d").getRecentlySkipped =
        ["d", "a", "b"] :=
  ⟨by decide, by decide, by decide,
    (C28_eviction_from_the_back (RecentlySkippedTracker.mk ["a", "b", "c"] 3) "d"
      (by decide) (by decide) (by decide)).trans (by decide)⟩

/-! ### Identity index -/

theorem InstantLookup.addAll_append (heap : SongHeap) (songs : List SongRef) (x : SongRef) :
    InstantLookup.addAll heap (songs ++ [x]) =
      InstantLookup.add_song heap (InstantLookup.addAll heap songs) x := by
  simp [InstantLookup.addAll, List.foldl_append]

theorem InstantLookup.addAll_lookup_by_id (heap : SongHeap) (songs : List SongRef)
    (hnd : (songs.map (fun s => (heap s).id)).Nodup) :
    (∀ s ∈ songs, (InstantLookup.addAll heap songs).lookup_by_id (heap s).id = some s) ∧
      ∀ id, id ∉ songs.map (fun s => (heap s).id) →
        (InstantLookup.addAll heap songs).lookup_by_id id = none := by
  induction songs using List.reverseRecOn with
  | nil => exact ⟨by simp, fun id _ => rfl⟩
  | append_singleton init x ih =>
    rw [List.map_append, List.nodup_append] at hnd
    obtain ⟨hnd1, _, hdisj⟩ := hnd
    have ih := ih hnd1
    rw [InstantLookup.addAll_append]
    have hlk : ∀ id, (InstantLookup.add_song heap (InstantLookup.addAll heap init) x).lookup_by_id
        id = if id = (heap x).id then some x else
          (InstantLookup.addAll heap init).lookup_by_id id := by
      intro id
      simp only [InstantLookup.add_song, InstantLookup.lookup_by_id, Function.update_apply]
    constructor
    · intro s hs
      rw [hlk]
      rcases List.mem_append.mp hs with hs | hs
      · have hne : (heap s).id ≠ (heap x).id := by
          intro heq
          exact hdisj (List.mem_map.mpr ⟨s, hs, rfl⟩) (by simp [heq])
        rw [if_neg hne]
        exact ih.1 s hs
      · have : s = x := by simpa using hs
        subst this
        rw [if_pos rfl]
    · intro id hid
      rw [hlk]
      have hne : id ≠ (heap x).id := by
        intro heq
        apply hid
        simp [heq]
      rw [if_neg hne]
      apply ih.2
      intro hmem
      apply hid
      rw [List.map_append]
      exact List.mem_append_left _ hmem

theorem InstantLookup.addAll_title_map (heap : SongHeap) (songs : List SongRef)
    (title : String) :
    (InstantLookup.addAll heap songs).title_map title =
      if songs.filter (fun s => decide ((heap s).title = title)) = [] then none
      else some (songs.filter (fun s => decide ((heap s).title = title))) := by
  induction songs using List.reverseRecOn with
  | nil => rfl
  | append_singleton init x ih =>
    rw [InstantLookup.addAll_append]
    simp only [InstantLookup.add_song, Function.update_apply, List.filter_append]
    by_cases hx : (heap x).title = title
    · subst hx
      rw [if_pos rfl, ih]
      by_cases he : init.filter (fun s => decide ((heap s).title = (heap x).title)) = []
      · simp [he]
      · simp [he]
    · rw [if_neg (Ne.symm hx), ih]
      simp [hx]

theorem InstantLookup.addAll_lookup_by_title (heap : SongHeap) (songs : List SongRef)
    (title : String) :
    (InstantLookup.addAll heap songs).lookup_by_title title =
      songs.filter (fun s => decide ((heap s).title = title)) := by
  unfold InstantLookup.lookup_by_title
  rw [InstantLookup.addAll_title_map]
  split_ifs with h
  · simp [h]
  · rfl

/-- C24: after `add_song` of tracks with pairwise distinct ids on an empty Identity Index,
`lookup_by_id` returns each added track under its id and `none` for every id not added. -/
theorem C24_lookup_by_id_after_adds (heap : SongHeap) (songs : List SongRef)
    (hnd : (songs.map (fun s => (heap s).id)).Nodup) :
    (∀ s ∈ songs, (InstantLookup.addAll heap songs).lookup_by_id (heap s).id = some s) ∧
      ∀ id, id ∉ songs.map (fun s => (heap s).id) →
        (InstantLookup.addAll heap songs).lookup_by_id id = none :=
  InstantLookup.addAll_lookup_by_id heap songs hnd

theorem C24_lookup_by_id_after_adds_witness :
    (([10, 11, 12] : List SongRef).map (fun s => (sampleHeap s).id)).Nodup ∧
      (∀ s ∈ ([10, 11, 12] : List SongRef),
        (InstantLookup.addAll sampleHeap [10, 11, 12]).lookup_by_id (sampleHeap s).id =
          some s) ∧
      ∀ id, id ∉ ([10, 11, 12] : List SongRef).map (fun s => (sampleHeap s).id) →
        (InstantLookup.addAll sampleHeap [10, 11, 12]).lookup_by_id id = none :=
  ⟨by decide, C24_lookup_by_id_after_adds sampleHeap [10, 11, 12] (by decide)⟩

/-- C25: after `add_song` of any tracks on an empty Identity Index, `lookup_by_title` returns
the added tracks with that title, repetitions included, in the order they were added; this
is the empty list when no added track has the title. -/
theorem C25_lookup_by_title_after_adds (heap : SongHeap) (songs : List SongRef)
    (title : String) :
    (InstantLookup.addAll heap songs).lookup_by_title title =
      songs.filter (fun s => decide ((heap s).title = title)) :=
  InstantLookup.addAll_lookup_by_title heap songs title

/-- C26: in an Identity Index built by `add_song` from tracks with pairwise distinct ids,
`remove_song` of the id of an added track `s` makes `lookup_by_id` of that id `none`, leaves
under the title of `s` the other tracks of that title in their order, erases the key of the
title from `title_map` when no track is left, and leaves `lookup_by_id` of every other id and
the `title_map` entry of every other title as they were; `remove_song` of an id that was not
added returns the index unchanged. -/
theorem C26_remove_song_effect (heap : SongHeap) (songs : List SongRef) (s : SongRef)
    (hnd : (songs.map (fun x => (heap x).id)).Nodup) (hs : s ∈ songs) :
    ((InstantLookup.addAll heap songs).remove_song heap (heap s).id).lookup_by_id
        (heap s).id = none ∧
      ((InstantLookup.addAll heap songs).remove_song heap (heap s).id).lookup_by_title
          (heap s).title =
        ((InstantLookup.addAll heap songs).lookup_by_title (heap s).title).filter
          (fun x => decide (x ≠ s)) ∧
      (((InstantLookup.addAll heap songs).lookup_by_title (heap s).title).filter
          (fun x => decide (x ≠ s)) = [] →
        ((InstantLookup.addAll heap songs).remove_song heap (heap s).id).title_map
          (heap s).title = none) ∧
      (∀ id, id ≠ (heap s).id →
        ((InstantLookup.addAll heap songs).remove_song heap (heap s).id).lookup_by_id id =
          (InstantLookup.addAll heap songs).lookup_by_id id) ∧
      (∀ title, title ≠ (heap s).title →
        ((InstantLookup.addAll heap songs).remove_song heap (heap s).id).title_map title =
          (InstantLookup.addAll heap songs).title_map title) ∧
      ∀ id, id ∉ songs.map (fun x => (heap x).id) →
        (InstantLookup.addAll heap songs).remove_song heap id =
          InstantLookup.addAll heap songs := by
  have hid := InstantLookup.addAll_lookup_by_id heap songs hnd
  have hfound : (InstantLookup.addAll heap songs).id_map (heap s).id = some s := hid.1 s hs
  have hfilter : ((InstantLookup.addAll heap songs).lookup_by_title (heap s).title).filter
        (fun x => !((heap x).id == (heap s).id)) =
      ((InstantLookup.addAll heap songs).lookup_by_title (heap s).title).filter
        (fun x => decide (x ≠ s)) := by
    apply List.filter_congr
    intro x hx
    rw [InstantLookup.addAll_lookup_by_title] at hx
    have hxs : x ∈ songs := (List.mem_filter.mp hx).1
    by_cases hxe : x = s
    · subst hxe; simp
    · have hne : (heap x).id ≠ (heap s).id := by
        intro heq
        exact hxe (List.inj_on_of_nodup_map hnd hxs hs heq)
      simp [hxe, hne]
  have hrem : (InstantLookup.addAll heap songs).remove_song heap (heap s).id =
      { id_map := Function.update (InstantLookup.addAll heap songs).id_map (heap s).id none,
        title_map := Function.update (InstantLookup.addAll heap songs).title_map (heap s).title
          (if (((InstantLookup.addAll heap songs).lookup_by_title (heap s).title).filter
              (fun x => decide (x ≠ s))).isEmpty then none
            else some (((InstantLookup.addAll heap songs).lookup_by_title (heap s).title).filter
              (fun x => decide (x ≠ s)))) } := by
    unfold InstantLookup.remove_song
    rw [hfound]
    show InstantLookup.mk _ _ = _
    rw [← hfilter]
    rfl
  refine ⟨?_, ?_, ?_, ?_, ?_, ?_⟩
  · rw [hrem]; simp [InstantLookup.lookup_by_id]
  · rw [hrem]
    simp only [InstantLookup.lookup_by_title, Function.update_same]
    split_ifs with he
    · rw [List.isEmpty_iff] at he
      rw [he]; rfl
    · rfl
  · intro he
    rw [hrem]
    simp only [Function.update_same]
    rw [he]; rfl
  · intro id hne
    rw [hrem]
    simp only [InstantLookup.lookup_by_id, Function.update_apply, if_neg hne]
  · intro title hne
    rw [hrem]
    simp only [Function.update_apply, if_neg hne]
  · intro id hne
    unfold InstantLookup.remove_song
    have hnone : (InstantLookup.addAll heap songs).id_map id = none := hid.2 id hne
    rw [hnone]

theorem C26_remove_song_effect_witness :
    (([0, 1, 2, 3] : List SongRef).map (fun x => (titleHeap x).id)).Nodup ∧
      (1 : SongRef) ∈ ([0, 1, 2, 3] : List SongRef) ∧
      ((InstantLookup.addAll titleHeap [0, 1, 2, 3]).remove_song titleHeap
        (titleHeap 1).id).lookup_by_title "same" = [0, 2] :=
  ⟨by decide, by decide,
    ((C26_remove_song_effect titleHeap [0, 1, 2, 3] 1 (by decide) (by decide)).2.1).trans
      (by decide)⟩

/-! ### Rating index: deletion -/

theorem findIdx?_eraseIdx {α : Type} (p : α → Bool) :
    ∀ l : List α, (l.findIdx? p = none ∧ l.any p = false) ∨
      ∃ i, l.findIdx? p = some i ∧ l.any p = true ∧ l.eraseIdx i = l.eraseP p := by
  intro l
  induction l with
  | nil => left; simp
  | cons x xs ih =>
    by_cases hx : p x = true
    · right
      exact ⟨0, by simp [hx], by simp [hx], by simp [hx]⟩
    · rcases ih with ⟨h1, h2⟩ | ⟨i, h1, h2, h3⟩
      · left
        refine ⟨?_, by simp [hx, h2]⟩
        rw [List.findIdx?_cons, if_neg hx, List.findIdx?_succ, h1]; rfl
      · right
        refine ⟨i + 1, ?_, by simp [h2], ?_⟩
        · rw [List.findIdx?_cons, if_neg hx, List.findIdx?_succ, h1]; rfl
        · rw [List.eraseIdx_cons_succ, h3, List.eraseP_cons_of_neg hx]

theorem eraseFirstEntry_of_not_any (p : SongRef → Bool) :
    ∀ l : List (Int × List SongRef), l.any (fun b => b.2.any p) = false →
      eraseFirstEntry p l = l := by
  intro l
  induction l with
  | nil => intro _; rfl
  | cons b rest ih =>
    intro h
    rw [List.any_cons, Bool.or_eq_false_iff] at h
    rw [eraseFirstEntry, if_neg (by simp [h.1]), ih h.2]

theorem eraseFirstEntry_append (p : SongRef → Bool) (l2 : List (Int × List SongRef)) :
    ∀ l1 : List (Int × List SongRef), eraseFirstEntry p (l1 ++ l2) =
      if l1.any (fun b => b.2.any p) = true then eraseFirstEntry p l1 ++ l2
      else l1 ++ eraseFirstEntry p l2 := by
  intro l1
  induction l1 with
  | nil => simp
  | cons b rest ih =>
    by_cases hb : b.2.any p = true
    · simp [eraseFirstEntry, hb]
    · have hb2 : b.2.any p = false := by simpa using hb
      rw [List.cons_append, eraseFirstEntry, if_neg hb, ih, eraseFirstEntry, if_neg hb,
        List.any_cons, hb2, Bool.false_or]
      split_ifs <;> rfl

theorem SongRatingTree.deleteHelper_spec (heap : SongHeap) (song_id : String) :
    ∀ node : RatingNode,
      (SongRatingTree.deleteHelper heap node song_id).1 =
          node.buckets.any (fun b => b.2.any (fun s => (heap s).id == song_id)) ∧
        (SongRatingTree.deleteHelper heap node song_id).2.buckets =
          eraseFirstEntry (fun s => (heap s).id == song_id) node.buckets ∧
        (SongRatingTree.deleteHelper heap node song_id).2.skeleton = node.skeleton ∧
        ((SongRatingTree.deleteHelper heap node song_id).1 = false →
          (SongRatingTree.deleteHelper heap node song_id).2 = node) := by
  intro node
  induction node with
  | nil => exact ⟨rfl, rfl, rfl, fun _ => rfl⟩
  | node r songs left right ihl ihr =>
    rcases findIdx?_eraseIdx (fun s => (heap s).id == song_id) songs with
      ⟨hf, hany⟩ | ⟨i, hf, hany, her⟩
    · obtain ⟨l1, l2, l3, l4⟩ := ihl
      obtain ⟨r1, r2, r3, r4⟩ := ihr
      cases hdl : SongRatingTree.deleteHelper heap left song_id with
      | mk fl left' =>
        rw [hdl] at l1 l2 l3 l4
        cases hdr : SongRatingTree.deleteHelper heap right song_id with
        | mk fr right' =>
          rw [hdr] at r1 r2 r3 r4
          simp only at l1 l2 l3 l4 r1 r2 r3 r4
          cases fl with
          | true =>
            have hd : SongRatingTree.deleteHelper heap (RatingNode.node r songs left right)
                song_id = (true, RatingNode.node r songs left' right) := by
              simp only [SongRatingTree.deleteHelper, hf, hdl]
            rw [hd]
            refine ⟨?_, ?_, ?_, fun h => absurd h (by simp)⟩
            · simp [RatingNode.buckets, hany, ← l1]
            · simp only [RatingNode.buckets]
              rw [eraseFirstEntry, if_neg (by simp [hany]), eraseFirstEntry_append,
                if_pos l1.symm, l2]
            · simp only [RatingNode.skeleton, l3]
          | false =>
            have hd : SongRatingTree.deleteHelper heap (RatingNode.node r songs left right)
                song_id = (fr, RatingNode.node r songs left right') := by
              simp only [SongRatingTree.deleteHelper, hf, hdl, hdr]
            rw [hd]
            refine ⟨?_, ?_, ?_, ?_⟩
            · simp [RatingNode.buckets, hany, ← l1, ← r1]
            · simp only [RatingNode.buckets]
              rw [eraseFirstEntry, if_neg (by simp [hany]), eraseFirstEntry_append,
                if_neg (by simp [← l1]), r2]
            · simp only [RatingNode.skeleton, r3]
            · intro h
              simp only at h
              rw [r4 h]
    · have hd : SongRatingTree.deleteHelper heap (RatingNode.node r songs left right)
          song_id = (true, RatingNode.node r (songs.eraseIdx i) left right) := by
        simp only [SongRatingTree.deleteHelper, hf]
      rw [hd]
      refine ⟨?_, ?_, ?_, fun h => absurd h (by simp)⟩
      · simp [RatingNode.buckets, hany]
      · simp only [RatingNode.buckets]
        rw [eraseFirstEntry, if_pos hany, her]
      · simp only [RatingNode.skeleton]

/-- C22: `delete_song` returns true exactly when some bucket holds a track with the id; the
buckets afterwards, read in root-left-right order, are the old ones with the first entry of
that id erased from the first bucket that has one; the nodes, their ratings and their links
are unchanged; and when the result is false the index is unchanged. -/
theorem C22_delete_song_effect (heap : SongHeap) (t : SongRatingTree) (song_id : String) :
    ((t.delete_song heap song_id).1 = true ↔
        ∃ b ∈ t.root.buckets, ∃ s ∈ b.2, (heap s).id = song_id) ∧
      (t.delete_song heap song_id).2.root.buckets =
        eraseFirstEntry (fun s => (heap s).id == song_id) t.root.buckets ∧
      (t.delete_song heap song_id).2.root.skeleton = t.root.skeleton ∧
      ((t.delete_song heap song_id).1 = false → (t.delete_song heap song_id).2 = t) := by
  obtain ⟨h1, h2, h3, h4⟩ := SongRatingTree.deleteHelper_spec heap song_id t.root
  unfold SongRatingTree.delete_song
  refine ⟨?_, h2, h3, ?_⟩
  · show (SongRatingTree.deleteHelper heap t.root song_id).1 = true ↔ _
    rw [h1]
    simp
  · intro h
    have := h4 h
    show SongRatingTree.mk (SongRatingTree.deleteHelper heap t.root song_id).2 = t
    rw [this]

/-! ### Rating index: the search-tree ordering and the counts -/

theorem RatingNode.keys_skeleton : ∀ node : RatingNode, node.skeleton.keys = node.keys := by
  intro node
  induction node with
  | nil => rfl
  | node r songs left right ihl ihr => simp only [RatingNode.skeleton, RatingNode.keys, ihl, ihr]

theorem RatingNode.isSearchTree_skeleton :
    ∀ node : RatingNode, node.skeleton.IsSearchTree ↔ node.IsSearchTree := by
  intro node
  induction node with
  | nil => exact Iff.rfl
  | node r songs left right ihl ihr =>
    simp only [RatingNode.skeleton, RatingNode.IsSearchTree, RatingNode.keys_skeleton, ihl, ihr]

theorem SongRatingTree.keys_insertHelper (song : SongRef) (rating : Int) :
    ∀ (node : RatingNode) (k : Int),
      k ∈ (SongRatingTree.insertHelper node song rating).keys ↔ k = rating ∨ k ∈ node.keys := by
  intro node
  induction node with
  | nil => intro k; simp [SongRatingTree.insertHelper, RatingNode.keys]
  | node r songs left right ihl ihr =>
    intro k
    unfold SongRatingTree.insertHelper
    split_ifs with h1 h2
    · subst h1; simp [RatingNode.keys]
    · simp only [RatingNode.keys, List.mem_cons, List.mem_append, ihl]; tauto
    · simp only [RatingNode.keys, List.mem_cons, List.mem_append, ihr]; tauto

theorem SongRatingTree.isSearchTree_insertHelper (song : SongRef) (rating : Int) :
    ∀ node : RatingNode, node.IsSearchTree →
      (SongRatingTree.insertHelper node song rating).IsSearchTree := by
  intro node
  induction node with
  | nil =>
    intro _
    simp [SongRatingTree.insertHelper, RatingNode.IsSearchTree, RatingNode.keys]
  | node r songs left right ihl ihr =>
    intro h
    obtain ⟨h1, h2, h3, h4⟩ := h
    unfold SongRatingTree.insertHelper
    split_ifs with e1 e2
    · exact ⟨h1, h2, h3, h4⟩
    · refine ⟨?_, h2, ihl h3, h4⟩
      intro k hk
      rcases (SongRatingTree.keys_insertHelper song rating left k).mp hk with hk | hk
      · rw [hk]; exact e2
      · exact h1 k hk
    · refine ⟨h1, ?_, h3, ihr h4⟩
      intro k hk
      rcases (SongRatingTree.keys_insertHelper song rating right k).mp hk with hk | hk
      · rw [hk]; omega
      · exact h2 k hk

theorem SongRatingTree.isSearchTree_deleteHelper (heap : SongHeap) (song_id : String)
    (node : RatingNode) (h : node.IsSearchTree) :
    (SongRatingTree.deleteHelper heap node song_id).2.IsSearchTree := by
  rw [← RatingNode.isSearchTree_skeleton,
    (SongRatingTree.deleteHelper_spec heap song_id node).2.2.1,
    RatingNode.isSearchTree_skeleton]
  exact h

theorem SongRatingTree.isSearchTree_runOps (ops : List RatingOp) :
    ∀ st : SongHeap × SongRatingTree, st.2.root.IsSearchTree →
      (ops.foldl SongRatingTree.applyOp st).2.root.IsSearchTree := by
  induction ops with
  | nil => intro st h; exact h
  | cons op rest ih =>
    intro st h
    rw [List.foldl_cons]
    apply ih
    cases op with
    | insert_song song rating =>
      simp only [SongRatingTree.applyOp, SongRatingTree.insert_song]
      split_ifs
      · exact h
      · exact SongRatingTree.isSearchTree_insertHelper song rating _ h
    | delete_song song_id =>
      exact SongRatingTree.isSearchTree_deleteHelper st.1 song_id _ h

theorem SongRatingTree.search_of_not_mem_keys :
    ∀ (node : RatingNode) (r : Int), r ∉ node.keys →
      SongRatingTree.search_by_rating { root := node } r = [] := by
  intro node
  induction node with
  | nil => intro r _; rfl
  | node q songs left right ihl ihr =>
    intro r hr
    simp only [RatingNode.keys, List.mem_cons, List.mem_append, not_or] at hr
    obtain ⟨h1, h2, h3⟩ := hr
    have hl := ihl r h2
    have hr := ihr r h3
    simp only [SongRatingTree.search_by_rating] at hl hr ⊢
    simp only [SongRatingTree.searchHelper, if_neg (Ne.symm h1)]
    split_ifs
    · exact hl
    · exact hr

theorem SongRatingTree.countHelper_spec :
    ∀ (node : RatingNode), node.IsSearchTree → ∀ (counts : Int → Option Int) (r : Int),
      SongRatingTree.countHelper node counts r =
        if r ∈ node.keys then
          some ((SongRatingTree.search_by_rating { root := node } r).length : Int)
        else counts r := by
  intro node
  induction node with
  | nil => intro _ counts r; simp [SongRatingTree.countHelper, RatingNode.keys]
  | node q songs left right ihl ihr =>
    intro h counts r
    obtain ⟨h1, h2, h3, h4⟩ := h
    simp only [SongRatingTree.countHelper]
    rw [ihr h4, ihl h3]
    have hl := ihl h3
    have hr := ihr h4
    simp only [SongRatingTree.search_by_rating] at hl hr ⊢
    simp only [SongRatingTree.searchHelper, RatingNode.keys, List.mem_cons, List.mem_append]
    by_cases hq : r = q
    · subst hq
      have hnl : r ∉ left.keys := fun hm => lt_irrefl _ (h1 r hm)
      have hnr : r ∉ right.keys := fun hm => lt_irrefl _ (h2 r hm)
      simp [hnl, hnr]
    · by_cases hlt : r < q
      · have hnr : r ∉ right.keys := fun hm => lt_asymm hlt (h2 r hm)
        simp only [hnr, if_false, hq, false_or, or_false, if_neg (Ne.symm hq), if_pos hlt,
          Function.update_apply]
      · have hnl : r ∉ left.keys := fun hm => hlt (h1 r hm)
        simp only [hnl, if_false, hq, false_or, if_neg (Ne.symm hq), if_neg hlt,
          Function.update_apply]

/-- C23: in every Rating Index reached from the empty one by `insert_song` and `delete_song`
calls, the map returned by `getSongCountByRating` has an entry for `r` exactly when the tree
has a node of rating `r`, the entry being the number of tracks `search_by_rating(r)` returns;
and the count read from the map as `displaySnapshot` reads it, 0 when there is no entry, is
that number for every `r`, so it is 0 for a rating that has no tracks, whether its bucket was
emptied or it was never inserted. -/
theorem C23_counts_agree_with_buckets (heap : SongHeap) (ops : List RatingOp) (r : Int) :
    ((SongRatingTree.runOps heap ops).2.getSongCountByRating r =
        if r ∈ (SongRatingTree.runOps heap ops).2.root.keys then
          some (((SongRatingTree.runOps heap ops).2.search_by_rating r).length : Int)
        else none) ∧
      PlayWiseEngine.ratingCountShown (SongRatingTree.runOps heap ops).2.getSongCountByRating r =
        (((SongRatingTree.runOps heap ops).2.search_by_rating r).length : Int) := by
  have hbst : (SongRatingTree.runOps heap ops).2.root.IsSearchTree :=
    SongRatingTree.isSearchTree_runOps ops (heap, SongRatingTree.empty) trivial
  have hc := SongRatingTree.countHelper_spec _ hbst (fun _ => none) r
  have heq : (SongRatingTree.runOps heap ops).2.getSongCountByRating r =
      if r ∈ (SongRatingTree.runOps heap ops).2.root.keys then
        some (((SongRatingTree.runOps heap ops).2.search_by_rating r).length : Int)
      else none := hc
  refine ⟨heq, ?_⟩
  unfold PlayWiseEngine.ratingCountShown
  rw [heq]
  split_ifs with hm
  · rfl
  · rw [SongRatingTree.search_of_not_mem_keys _ r hm]
    rfl

/-! ### Replay selector -/

theorem AutoReplayManager.filterCalming_spec (heap : SongHeap) (m : AutoReplayManager) :
    ∀ (songs : List SongRef) (counts : String → Option Int) (acc : List (Int × SongRef)),
      (∀ id, (counts id).getD 0 = (m.play_counts id).getD 0) →
        (AutoReplayManager.filterCalming heap songs counts acc).2 =
          acc ++ (songs.filter (m.isCandidate heap)).map (fun s => (m.playCount heap s, s)) := by
  intro songs
  induction songs with
  | nil => intro counts acc _; simp [AutoReplayManager.filterCalming]
  | cons song rest ih =>
    intro counts acc hc
    unfold AutoReplayManager.filterCalming
    by_cases hg : (heap song).isCalmingGenre = true
    · have hc1 : ∀ id, ((Function.update counts (heap song).id
          (some ((counts (heap song).id).getD 0))) id).getD 0 = (m.play_counts id).getD 0 := by
        intro id
        rw [Function.update_apply]
        split_ifs with h
        · rw [h]; exact hc _
        · exact hc id
      rw [if_pos hg]
      simp only
      by_cases hn : (counts (heap song).id).getD 0 > 0
      · rw [if_pos hn, ih _ _ hc1]
        have hcand : m.isCandidate heap song = true := by
          simp only [AutoReplayManager.isCandidate, AutoReplayManager.playCount, hg, ← hc]
          simpa using hn
        rw [List.filter_cons_of_pos hcand, List.map_cons, List.append_assoc]
        simp only [AutoReplayManager.playCount, hc, List.singleton_append]
      · rw [if_neg hn, ih _ _ hc1]
        have hcand : ¬ m.isCandidate heap song = true := by
          simp only [AutoReplayManager.isCandidate, AutoReplayManager.playCount, hg, ← hc]
          simpa using hn
        rw [List.filter_cons_of_neg hcand]
    · rw [if_neg hg, ih _ _ hc]
      have hcand : ¬ m.isCandidate heap song = true := by
        simp [AutoReplayManager.isCandidate, hg]
      rw [List.filter_cons_of_neg hcand]

theorem AutoReplayManager.before_false_iff (heap : SongHeap) (a b : Int × SongRef) :
    AutoReplayManager.before heap b a = false ↔
      (a.1 > b.1 ∨ (a.1 = b.1 ∧ (heap a.2).added_time ≥ (heap b.2).added_time)) := by
  unfold AutoReplayManager.before
  split_ifs with h
  · simp only [decide_eq_false_iff_not, not_lt]
    constructor
    · intro h2; exact Or.inr ⟨h.symm, h2⟩
    · rintro (h2 | ⟨_, h2⟩)
      · omega
      · exact h2
  · simp only [decide_eq_false_iff_not, not_lt]
    constructor
    · intro h2; left; omega
    · rintro (h2 | ⟨h2, _⟩)
      · omega
      · exact absurd h2.symm h

theorem AutoReplayManager.sorted_calming (heap : SongHeap) (l : List (Int × SongRef)) :
    (l.insertionSort (fun a b => AutoReplayManager.before heap b a = false)).Pairwise
      (fun a b => AutoReplayManager.before heap b a = false) := by
  have htot : IsTotal (Int × SongRef)
      (fun a b => AutoReplayManager.before heap b a = false) := by
    constructor
    intro a b
    rw [AutoReplayManager.before_false_iff, AutoReplayManager.before_false_iff]
    omega
  have htrans : IsTrans (Int × SongRef)
      (fun a b => AutoReplayManager.before heap b a = false) := by
    constructor
    intro a b c
    rw [AutoReplayManager.before_false_iff, AutoReplayManager.before_false_iff,
      AutoReplayManager.before_false_iff]
    omega
  exact List.sorted_insertionSort _ l

theorem take_toNat_min {α : Type} (l : List α) (n : Int) :
    l.take (min n (l.length : Int)).toNat = l.take n.toNat := by
  by_cases h : n ≤ (l.length : Int)
  · rw [min_eq_left h]
  · have h1 : (l.length : Int) ≤ n := by omega
    rw [min_eq_right h1, Int.toNat_ofNat, List.take_length, List.take_of_length_le (by omega)]

/-- C29: for every Replay Selector, track list and `n ≥ 0`, the result of
`getTopCalmingSongs(all, n)` is the first `n` entries, or all when there are fewer, of an
arrangement of the tracks of `all` that have a calming genre and a recorded play count above
0; the arrangement is ordered by play count descending and, for equal counts, by creation time
descending; the result has `min(n, k)` entries for `k` such tracks, and each of them has a
calming genre and a positive play count. -/
theorem C29_top_calming_songs (heap : SongHeap) (m : AutoReplayManager)
    (all_songs : List SongRef) (n : Int) (hn : 0 ≤ n) :
    ∃ ranked : List SongRef,
      ranked.Perm (all_songs.filter (m.isCandidate heap)) ∧
        ranked.Pairwise (m.ranksBefore heap) ∧
        (m.getTopCalmingSongs heap all_songs n).1 = ranked.take n.toNat ∧
        ((m.getTopCalmingSongs heap all_songs n).1.length : Int) =
          min n ((all_songs.filter (m.isCandidate heap)).length : Int) ∧
        ∀ s ∈ (m.getTopCalmingSongs heap all_songs n).1,
          (heap s).isCalmingGenre = true ∧ m.playCount heap s > 0 := by
  have hpairs := AutoReplayManager.filterCalming_spec heap m all_songs m.play_counts []
    (fun _ => rfl)
  rw [List.nil_append] at hpairs
  have hperm := List.perm_insertionSort (fun a b => AutoReplayManager.before heap b a = false)
    ((all_songs.filter (m.isCandidate heap)).map (fun s => (m.playCount heap s, s)))
  have hsorted := AutoReplayManager.sorted_calming heap
    ((all_songs.filter (m.isCandidate heap)).map (fun s => (m.playCount heap s, s)))
  have hres : (m.getTopCalmingSongs heap all_songs n).1 =
      ((((all_songs.filter (m.isCandidate heap)).map
        (fun s => (m.playCount heap s, s))).insertionSort
          (fun a b => AutoReplayManager.before heap b a = false)).map (fun q => q.2)).take
            n.toNat := by
    unfold AutoReplayManager.getTopCalmingSongs
    simp only [hpairs]
    rw [← List.map_take]
    congr 1
    rw [← take_toNat_min _ n, List.length_insertionSort]
  have hperm2 : ((((all_songs.filter (m.isCandidate heap)).map
        (fun s => (m.playCount heap s, s))).insertionSort
          (fun a b => AutoReplayManager.before heap b a = false)).map (fun q => q.2)).Perm
      (all_songs.filter (m.isCandidate heap)) := by
    have := hperm.map (fun q => q.2)
    rw [List.map_map] at this
    have hcomp : ((fun q : Int × SongRef => q.2) ∘ fun s => (m.playCount heap s, s)) = id := rfl
    rw [hcomp, List.map_id] at this
    exact this
  refine ⟨_, hperm2, ?_, hres, ?_, ?_⟩
  · rw [List.pairwise_map]
    refine hsorted.imp_of_mem ?_
    intro a b ha hb hab
    have ha2 := (hperm.mem_iff).mp ha
    have hb2 := (hperm.mem_iff).mp hb
    obtain ⟨sa, _, rfl⟩ := List.mem_map.mp ha2
    obtain ⟨sb, _, rfl⟩ := List.mem_map.mp hb2
    exact (AutoReplayManager.before_false_iff heap _ _).mp hab
  · rw [hres, List.length_take, hperm2.length_eq]
    omega
  · intro s hs
    rw [hres] at hs
    have hs2 := hperm2.mem_iff.mp (List.mem_of_mem_take hs)
    have hc := (List.mem_filter.mp hs2).2
    simp only [AutoReplayManager.isCandidate, Bool.and_eq_true, decide_eq_true_eq] at hc
    exact hc

theorem C29_top_calming_songs_witness :
    (0 : Int) ≤ 1 ∧
      (moodManager.2.getTopCalmingSongs moodManager.1 [0, 1] 1).1 = [0] ∧
      ∃ ranked : List SongRef,
        ranked.Perm (([0, 1] : List SongRef).filter (moodManager.2.isCandidate moodManager.1)) ∧
          ranked.Pairwise (moodManager.2.ranksBefore moodManager.1) ∧
          (moodManager.2.getTopCalmingSongs moodManager.1 [0, 1] 1).1 =
            ranked.take (1 : Int).toNat ∧
          ((moodManager.2.getTopCalmingSongs moodManager.1 [0, 1] 1).1.length : Int) =
            min 1 ((([0, 1] : List SongRef).filter
              (moodManager.2.isCandidate moodManager.1)).length : Int) ∧
          ∀ s ∈ (moodManager.2.getTopCalmingSongs moodManager.1 [0, 1] 1).1,
            (moodManager.1 s).isCalmingGenre = true ∧
              moodManager.2.playCount moodManager.1 s > 0 :=
  ⟨by decide, by decide, C29_top_calming_songs moodManager.1 moodManager.2 [0, 1] 1 (by decide)⟩

theorem AutoReplayManager.getTopCalmingSongs_replay_queue (heap : SongHeap)
    (m : AutoReplayManager) (all_songs : List SongRef) (n : Int) :
    (m.getTopCalmingSongs heap all_songs n).2.replay_queue = m.replay_queue := rfl

theorem AutoReplayManager.getTopCalmingSongs_congr (heap : SongHeap)
    (m m2 : AutoReplayManager) (all_songs : List SongRef) (n : Int)
    (h : m.play_counts = m2.play_counts) :
    (m.getTopCalmingSongs heap all_songs n).1 = (m2.getTopCalmingSongs heap all_songs n).1 := by
  unfold AutoReplayManager.getTopCalmingSongs
  rw [h]

/-- C30 (counterexample): the Replay Selector is enabled and its queue holds song 0; for the
track list `[1]` the result of `getTopCalmingSongs(all, 3)` is empty, and `setupAutoReplay`
on that list leaves the queue empty, not unchanged. -/
theorem C30_counterexample :
    replayingManager.auto_replay_enabled = true ∧ replayingManager.replay_queue = [0] ∧
      (replayingManager.getTopCalmingSongs moodManager.1 [1] 3).1 = [] ∧
      (replayingManager.setupAutoReplay moodManager.1 [1]).replay_queue = [] := by
  decide

/-- C30 (amended): `setupAutoReplay` returns the Replay Selector unchanged when auto-replay is
disabled; when it is enabled the queue afterwards holds exactly the result of
`getTopCalmingSongs(all, 3)`, whatever it held before, so it is empty when that result is
empty, and in that case the count of replay cycles is unchanged. -/
theorem C30_setupAutoReplay_rebuilds_the_queue (heap : SongHeap) (m : AutoReplayManager)
    (all_songs : List SongRef) :
    (m.auto_replay_enabled = false → m.setupAutoReplay heap all_songs = m) ∧
      (m.auto_replay_enabled = true →
        (m.setupAutoReplay heap all_songs).replay_queue =
            (m.getTopCalmingSongs heap all_songs 3).1 ∧
          ((m.getTopCalmingSongs heap all_songs 3).1 = [] →
            (m.setupAutoReplay heap all_songs).replay_queue = [] ∧
              (m.setupAutoReplay heap all_songs).replay_cycles = m.replay_cycles)) := by
  constructor
  · intro h
    unfold AutoReplayManager.setupAutoReplay
    rw [h]; rfl
  · intro h
    have htop : ((AutoReplayManager.mk m.play_counts [] true m.replay_cycles).getTopCalmingSongs
        heap all_songs 3).1 = (m.getTopCalmingSongs heap all_songs 3).1 :=
      AutoReplayManager.getTopCalmingSongs_congr heap _ m all_songs 3 rfl
    have hq : (m.setupAutoReplay heap all_songs).replay_queue =
        (m.getTopCalmingSongs heap all_songs 3).1 := by
      unfold AutoReplayManager.setupAutoReplay
      simp only [h, Bool.not_true, Bool.false_eq_true, if_false]
      rw [htop]
      split_ifs with he
      · simp only [AutoReplayManager.getTopCalmingSongs_replay_queue, List.nil_append]
      · have hemp := he
        simp only [Bool.not_eq_true, Bool.not_eq_false_eq_eq_true, List.isEmpty_iff]
          at hemp
        rw [AutoReplayManager.getTopCalmingSongs_replay_queue, hemp]
    refine ⟨hq, fun he => ⟨hq.trans he, ?_⟩⟩
    unfold AutoReplayManager.setupAutoReplay
    simp only [h, Bool.not_true, Bool.false_eq_true, if_false]
    rw [htop, he]
    rfl

/-! ### Replay selector: the round-robin queue -/

theorem AutoReplayManager.nextSongs_append :
    ∀ (a b : List SongRef) (m : AutoReplayManager), m.replay_queue = a ++ b →
      m.nextSongs a.length = (a.map some, { m with replay_queue := b ++ a }) := by
  intro a
  induction a with
  | nil =>
    intro b m h
    cases m
    simp only [List.nil_append] at h
    subst h
    simp [AutoReplayManager.nextSongs]
  | cons x rest ih =>
    intro b m h
    have hnext : m.getNextReplaySong =
        (some x, { m with replay_queue := rest ++ b ++ [x] }) := by
      unfold AutoReplayManager.getNextReplaySong
      rw [h]; rfl
    have hq : ({ m with replay_queue := rest ++ b ++ [x] } : AutoReplayManager).replay_queue =
        rest ++ (b ++ [x]) := by simp
    have := ih (b ++ [x]) _ hq
    simp only [List.length_cons, AutoReplayManager.nextSongs, hnext, this, List.map_cons]
    simp

theorem AutoReplayManager.nextSongs_length (n : Nat) :
    ∀ m : AutoReplayManager, (m.nextSongs n).2.replay_queue.length = m.replay_queue.length := by
  induction n with
  | zero => intro m; rfl
  | succ n ih =>
    intro m
    simp only [AutoReplayManager.nextSongs, ih]
    rcases hq : m.replay_queue with _ | ⟨q, rest⟩
    · simp [AutoReplayManager.getNextReplaySong, hq]
    · simp [AutoReplayManager.getNextReplaySong, hq]

/-- C31: `getNextReplaySong` on an empty queue returns `nullptr` and leaves the Replay Selector
as it is; on a queue `q :: rest` it returns `q` and leaves the queue `rest ++ [q]`; as many
consecutive calls as the queue has entries return the entries in order and leave the Replay
Selector as it was; and a non-empty queue is non-empty after any number of calls. -/
theorem C31_round_robin_replay (m : AutoReplayManager) :
    (m.replay_queue = [] → m.getNextReplaySong = (none, m)) ∧
      (∀ q rest, m.replay_queue = q :: rest →
        m.getNextReplaySong = (some q, { m with replay_queue := rest ++ [q] })) ∧
      m.nextSongs m.replay_queue.length = (m.replay_queue.map some, m) ∧
      ∀ n, m.replay_queue ≠ [] → (m.nextSongs n).2.replay_queue ≠ [] := by
  refine ⟨?_, ?_, ?_, ?_⟩
  · intro h
    unfold AutoReplayManager.getNextReplaySong
    rw [h]
  · intro q rest h
    unfold AutoReplayManager.getNextReplaySong
    rw [h]
  · have := AutoReplayManager.nextSongs_append m.replay_queue [] m (by simp)
    rw [this]
    cases m
    simp
  · intro n hne hemp
    have hlen := AutoReplayManager.nextSongs_length n m
    rw [hemp] at hlen
    exact hne (List.length_eq_zero.mp hlen.symm)

/-! ### Engine: states reached from the constructor -/

theorem PlayWiseEngine.Wf.of_new : PlayWiseEngine.new.Wf :=
  ⟨rfl, by simp [PlayWiseEngine.new, InstantLookup.empty]⟩

theorem PlayWiseEngine.Wf.transfer {e e1 : PlayWiseEngine} (h : e.Wf)
    (h1 : e1.skipped_tracker.max_size = e.skipped_tracker.max_size)
    (h2 : e1.lookup = e.lookup) (h3 : e1.next_song = e.next_song)
    (h4 : ∀ x, (e1.heap x).id = (e.heap x).id) : e1.Wf := by
  refine ⟨h1.trans h.capacity, ?_⟩
  intro id x hx
  rw [h2] at hx
  rw [h3, h4]
  exact h.lookup_id id x hx

theorem PlayWiseEngine.Wf.of_playSong {e : PlayWiseEngine} (h : e.Wf) (song_id : String) :
    (e.playSong song_id).Wf := by
  unfold PlayWiseEngine.playSong
  cases hl : e.lookup.lookup_by_id song_id with
  | none => exact h
  | some song =>
    refine h.transfer rfl rfl rfl ?_
    intro x
    simp only [AutoReplayManager.recordPlay, Function.update_apply]
    split_ifs with hx
    · rw [hx]
    · rfl

theorem PlayWiseEngine.Wf.of_skipCurrentSong {e : PlayWiseEngine} (h : e.Wf) :
    e.skipCurrentSong.Wf := by
  unfold PlayWiseEngine.skipCurrentSong
  cases hc : e.current_song with
  | none => exact h
  | some song =>
    exact h.transfer (RecentlySkippedTracker.addSkippedSong_max_size _ _) rfl rfl (fun _ => rfl)

theorem PlayWiseEngine.Wf.of_addSong {e e1 : PlayWiseEngine} (h : e.Wf) (now : Int)
    (id title artist : String) (duration rating : Int) (genre : String) (song : SongRef)
    (hadd : e.addSong now id title artist duration rating genre = some (song, e1)) :
    e1.Wf := by
  unfold PlayWiseEngine.addSong at hadd
  simp only [Option.bind_eq_bind, Option.bind_eq_some] at hadd
  obtain ⟨pl1, _, hadd⟩ := hadd
  have key : ∀ (hp : SongHeap), (∀ x, (hp x).id =
      ((Function.update e.heap e.next_song
        { id := id, title := title, artist := artist, genre := genre, duration := duration,
          rating := rating, play_count := 0, added_time := now } : SongHeap) x).id) →
      ∀ (id1 : String) (x : SongRef),
        (InstantLookup.add_song (Function.update e.heap e.next_song
          { id := id, title := title, artist := artist, genre := genre, duration := duration,
            rating := rating, play_count := 0, added_time := now }) e.lookup
              e.next_song).id_map id1 = some x →
        x < e.next_song + 1 ∧ (hp x).id = id1 := by
    intro hp hhp id1 x hx
    rw [hhp]
    simp only [InstantLookup.add_song, Function.update_same, Function.update_apply] at hx
    split_ifs at hx with hid
    · have hxe : x = e.next_song := (Option.some.inj hx).symm
      subst hxe
      exact ⟨Nat.lt_succ_self _, by rw [Function.update_same, hid]⟩
    · obtain ⟨hlt, hidx⟩ := h.lookup_id id1 x hx
      refine ⟨Nat.lt_succ_of_lt hlt, ?_⟩
      rw [Function.update_noteq (Nat.ne_of_lt hlt)]
      exact hidx
  split_ifs at hadd with hr
  · have he := (Prod.mk.inj (Option.some.inj hadd)).2
    subst he
    refine ⟨h.capacity, ?_⟩
    apply key
    intro x
    simp only [SongRatingTree.insert_song]
    split_ifs
    · rfl
    · simp only [Function.update_apply]
      split_ifs with hx
      · subst hx; simp
      · rfl
  · have he := (Prod.mk.inj (Option.some.inj hadd)).2
    subst he
    exact ⟨h.capacity, key _ (fun _ => rfl)⟩

theorem PlayWiseEngine.Wf.of_checkAndHandlePlaylistEnd {e e1 : PlayWiseEngine} (h : e.Wf)
    (b : Bool) (hc : e.checkAndHandlePlaylistEnd = some (b, e1)) : e1.Wf := by
  unfold PlayWiseEngine.checkAndHandlePlaylistEnd at hc
  simp only [Option.bind_eq_bind, Option.bind_eq_some] at hc
  obtain ⟨all_songs, _, hc⟩ := hc
  have base : ∀ (m : AutoReplayManager),
      ({ e with playlist_ended := true, replay_manager := m } : PlayWiseEngine).Wf :=
    fun m => h.transfer rfl rfl rfl (fun _ => rfl)
  split at hc
  · split at hc
    · split at hc
      · rw [← (Prod.mk.inj (Option.some.inj hc)).2]
        exact (base _).of_playSong _
      · rw [← (Prod.mk.inj (Option.some.inj hc)).2]
        exact base _
    · rw [← (Prod.mk.inj (Option.some.inj hc)).2]
      exact h.transfer rfl rfl rfl (fun _ => rfl)
  · rw [← (Prod.mk.inj (Option.some.inj hc)).2]
    exact h

theorem PlayWiseEngine.Wf.of_autoPlayNext {e e1 : PlayWiseEngine} (h : e.Wf)
    (r : Option SongRef) (hc : e.autoPlayNext = some (r, e1)) : e1.Wf := by
  unfold PlayWiseEngine.autoPlayNext at hc
  simp only [Option.bind_eq_bind, Option.bind_eq_some] at hc
  obtain ⟨all_songs, _, hc⟩ := hc
  split at hc
  · rw [← (Prod.mk.inj (Option.some.inj hc)).2]
    exact h.of_playSong _
  · split at hc
    · rw [← (Prod.mk.inj (Option.some.inj hc)).2]
      exact h
    · simp only [Option.bind_eq_some] at hc
      obtain ⟨⟨ended, e2⟩, hce, hc⟩ := hc
      have h2 := h.of_checkAndHandlePlaylistEnd ended hce
      simp only at hc
      split at hc
      · rw [← (Prod.mk.inj (Option.some.inj hc)).2]
        exact h2
      · split at hc
        · rw [← (Prod.mk.inj (Option.some.inj hc)).2]
          exact h2.of_playSong _
        · rw [← (Prod.mk.inj (Option.some.inj hc)).2]
          exact h2

theorem PlayWiseEngine.Wf.of_step {e e1 : PlayWiseEngine} (h : e.Wf) (op : EngineOp)
    (hs : e.step op = some e1) : e1.Wf := by
  cases op with
  | addSong now id title artist duration rating genre =>
    simp only [PlayWiseEngine.step, Option.map_eq_some'] at hs
    obtain ⟨⟨song, e2⟩, hadd, he⟩ := hs
    simp only at he
    subst he
    exact h.of_addSong now id title artist duration rating genre song hadd
  | playSong song_id =>
    simp only [PlayWiseEngine.step, Option.some.injEq] at hs
    rw [← hs]
    exact h.of_playSong song_id
  | skipCurrentSong =>
    simp only [PlayWiseEngine.step, Option.some.injEq] at hs
    rw [← hs]
    exact h.of_skipCurrentSong
  | autoPlayNext =>
    simp only [PlayWiseEngine.step, Option.map_eq_some'] at hs
    obtain ⟨⟨r, e2⟩, hc, he⟩ := hs
    simp only at he
    subst he
    exact h.of_autoPlayNext r hc
  | undoLastPlay =>
    simp only [PlayWiseEngine.step, PlayWiseEngine.undoLastPlay] at hs
    split at hs
    · simp only [Option.bind_eq_bind, Option.bind_eq_some] at hs
      obtain ⟨pl1, _, he⟩ := hs
      rw [← Option.some.inj he]
      exact h.transfer rfl rfl rfl (fun _ => rfl)
    · rw [← Option.some.inj hs]
      exact h.transfer rfl rfl rfl (fun _ => rfl)
  | sortPlaylist criteria useQuickSort =>
    cases useQuickSort <;>
    · simp only [PlayWiseEngine.step, PlayWiseEngine.sortPlaylist, Option.bind_eq_bind,
        Option.bind_eq_some, if_true, Bool.false_eq_true, if_false] at hs
      obtain ⟨songs, _, sorted, _, pl1, _, he⟩ := hs
      rw [← Option.some.inj he]
      exact h.transfer rfl rfl rfl (fun _ => rfl)
  | move_song from_index to_index =>
    simp only [PlayWiseEngine.step, Option.map_eq_some'] at hs
    obtain ⟨r, _, he⟩ := hs
    rw [← he]
    exact h.transfer rfl rfl rfl (fun _ => rfl)
  | delete_song index =>
    simp only [PlayWiseEngine.step, Option.map_eq_some'] at hs
    obtain ⟨r, _, he⟩ := hs
    rw [← he]
    exact h.transfer rfl rfl rfl (fun _ => rfl)
  | reverse_playlist =>
    simp only [PlayWiseEngine.step, Option.map_eq_some'] at hs
    obtain ⟨r, _, he⟩ := hs
    rw [← he]
    exact h.transfer rfl rfl rfl (fun _ => rfl)

theorem PlayWiseEngine.Wf.of_run (ops : List EngineOp) :
    ∀ {e e1 : PlayWiseEngine}, e.Wf → e.run ops = some e1 → e1.Wf := by
  induction ops with
  | nil =>
    intro e e1 h hr
    simp only [PlayWiseEngine.run, List.foldlM, Option.pure_def, Option.some.injEq] at hr
    rw [← hr]; exact h
  | cons op rest ih =>
    intro e e1 h hr
    simp only [PlayWiseEngine.run, List.foldlM, Option.bind_eq_bind, Option.bind_eq_some] at hr
    obtain ⟨e2, hs, hr⟩ := hr
    exact ih (h.of_step op hs) hr

theorem PlayWiseEngine.Wf.of_isSome (ops : List EngineOp)
    (hrun : (PlayWiseEngine.new.run ops).isSome = true) :
    ∃ e, PlayWiseEngine.new.run ops = some e ∧ e.Wf := by
  obtain ⟨e, he⟩ := Option.isSome_iff_exists.mp hrun
  exact ⟨e, he, PlayWiseEngine.Wf.of_run ops PlayWiseEngine.Wf.of_new he⟩

/-! ### Engine: play and skip -/

/-- C32: for every engine state and every id for which the Identity Index returns no track,
`playSong` returns the state as it is, so the current track, the history, the play counts, the
Recency Tracker and the playlist are unchanged. -/
theorem C32_play_unknown_id_changes_nothing (e : PlayWiseEngine) (song_id : String)
    (h : e.lookup.lookup_by_id song_id = none) : e.playSong song_id = e := by
  unfold PlayWiseEngine.playSong
  rw [h]

theorem C32_play_unknown_id_changes_nothing_witness :
    PlayWiseEngine.new.lookup.lookup_by_id "a" = none ∧
      PlayWiseEngine.new.playSong "a" = PlayWiseEngine.new :=
  ⟨rfl, C32_play_unknown_id_changes_nothing PlayWiseEngine.new "a" rfl⟩

/-- C33: in every state reached from the constructor, for every id under which the Identity
Index returns a track, `playSong` makes that track current and pushes it on the history; the
track carries the id, the count of the Replay Selector for the id becomes its old value (0
when there was none) plus one, and the play count of the track goes up by one; the counts of
all other ids, all other tracks and the playlist are unchanged. -/
theorem C33_play_fan_out (ops : List EngineOp)
    (hrun : (PlayWiseEngine.new.run ops).isSome = true) :
    ∃ e, PlayWiseEngine.new.run ops = some e ∧
      ∀ song_id song, e.lookup.lookup_by_id song_id = some song →
        (e.playSong song_id).current_song = some song ∧
        (e.playSong song_id).history.history = song :: e.history.history ∧
        (e.heap song).id = song_id ∧
        (e.playSong song_id).replay_manager.play_counts song_id =
          some ((e.replay_manager.play_counts song_id).getD 0 + 1) ∧
        ((e.playSong song_id).heap song).play_count = (e.heap song).play_count + 1 ∧
        (∀ id, id ≠ song_id →
          (e.playSong song_id).replay_manager.play_counts id = e.replay_manager.play_counts id) ∧
        (∀ x, x ≠ song → (e.playSong song_id).heap x = e.heap x) ∧
        (e.playSong song_id).playlist = e.playlist := by
  obtain ⟨e, he, hwf⟩ := PlayWiseEngine.Wf.of_isSome ops hrun
  refine ⟨e, he, ?_⟩
  intro song_id song hl
  have hid : (e.heap song).id = song_id := (hwf.lookup_id song_id song hl).2
  have hplay : e.playSong song_id =
      { e with current_song := some song, history := e.history.play_song song,
               heap := (AutoReplayManager.recordPlay e.heap e.replay_manager song).1,
               replay_manager := (AutoReplayManager.recordPlay e.heap e.replay_manager song).2,
               playlist_ended := false } := by
    unfold PlayWiseEngine.playSong
    rw [hl]
  rw [hplay]
  refine ⟨rfl, rfl, hid, ?_, ?_, ?_, ?_, rfl⟩
  · simp only [AutoReplayManager.recordPlay, hid, Function.update_same]
  · simp only [AutoReplayManager.recordPlay, Function.update_same]
  · intro id hne
    simp only [AutoReplayManager.recordPlay, hid, Function.update_noteq hne]
  · intro x hne
    simp only [AutoReplayManager.recordPlay, Function.update_noteq hne]

theorem C33_play_fan_out_witness :
    (PlayWiseEngine.new.run playedOps).isSome = true ∧
      ∃ e, PlayWiseEngine.new.run playedOps = some e ∧
        ∀ song_id song, e.lookup.lookup_by_id song_id = some song →
          (e.playSong song_id).current_song = some song ∧
          (e.playSong song_id).history.history = song :: e.history.history ∧
          (e.heap song).id = song_id ∧
          (e.playSong song_id).replay_manager.play_counts song_id =
            some ((e.replay_manager.play_counts song_id).getD 0 + 1) ∧
          ((e.playSong song_id).heap song).play_count = (e.heap song).play_count + 1 ∧
          (∀ id, id ≠ song_id →
            (e.playSong song_id).replay_manager.play_counts id =
              e.replay_manager.play_counts id) ∧
          (∀ x, x ≠ song → (e.playSong song_id).heap x = e.heap x) ∧
          (e.playSong song_id).playlist = e.playlist :=
  ⟨by decide, C33_play_fan_out playedOps (by decide)⟩

theorem RecentlySkippedTracker.addSkippedSong_head (t : RecentlySkippedTracker)
    (song_id : String) (hcap : 1 ≤ t.max_size) :
    (t.addSkippedSong song_id).getRecentlySkipped.head? = some song_id := by
  unfold RecentlySkippedTracker.addSkippedSong RecentlySkippedTracker.getRecentlySkipped
  simp only []
  split_ifs with h1 h2 h2
  · cases hl : t.skipped_songs.erase song_id with
    | nil => rw [hl] at h2; simp at h2; omega
    | cons a l => rfl
  · rfl
  · cases hl : t.skipped_songs with
    | nil => rw [hl] at h2; simp at h2; omega
    | cons a l => rfl
  · rfl

/-- C34: in every state reached from the constructor, when a track is current
`skipCurrentSong` runs `addSkippedSong` with the id of that track, after which the id is at the
front of the Recency Tracker, and leaves no track current, while the history, the Replay
Selector, the tracks and the playlist are unchanged; when no track is current it returns the
state as it is. -/
theorem C34_skip_transition (ops : List EngineOp)
    (hrun : (PlayWiseEngine.new.run ops).isSome = true) :
    ∃ e, PlayWiseEngine.new.run ops = some e ∧
      (∀ song, e.current_song = some song →
        e.skipCurrentSong.skipped_tracker =
          e.skipped_tracker.addSkippedSong (e.heap song).id ∧
        e.skipCurrentSong.skipped_tracker.getRecentlySkipped.head? = some (e.heap song).id ∧
        e.skipCurrentSong.current_song = none ∧
        e.skipCurrentSong.history = e.history ∧
        e.skipCurrentSong.replay_manager = e.replay_manager ∧
        e.skipCurrentSong.heap = e.heap ∧
        e.skipCurrentSong.playlist = e.playlist) ∧
      (e.current_song = none → e.skipCurrentSong = e) := by
  obtain ⟨e, he, hwf⟩ := PlayWiseEngine.Wf.of_isSome ops hrun
  refine ⟨e, he, ?_, ?_⟩
  · intro song hc
    have hhead := RecentlySkippedTracker.addSkippedSong_head e.skipped_tracker (e.heap song).id
      (by rw [hwf.capacity]; decide)
    unfold PlayWiseEngine.skipCurrentSong
    rw [hc]
    exact ⟨rfl, hhead, rfl, rfl, rfl, rfl, rfl⟩
  · intro hc
    unfold PlayWiseEngine.skipCurrentSong
    rw [hc]

theorem C34_skip_transition_witness :
    (PlayWiseEngine.new.run playedOps).isSome = true ∧
      ∃ e, PlayWiseEngine.new.run playedOps = some e ∧
        (∀ song, e.current_song = some song →
          e.skipCurrentSong.skipped_tracker =
            e.skipped_tracker.addSkippedSong (e.heap song).id ∧
          e.skipCurrentSong.skipped_tracker.getRecentlySkipped.head? =
            some (e.heap song).id ∧
          e.skipCurrentSong.current_song = none ∧
          e.skipCurrentSong.history = e.history ∧
          e.skipCurrentSong.replay_manager = e.replay_manager ∧
          e.skipCurrentSong.heap = e.heap ∧
          e.skipCurrentSong.playlist = e.playlist) ∧
        (e.current_song = none → e.skipCurrentSong = e) :=
  ⟨by decide, C34_skip_transition playedOps (by decide)⟩

/-! ### Engine: undo -/

/-- When the playlist is a well-formed list holding `songs` and the history is not empty,
`undoLastPlay` pops the top of the history, which is the most recent play not yet undone, and
appends that track at the tail of the playlist: the playlist then holds `songs` followed by the
track and its size is one larger; the rest of the state is unchanged. On an empty history
`undoLastPlay` returns the state as it is. -/
theorem PlayWiseEngine.undoLastPlay_reappends (e : PlayWiseEngine) (songs : List SongRef)
    (hrep : e.playlist.Represents songs) :
    (∀ song rest, e.history.history = song :: rest →
      ∃ e1, e.undoLastPlay = some e1 ∧ e1.history.history = rest ∧
        e1.playlist.Represents (songs ++ [song]) ∧
        e1.playlist.getAllSongs = some (songs ++ [song]) ∧
        e1.playlist.getSize = e.playlist.getSize + 1 ∧
        e1.current_song = e.current_song ∧ e1.heap = e.heap ∧
        e1.replay_manager = e.replay_manager ∧ e1.lookup = e.lookup ∧
        e1.songDatabase = e.songDatabase) ∧
      (e.history.history = [] → e.undoLastPlay = some e) := by
  obtain ⟨addrs, r⟩ := hrep
  constructor
  · intro song rest hh
    obtain ⟨pl1, hadd, r1, _⟩ := r.add_song song
    refine ⟨{ e with history := { history := rest }, playlist := pl1 }, ?_, rfl, ⟨_, r1⟩,
      r1.getAllSongs_eq, ?_, rfl, rfl, rfl, rfl, rfl⟩
    · simp only [PlayWiseEngine.undoLastPlay, PlaybackHistory.undo_last_play, hh, hadd,
        Option.bind_eq_bind, Option.some_bind]
    · show pl1.size = e.playlist.size + 1
      rw [r1.size_eq, r.size_eq]
      simp
  · intro hh
    simp only [PlayWiseEngine.undoLastPlay, PlaybackHistory.undo_last_play, hh]

/-! ### The two sorts compared, continued -/

/-- C36: there is an input in which two tracks have equal keys and on which `mergeSort` and
`quickSort` return the same ordering: the tracks 10 and 11 of `sampleHeap` both have duration 1,
and on `[30, 10, 11, 5]` under `DURATION_ASC` both sorts return `[5, 11, 10, 30]`. -/
theorem C36_sorts_agree_on_a_dataset_with_ties :
    ∃ (songs : List SongRef) (c : SortCriteria) (out : List SongRef),
      (∃ (i j : Nat) (a b : SongRef), i < j ∧ songs[i]? = some a ∧ songs[j]? = some b ∧
        PlaylistSorter.compare sampleHeap a b c = false ∧
        PlaylistSorter.compare sampleHeap b a c = false ∧
        (sampleHeap a).duration = (sampleHeap b).duration) ∧
      PlaylistSorter.mergeSort sampleHeap songs c = some out ∧
      PlaylistSorter.quickSort sampleHeap songs c = some out :=
  ⟨[30, 10, 11, 5], SortCriteria.DURATION_ASC, [5, 11, 10, 30],
    ⟨1, 2, 10, 11, by decide, by decide, by decide, by decide, by decide, by decide⟩,
    by decide, by decide⟩

theorem PlaylistSorter.mergeSort_spec (heap : SongHeap) (songs : List SongRef)
    (c : SortCriteria) :
    ∃ out, PlaylistSorter.mergeSort heap songs c = some out ∧ out.Perm songs ∧
      out.Pairwise (fun x y => PlaylistSorter.compare heap y x c = false) := by
  obtain ⟨out, h, hp, hsorted⟩ := PlaylistSorter.mergeSortHelper_spec heap c songs.length songs []
    songs [] 0 ((songs.length : Int) - 1) (by simp) (by simp) (by simp) (le_refl _)
  exact ⟨out, by simpa [PlaylistSorter.mergeSort] using h, hp, hsorted⟩

theorem PlaylistSorter.quickSort_spec (heap : SongHeap) (songs : List SongRef)
    (c : SortCriteria) :
    ∃ out, PlaylistSorter.quickSort heap songs c = some out ∧ out.Perm songs ∧
      out.Pairwise (fun x y => PlaylistSorter.compare heap y x c = false) := by
  obtain ⟨out, h, hp, hsorted⟩ := PlaylistSorter.quickSortHelper_spec heap c songs.length songs []
    songs [] 0 ((songs.length : Int) - 1) (by simp) (by simp) (by simp) (le_refl _)
  exact ⟨out, by simpa [PlaylistSorter.quickSort] using h, hp, hsorted⟩

/-- C38: when no two tracks of the input have equal keys under the criterion, `mergeSort` and
`quickSort` return the same sequence; it is a permutation of the input in which every earlier
track compares before every later one, and every ordering of the input that is sorted by the
criterion is equal to it. -/
theorem C38_sorts_coincide_without_ties (heap : SongHeap) (songs : List SongRef)
    (c : SortCriteria)
    (hd : songs.Pairwise (fun a b => PlaylistSorter.compare heap a b c = true ∨
      PlaylistSorter.compare heap b a c = true)) :
    ∃ out, PlaylistSorter.mergeSort heap songs c = some out ∧
      PlaylistSorter.quickSort heap songs c = some out ∧ out.Perm songs ∧
      out.Pairwise (fun x y => PlaylistSorter.compare heap x y c = true) ∧
      ∀ l : List SongRef, l.Perm songs →
        l.Pairwise (fun x y => PlaylistSorter.compare heap y x c = false) → l = out := by
  obtain ⟨o1, h1, p1, s1⟩ := PlaylistSorter.mergeSort_spec heap songs c
  obtain ⟨o2, h2, p2, s2⟩ := PlaylistSorter.quickSort_spec heap songs c
  have e := PlaylistSorter.sorted_perm_unique heap c songs o1 o2 hd p1 p2 s1 s2
  refine ⟨o1, h1, by rw [e]; exact h2, p1, ?_, ?_⟩
  · have hsymm : ∀ {x y : SongRef}, (PlaylistSorter.compare heap x y c = true ∨
        PlaylistSorter.compare heap y x c = true) → (PlaylistSorter.compare heap y x c = true ∨
        PlaylistSorter.compare heap x y c = true) := fun h => h.symm
    have hd2 := (p1.pairwise_iff hsymm).mpr hd
    refine (s1.and hd2).imp ?_
    intro x y h
    rcases h.2 with h3 | h3
    · exact h3
    · rw [h.1] at h3; exact absurd h3 (by simp)
  · intro l pl sl
    exact PlaylistSorter.sorted_perm_unique heap c songs l o1 hd pl p1 sl s1

theorem C38_sorts_coincide_without_ties_witness :
    ([42, 7, 25, 13, 31] : List SongRef).Pairwise
        (fun a b => PlaylistSorter.compare sampleHeap a b SortCriteria.DURATION_DESC = true ∨
          PlaylistSorter.compare sampleHeap b a SortCriteria.DURATION_DESC = true) ∧
      ∃ out, PlaylistSorter.mergeSort sampleHeap [42, 7, 25, 13, 31]
            SortCriteria.DURATION_DESC = some out ∧
        PlaylistSorter.quickSort sampleHeap [42, 7, 25, 13, 31]
            SortCriteria.DURATION_DESC = some out ∧
        out.Perm [42, 7, 25, 13, 31] ∧
        out.Pairwise
          (fun x y => PlaylistSorter.compare sampleHeap x y SortCriteria.DURATION_DESC = true) ∧
        ∀ l : List SongRef, l.Perm [42, 7, 25, 13, 31] →
          l.Pairwise
            (fun x y => PlaylistSorter.compare sampleHeap y x SortCriteria.DURATION_DESC =
              false) → l = out :=
  ⟨by decide, C38_sorts_coincide_without_ties sampleHeap [42, 7, 25, 13, 31]
    SortCriteria.DURATION_DESC (by decide)⟩

/-! ### Engine: the snapshot -/

/-- C37: for every engine state `export_snapshot` returns and leaves the state as it is;
`top_longest_songs` has `min(5, N)` entries for `N` owned tracks and, followed by the owned
tracks not in it, is an arrangement of the owned tracks in non-increasing duration, so it is
ordered by duration and no owned track outside it is longer than one in it; `recently_played`
is the first 5 entries of the history, top first, or all when there are fewer; `rating_counts`
is the map of `getSongCountByRating`; `total_songs` is the number of owned tracks and
`playlist_size` is `getSize()` of the playlist. -/
theorem C37_snapshot_is_a_derived_report (e : PlayWiseEngine) :
    ∃ (snap : PlayWiseEngine.SystemSnapshot) (others : List SongRef),
      e.export_snapshot = some (snap, e) ∧
      (snap.top_longest_songs ++ others).Perm e.songDatabase ∧
      (snap.top_longest_songs.length : Int) = min 5 (e.songDatabase.length : Int) ∧
      snap.top_longest_songs.Pairwise
        (fun a b => (e.heap a).duration ≥ (e.heap b).duration) ∧
      (∀ a ∈ snap.top_longest_songs, ∀ b ∈ others,
        (e.heap a).duration ≥ (e.heap b).duration) ∧
      snap.recently_played = e.history.history.take 5 ∧
      snap.rating_counts = e.ratingTree.getSongCountByRating ∧
      snap.total_songs = (e.songDatabase.length : Int) ∧
      snap.playlist_size = e.playlist.getSize := by
  obtain ⟨out, hq, hp, hs⟩ :=
    PlaylistSorter.quickSort_spec e.heap e.songDatabase SortCriteria.DURATION_DESC
  have hs2 : out.Pairwise (fun a b => (e.heap a).duration ≥ (e.heap b).duration) := by
    refine hs.imp ?_
    intro a b hab
    simp only [PlaylistSorter.compare, decide_eq_false_iff_not, not_lt] at hab
    exact hab
  have hn : (min 5 (out.length : Int)).toNat = min 5 out.length := by omega
  have hsplit : out.take (min 5 out.length) ++ out.drop (min 5 out.length) = out :=
    List.take_append_drop _ _
  refine ⟨{ top_longest_songs := out.take (min 5 out.length),
             recently_played := e.history.getRecentlyPlayed 5,
             rating_counts := e.ratingTree.getSongCountByRating,
             total_songs := (e.songDatabase.length : Int),
             playlist_size := e.playlist.getSize },
    out.drop (min 5 out.length), ?_, ?_, ?_, ?_, ?_, rfl, rfl, rfl, rfl⟩
  · simp only [PlayWiseEngine.export_snapshot, hq, Option.bind_eq_bind, Option.some_bind, hn]
  · simp only
    rw [hsplit]; exact hp
  · simp only [List.length_take, ← hp.length_eq]
    omega
  · simp only
    rw [← hsplit] at hs2
    exact (List.pairwise_append.mp hs2).1
  · simp only
    rw [← hsplit] at hs2
    exact (List.pairwise_append.mp hs2).2.2

/-! ### Rating index: the search-tree invariant -/

theorem RatingNode.nodup_keys_of_isSearchTree :
    ∀ node : RatingNode, node.IsSearchTree → node.keys.Nodup := by
  intro node
  induction node with
  | nil => intro _; exact List.nodup_nil
  | node r songs left right ihl ihr =>
    intro h
    obtain ⟨h1, h2, h3, h4⟩ := h
    simp only [RatingNode.keys, List.nodup_cons, List.mem_append, not_or]
    refine ⟨⟨fun hm => lt_irrefl _ (h1 r hm), fun hm => lt_irrefl _ (h2 r hm)⟩, ?_⟩
    rw [List.nodup_append]
    refine ⟨ihl h3, ihr h4, ?_⟩
    intro k hk1 hk2
    exact lt_asymm (h1 k hk1) (h2 k hk2)

theorem SongRatingTree.keys_range_runOps (ops : List RatingOp) :
    ∀ st : SongHeap × SongRatingTree, (∀ k ∈ st.2.root.keys, 1 ≤ k ∧ k ≤ 5) →
      ∀ k ∈ (ops.foldl SongRatingTree.applyOp st).2.root.keys, 1 ≤ k ∧ k ≤ 5 := by
  induction ops with
  | nil => intro st h; exact h
  | cons op rest ih =>
    intro st h
    rw [List.foldl_cons]
    apply ih
    cases op with
    | insert_song song rating =>
      simp only [SongRatingTree.applyOp, SongRatingTree.insert_song]
      split_ifs with hr
      · exact h
      · intro k hk
        rcases (SongRatingTree.keys_insertHelper song rating _ k).mp hk with hk | hk
        · rw [hk]; omega
        · exact h k hk
    | delete_song song_id =>
      intro k hk
      apply h
      have hsk := (SongRatingTree.deleteHelper_spec st.1 song_id st.2.root).2.2.1
      have hkeys : (SongRatingTree.deleteHelper st.1 st.2.root song_id).2.keys =
          st.2.root.keys := by
        rw [← RatingNode.keys_skeleton, hsk, RatingNode.keys_skeleton]
      rw [← hkeys]
      exact hk

/-- C40: in every Rating Index reached from the empty one by `insert_song` and `delete_song`
calls, every node rating lies in 1..5, the node ratings are pairwise distinct, so there are at
most five nodes, every rating in the left subtree of a node is smaller and every rating in its
right subtree is larger than the rating of the node, and a further `delete_song` leaves the
nodes, their ratings and their links as they are, whatever bucket entry it erases. -/
theorem C40_rating_index_search_tree (heap : SongHeap) (ops : List RatingOp) :
    (∀ k ∈ (SongRatingTree.runOps heap ops).2.root.keys, 1 ≤ k ∧ k ≤ 5) ∧
      (SongRatingTree.runOps heap ops).2.root.keys.Nodup ∧
      (SongRatingTree.runOps heap ops).2.root.keys.length ≤ 5 ∧
      (SongRatingTree.runOps heap ops).2.root.IsSearchTree ∧
      ∀ (heap2 : SongHeap) (song_id : String),
        ((SongRatingTree.runOps heap ops).2.delete_song heap2 song_id).2.root.skeleton =
          (SongRatingTree.runOps heap ops).2.root.skeleton := by
  have hbst : (SongRatingTree.runOps heap ops).2.root.IsSearchTree :=
    SongRatingTree.isSearchTree_runOps ops (heap, SongRatingTree.empty) trivial
  have hrange : ∀ k ∈ (SongRatingTree.runOps heap ops).2.root.keys, 1 ≤ k ∧ k ≤ 5 :=
    SongRatingTree.keys_range_runOps ops (heap, SongRatingTree.empty)
      (by simp [SongRatingTree.empty, RatingNode.keys])
  have hnd := RatingNode.nodup_keys_of_isSearchTree _ hbst
  refine ⟨hrange, hnd, ?_, hbst, ?_⟩
  · have hsub : (SongRatingTree.runOps heap ops).2.root.keys ⊆ [1, 2, 3, 4, 5] := by
      intro k hk
      have := hrange k hk
      simp only [List.mem_cons, List.mem_singleton, List.not_mem_nil, or_false]
      omega
    exact (List.subperm_of_subset hnd hsub).length_le
  · intro heap2 song_id
    exact (SongRatingTree.deleteHelper_spec heap2 song_id _).2.2.1

/-! ### Ordered sequence: the index at which a moved track lands -/

theorem moveLanding_le (n t : Nat) (ht : t < n) : moveLanding n t ≤ n - 1 := by
  unfold moveLanding
  split_ifs <;> omega

/-- C39 (failing input): on the three-track playlist `samplePlaylist`, holding 10, 11, 12,
`move_song(0, 1)` returns true; the claim places the moved track at index `1 - 1 = 0`, but it
is not in `getAllSongs` at all, which is `[11, 12]`. For every other well-formed playlist and
valid pair of different indices the moved track is at index `moveLanding n t`: at `t` when
`t = 0`, `t = n - 1` or `t < n / 2`, and at `t - 1` otherwise. In every case with
`0 < t < n - 1`, the one above included, `getNodeAt` finds the moved node and, after the
unlinking, a target node, without reading through a null pointer. -/
theorem C39_move_landing_index :
    ((samplePlaylist.move_song 0 1).map (fun r => r.1) = some true ∧
        (samplePlaylist.move_song 0 1).bind (fun r => r.2.getAllSongs) = some [11, 12] ∧
        moveLanding 3 1 = 0) ∧
      (∀ (pl : PlaylistEngine) (songs : List SongRef) (k t : Nat) (s : SongRef),
        pl.Represents songs → songs[k]? = some s → t < songs.length → k ≠ t →
        ¬ (songs.length = 3 ∧ t = 1) →
        ∃ pl1, pl.move_song (k : Int) (t : Int) = some (true, pl1) ∧
          pl1.getAllSongs =
            some ((songs.eraseIdx k).insertIdx (moveLanding songs.length t) s) ∧
          ((songs.eraseIdx k).insertIdx (moveLanding songs.length t) s)[moveLanding
            songs.length t]? = some s) ∧
      ∀ (pl : PlaylistEngine) (songs : List SongRef) (k t : Nat) (s : SongRef),
        pl.Represents songs → songs[k]? = some s → 0 < t → t + 1 < songs.length → k ≠ t →
        ∃ c pl2 target, pl.getNodeAt (k : Int) = some (some c) ∧ pl.unlink c = some pl2 ∧
          pl2.getNodeAt (t : Int) = some (some target) := by
  refine ⟨by decide, ?_, ?_⟩
  · intro pl songs k t s hrep hs ht hkt hbad
    obtain ⟨addrs, r⟩ := hrep
    have hk : k < addrs.length := by rw [r.len]; exact idx_lt hs
    have hc : addrs[k]? = some addrs[k] := List.getElem?_eq_getElem hk
    obtain ⟨pl1, hmove, r1, _⟩ := r.move_song k t addrs[k] s hc hs (by rw [r.len]; exact ht)
      hkt (by rw [r.len]; exact hbad)
    rw [r.len] at r1
    refine ⟨pl1, hmove, r1.getAllSongs_eq, ?_⟩
    have hle : moveLanding songs.length t ≤ (songs.eraseIdx k).length := by
      rw [List.length_eraseIdx_of_lt (idx_lt hs)]
      exact moveLanding_le _ _ ht
    rw [getElem?_insertIdx_eq s _ _ _ hle, if_neg (lt_irrefl _), if_pos rfl]
  · intro pl songs k t s hrep hs ht0 htn hkt
    obtain ⟨addrs, r⟩ := hrep
    have hk : k < addrs.length := by rw [r.len]; exact idx_lt hs
    have hc : addrs[k]? = some addrs[k] := List.getElem?_eq_getElem hk
    obtain ⟨pl2, hun, hl2, _, _, _, _, hs2⟩ := r.unlinked k addrs[k] s hc hs
    have hlenA : (addrs.eraseIdx k).length = addrs.length - 1 := List.length_eraseIdx_of_lt hk
    have hsz : pl2.size = ((addrs.eraseIdx k).length : Int) + 1 := by
      rw [hs2, r.size_eq, ← r.len, hlenA]
      omega
    have htl : t < (addrs.eraseIdx k).length := by rw [hlenA, r.len]; omega
    have hst := hl2.getNodeAt_stale hsz t ht0 htl
    have hidx : (if t < ((addrs.eraseIdx k).length + 1) / 2 then t else t - 1) <
        (addrs.eraseIdx k).length := by split_ifs <;> omega
    refine ⟨addrs[k], pl2, (addrs.eraseIdx k)[if t < ((addrs.eraseIdx k).length + 1) / 2
      then t else t - 1], ?_, hun, ?_⟩
    · rw [r.getNodeAt_eq k hk, hc]
    · rw [hst, List.getElem?_eq_getElem hidx]

/-! ### Ordered sequence: lists that can be read from the head -/

/-- When the walk of `getAllSongs` ends, the nodes it passes form a list in which each node's
`next` link points to the following one, and the walk ends with the same result whenever it is
given at least as many iterations as the list has nodes. -/
theorem PlaylistEngine.collect_chain (pl : PlaylistEngine) :
    ∀ (fuel : Nat) (cur : Option Nat) (acc out : List SongRef),
      pl.collect fuel cur acc = some out →
      ∃ addrs : List Nat, addrs.length ≤ fuel ∧ cur = addrs[0]? ∧
        (∀ (j a : Nat), addrs[j]? = some a →
          ∃ nd, pl.mem a = some nd ∧ nd.next = addrs[j + 1]?) ∧
        ∀ k1, addrs.length ≤ k1 → pl.collect k1 cur acc = some out := by
  have hdone : ∀ (fuel : Nat) (acc out : List SongRef), pl.collect fuel none acc = some out →
      ∃ addrs : List Nat, addrs.length ≤ fuel ∧ (none : Option Nat) = addrs[0]? ∧
        (∀ (j a : Nat), addrs[j]? = some a →
          ∃ nd, pl.mem a = some nd ∧ nd.next = addrs[j + 1]?) ∧
        ∀ k1, addrs.length ≤ k1 → pl.collect k1 none acc = some out := by
    intro fuel acc out h
    refine ⟨[], Nat.zero_le _, rfl, by simp, ?_⟩
    intro k1 _
    cases k1 <;> cases fuel <;> simpa [PlaylistEngine.collect] using h
  intro fuel
  induction fuel with
  | zero =>
    intro cur acc out h
    cases cur with
    | none => exact hdone 0 acc out h
    | some c => simp [PlaylistEngine.collect] at h
  | succ n ih =>
    intro cur acc out h
    cases cur with
    | none => exact hdone (n + 1) acc out h
    | some c =>
      simp only [PlaylistEngine.collect, Option.bind_eq_bind, Option.bind_eq_some] at h
      obtain ⟨node, hnode, hrest⟩ := h
      obtain ⟨addrs, hlen, hhead, hchain, hmono⟩ := ih _ _ _ hrest
      refine ⟨c :: addrs, by simpa using hlen, by simp, ?_, ?_⟩
      · intro j a hj
        cases j with
        | zero =>
          have hac : c = a := by simpa using hj
          subst hac
          exact ⟨node, hnode, by simpa using hhead⟩
        | succ j =>
          have hj2 : addrs[j]? = some a := by simpa using hj
          simpa using hchain j a hj2
      · intro k1 hk1
        obtain ⟨k2, rfl⟩ : ∃ k2, k1 = k2 + 1 := ⟨k1 - 1, by simp at hk1; omega⟩
        simp only [PlaylistEngine.collect, hnode, Option.bind_eq_bind, Option.some_bind]
        exact hmono k2 (by simp at hk1; omega)

/-- A list of nodes linked by their `next` links up to a null link has no node twice. -/
theorem PlaylistEngine.chain_nodup (pl : PlaylistEngine) (addrs : List Nat)
    (hchain : ∀ (j a : Nat), addrs[j]? = some a →
      ∃ nd, pl.mem a = some nd ∧ nd.next = addrs[j + 1]?) : addrs.Nodup := by
  rw [List.nodup_iff_getElem?_ne_getElem?]
  intro i j hij hj heq
  have hshift : ∀ k, addrs[i + k]? = addrs[j + k]? := by
    intro k
    induction k with
    | zero => exact heq
    | succ k ih =>
      cases hjk : addrs[j + k]? with
      | none =>
        have h1 : addrs.length ≤ j + k := List.getElem?_eq_none_iff.mp hjk
        rw [hjk] at ih
        have h2 : addrs.length ≤ i + k := List.getElem?_eq_none_iff.mp ih
        rw [List.getElem?_eq_none (by omega), List.getElem?_eq_none (by omega)]
      | some b =>
        rw [hjk] at ih
        obtain ⟨nd1, hm1, hn1⟩ := hchain (i + k) b ih
        obtain ⟨nd2, hm2, hn2⟩ := hchain (j + k) b hjk
        have hnd : nd1 = nd2 := Option.some.inj (hm1.symm.trans hm2)
        rw [show i + (k + 1) = i + k + 1 from rfl, show j + (k + 1) = j + k + 1 from rfl,
          ← hn1, ← hn2, hnd]
  have e1 : addrs.length ≤ j + (addrs.length - j) := by omega
  have e2 : i + (addrs.length - j) < addrs.length := by omega
  have h := hshift (addrs.length - j)
  rw [List.getElem?_eq_none e1, List.getElem?_eq_getElem e2] at h
  exact absurd h (by simp)

/-- `clear` returns whenever `getAllSongs` does, and leaves the empty list. -/
theorem PlaylistEngine.clear_of_readable (pl : PlaylistEngine) (songs : List SongRef)
    (h : pl.getAllSongs = some songs) : ∃ pl1, pl.clear = some pl1 ∧ pl1.Repr [] [] := by
  obtain ⟨addrs, hlen, hhead, hchain, _⟩ := pl.collect_chain pl.fresh pl.head [] songs h
  have hnd := pl.chain_nodup addrs hchain
  obtain ⟨pl1, h1, hh, _⟩ := PlaylistEngine.clearLoop_spec addrs hnd pl.fresh 0 pl
    (by omega) hhead (fun j a _ ha => hchain j a ha)
  refine ⟨{ pl1 with tail := none, size := 0 }, by simp [PlaylistEngine.clear, h1], ?_⟩
  exact ⟨⟨rfl, List.nodup_nil, by simp, by simpa using hh, rfl, by simp⟩, rfl⟩

/-- `rebuildFromVector` on a playlist that `getAllSongs` can read installs the given
sequence. -/
theorem PlaylistEngine.rebuild_of_readable (pl : PlaylistEngine) (songs v : List SongRef)
    (h : pl.getAllSongs = some songs) :
    ∃ pl1, pl.rebuildFromVector v = some pl1 ∧ pl1.getAllSongs = some v ∧
      pl1.getSize = (v.length : Int) := by
  obtain ⟨pl1, h1, r1⟩ := pl.clear_of_readable songs h
  obtain ⟨pl2, addrs2, h2, r2⟩ := PlaylistEngine.Repr.foldlM_add_song v pl1 [] [] r1
  have r3 : pl2.Repr addrs2 v := by simpa using r2
  exact ⟨pl2, by simp [PlaylistEngine.rebuildFromVector, h1, h2], r3.getAllSongs_eq, r3.size_eq⟩

/-! ### Ordered sequence and undo after the defective move -/

/-- C15 (failing input): after `add_song` of 1, 2, 3 and `move_song(0, 1)` the playlist has
`getSize` 3 and `getAllSongs` `[2, 3]`. There `delete_song(2)`, an index with
`0 <= index < size`, returns true and leaves `[2]` with `getSize` 2: the claim asks for the
previous list without its element at position 2, and `[2, 3]` has no such element. And
`delete_song(0)` returns true but deletes the head node without assigning `head`, so that
`head` points to a deleted node and `getAllSongs` reads it. On every well-formed playlist
`delete_song` does what the claim says. -/
theorem C15_delete_after_defective_move :
    (movedPlaylist.bind (fun pl => pl.getAllSongs) = some [2, 3] ∧
        movedPlaylist.map (fun pl => pl.getSize) = some 3 ∧
        (movedPlaylist.bind (fun pl => pl.delete_song 2)).map (fun r => (r.1, r.2.getSize)) =
          some (true, 2) ∧
        (movedPlaylist.bind (fun pl => pl.delete_song 2)).bind (fun r => r.2.getAllSongs) =
          some [2] ∧
        (movedPlaylist.bind (fun pl => pl.delete_song 0)).map
          (fun r => (r.1, r.2.head, r.2.head.bind r.2.mem)) = some (true, some 1, none) ∧
        (movedPlaylist.bind (fun pl => pl.delete_song 0)).bind (fun r => r.2.getAllSongs) =
          none) ∧
      ∀ (pl : PlaylistEngine) (songs : List SongRef) (index : Int),
        pl.Represents songs → 0 ≤ index → index < pl.getSize →
        pl.getAllSongs = some songs ∧
          ∃ pl1, pl.delete_song index = some (true, pl1) ∧
            pl1.getAllSongs = some (songs.eraseIdx index.toNat) ∧
            pl1.getSize = pl.getSize - 1 :=
  ⟨by decide, fun pl songs index h h0 h1 =>
    PlaylistEngine.Represents.delete_song_at pl songs h index h0 h1⟩

/-- C18 (failing input): after `add_song` of 1, 2, 3 and `move_song(0, 1)` the playlist has
`getAllSongs` `[2, 3]`. `reverse_playlist` returns there after two iterations and leaves
`getSize` 3, but afterwards the head is node 2, whose `next` is node 1, whose `next` is node 0,
whose `next` is node 1 again: the walk of `getAllSongs` goes round the nodes 1 and 0 and never
ends, where the claim asks for `[3, 2]`. On every well-formed playlist `reverse_playlist` does
what the claim says. -/
theorem C18_reverse_after_defective_move :
    (movedPlaylist.bind (fun pl => pl.getAllSongs) = some [2, 3] ∧
        (movedPlaylist.bind (fun pl => pl.reverse_playlist)).map
          (fun pl => (pl.head, (pl.mem 2).map (fun n => n.next),
            (pl.mem 1).map (fun n => n.next), (pl.mem 0).map (fun n => n.next), pl.getSize)) =
          some (some 2, some (some 1), some (some 0), some (some 1), 3) ∧
        (movedPlaylist.bind (fun pl => pl.reverse_playlist)).bind (fun pl => pl.getAllSongs) =
          none) ∧
      ∀ (pl : PlaylistEngine) (songs : List SongRef), pl.Represents songs →
        pl.getAllSongs = some songs ∧
          ∃ pl1, pl.reverse_playlist = some pl1 ∧ pl1.getAllSongs = some songs.reverse ∧
            pl1.getSize = pl.getSize :=
  ⟨by decide, fun pl songs h => PlaylistEngine.Represents.reverse_playlist_eq pl songs h⟩

/-- C19 (failing input): after `add_song` of 1, 2, 3, `move_song(0, 1)` and `delete_song(0)`,
which both return true, `head` points to a deleted node; `rebuildFromVector` starts with
`clear`, whose loop reads `head->next` from that node, so it does not install the list given.
On every playlist that `getAllSongs` can read, well formed or not, `rebuildFromVector(v)`
returns and leaves `getAllSongs` equal to `v` and `getSize` equal to its length, and
rebuilding from the playlist's own `getAllSongs` gives back the same order. -/
theorem C19_rebuild_after_deleted_head :
    ((movedPlaylist.bind (fun pl => pl.delete_song 0)).map
          (fun r => (r.1, r.2.head, r.2.head.bind r.2.mem)) = some (true, some 1, none) ∧
        ((movedPlaylist.bind (fun pl => pl.delete_song 0)).bind
          (fun r => r.2.rebuildFromVector [7, 8])).isNone = true) ∧
      ∀ (pl : PlaylistEngine) (songs v : List SongRef), pl.getAllSongs = some songs →
        (∃ pl1, pl.rebuildFromVector v = some pl1 ∧ pl1.getAllSongs = some v ∧
          pl1.getSize = (v.length : Int)) ∧
        ∃ pl2, pl.getAllSongs.bind pl.rebuildFromVector = some pl2 ∧
          pl2.getAllSongs = pl.getAllSongs := by
  refine ⟨by decide, ?_⟩
  intro pl songs v h
  refine ⟨pl.rebuild_of_readable songs v h, ?_⟩
  obtain ⟨pl2, h2, hall, _⟩ := pl.rebuild_of_readable songs songs h
  exact ⟨pl2, by rw [h]; exact h2, by rw [h, hall]⟩

/-- C35 (failing input): after three `addSong` calls, `playSong("a")`, `move_song(0, 1)`,
`reverse_playlist` and `delete_song(2)`, which all return, the history holds the track 0 and
`tail` points to a deleted node; `undoLastPlay` pops the track and `add_song` then writes
`tail->next` through that pointer, so the track is not appended as the claim says. When the
playlist is a well-formed list `undoLastPlay` does what the claim says. -/
theorem C35_undo_after_deleted_tail :
    ((PlayWiseEngine.new.run danglingTailOps).isSome = true ∧
        (PlayWiseEngine.new.run danglingTailOps).map
          (fun e => (e.history.history, e.playlist.tail, e.playlist.tail.bind e.playlist.mem)) =
          some ([0], some 1, none) ∧
        ((PlayWiseEngine.new.run danglingTailOps).bind (fun e => e.undoLastPlay)).isNone =
          true) ∧
      ∀ (e : PlayWiseEngine) (songs : List SongRef), e.playlist.Represents songs →
        (∀ song rest, e.history.history = song :: rest →
          ∃ e1, e.undoLastPlay = some e1 ∧ e1.history.history = rest ∧
            e1.playlist.Represents (songs ++ [song]) ∧
            e1.playlist.getAllSongs = some (songs ++ [song]) ∧
            e1.playlist.getSize = e.playlist.getSize + 1 ∧
            e1.current_song = e.current_song ∧ e1.heap = e.heap ∧
            e1.replay_manager = e.replay_manager ∧ e1.lookup = e.lookup ∧
            e1.songDatabase = e.songDatabase) ∧
        (e.history.history = [] → e.undoLastPlay = some e) :=
  ⟨by decide, fun e songs h => PlayWiseEngine.undoLastPlay_reappends e songs h⟩


/-! ### Ordered sequence: the iterations of the loop of `reverse_playlist` -/

/-- A walk that is in a set of situations for its first `n` steps and outside it after them
passes `n` different situations. -/
theorem iterate_le_card {σ : Type} [DecidableEq σ] (f : σ → σ) (s0 : σ) (n : Nat)
    (R : Finset σ) (hn : f^[n] s0 ∉ R) (hR : ∀ m, m < n → f^[m] s0 ∈ R) : n ≤ R.card := by
  have key : ∀ i j, i < j → j < n → f^[i] s0 ≠ f^[j] s0 := by
    intro i j hij hj heq
    have h1 : f^[(n - j) + i] s0 = f^[n] s0 := by
      rw [Function.iterate_add_apply, heq, ← Function.iterate_add_apply]
      congr 1
      omega
    have h2 := hR ((n - j) + i) (by omega)
    rw [h1] at h2
    exact hn h2
  have hinj : Set.InjOn (fun m => f^[m] s0) (Finset.range n : Set Nat) := by
    intro i hi j hj heq
    simp only [Finset.coe_range, Set.mem_Iio] at hi hj
    rcases lt_trichotomy i j with h | h | h
    · exact absurd heq (key i j h hj)
    · exact h
    · exact absurd heq.symm (key j i h hi)
  have := Finset.card_le_card_of_injOn (fun m => f^[m] s0)
    (fun m hm => hR m (Finset.mem_range.mp hm)) hinj
  simpa using this

theorem reverseSituations_card (fresh : Nat) :
    (reverseSituations fresh).card ≤ (fresh + 1) * 2 ^ fresh := by
  unfold reverseSituations
  refine le_trans Finset.card_image_le ?_
  rw [Finset.card_product, Finset.card_powerset, Finset.card_range]
  nlinarith [Nat.one_le_two_pow (n := fresh)]

theorem swappedMem_empty (mem : Nat → Option PlaylistNode) : swappedMem mem ∅ = mem := by
  funext a
  simp [swappedMem]

theorem swappedMem_toggle (mem : Nat → Option PlaylistNode) (S : Finset Nat) (c : Nat)
    (node : PlaylistNode) (h : swappedMem mem S c = some node) :
    swappedMem mem (if c ∈ S then S.erase c else insert c S) =
      Function.update (swappedMem mem S) c (some node.swapLinks) := by
  funext a
  by_cases hac : a = c
  · subst hac
    rw [Function.update_same]
    by_cases hc : a ∈ S
    · simp only [swappedMem, hc, if_true, Finset.mem_erase, ne_eq, not_true_eq_false,
        false_and, if_false] at h ⊢
      cases hm : mem a with
      | none => rw [hm] at h; simp at h
      | some nd =>
        rw [hm] at h
        simp only [Option.map_some', Option.some.injEq] at h
        rw [← h]
        rfl
    · simp only [swappedMem, hc, if_false, Finset.mem_insert, true_or, if_true] at h ⊢
      rw [h]; rfl
  · rw [Function.update_noteq hac]
    by_cases hc : c ∈ S
    · simp only [swappedMem, hc, if_true, Finset.mem_erase, ne_eq, hac, not_false_eq_true,
        true_and]
    · simp only [swappedMem, hc, if_false, Finset.mem_insert, hac, false_or]

theorem PlaylistEngine.reverseLoop_succ (fuel : Nat) (pl : PlaylistEngine) (c : Nat)
    (node : PlaylistNode) (h : pl.mem c = some node) :
    PlaylistEngine.reverseLoop (fuel + 1) pl (some c) =
      PlaylistEngine.reverseLoop fuel
        { pl with mem := Function.update pl.mem c (some node.swapLinks) } node.next := by
  simp only [PlaylistEngine.reverseLoop, h, PlaylistEngine.setPrev, PlaylistEngine.setNext,
    Option.bind_eq_bind, Option.some_bind, Function.update_same, Function.update_idem,
    PlaylistNode.swapLinks]

theorem PlaylistEngine.reverseLoop_iterate (mem0 : Nat → Option PlaylistNode) (fresh : Nat)
    (hlive : ∀ a nd, mem0 a = some nd → a < fresh) :
    ∀ (k : Nat) (pl : PlaylistEngine) (S : Finset Nat) (cur : Option Nat)
      (r : PlaylistEngine), pl.mem = swappedMem mem0 S → S ⊆ Finset.range fresh →
      PlaylistEngine.reverseLoop k pl cur = some r →
      ∃ n, (∀ k1, n ≤ k1 → PlaylistEngine.reverseLoop k1 pl cur = some r) ∧
        (reverseStep mem0)^[n] (some (S, cur)) ∉ reverseSituations fresh ∧
        ∀ m, m < n → (reverseStep mem0)^[m] (some (S, cur)) ∈ reverseSituations fresh := by
  have hdone : ∀ (k : Nat) (pl : PlaylistEngine) (S : Finset Nat) (r : PlaylistEngine),
      PlaylistEngine.reverseLoop k pl none = some r →
      ∃ n, (∀ k1, n ≤ k1 → PlaylistEngine.reverseLoop k1 pl none = some r) ∧
        (reverseStep mem0)^[n] (some (S, none)) ∉ reverseSituations fresh ∧
        ∀ m, m < n → (reverseStep mem0)^[m] (some (S, none)) ∈ reverseSituations fresh := by
    intro k pl S r h
    refine ⟨0, ?_, ?_, fun m hm => absurd hm (Nat.not_lt_zero _)⟩
    · intro k1 _
      cases k1 <;> cases k <;> simpa [PlaylistEngine.reverseLoop] using h
    · simp [reverseSituations]
  intro k
  induction k with
  | zero =>
    intro pl S cur r hmem hS h
    cases cur with
    | none => exact hdone 0 pl S r h
    | some c => simp [PlaylistEngine.reverseLoop] at h
  | succ k ih =>
    intro pl S cur r hmem hS h
    cases cur with
    | none => exact hdone (k + 1) pl S r h
    | some c =>
      cases hnode : pl.mem c with
      | none => simp [PlaylistEngine.reverseLoop, hnode] at h
      | some node =>
        rw [PlaylistEngine.reverseLoop_succ k pl c node hnode] at h
        have hsw : swappedMem mem0 S c = some node := by rw [← hmem]; exact hnode
        have hc : c < fresh := by
          unfold swappedMem at hsw
          split_ifs at hsw
          · cases hm : mem0 c with
            | none => rw [hm] at hsw; simp at hsw
            | some nd => exact hlive c nd hm
          · exact hlive c node hsw
        have hS2 : (if c ∈ S then S.erase c else insert c S) ⊆ Finset.range fresh := by
          split_ifs
          · exact (Finset.erase_subset _ _).trans hS
          · exact Finset.insert_subset (Finset.mem_range.mpr hc) hS
        have hmem2 : ({ pl with mem := Function.update pl.mem c (some node.swapLinks) } :
            PlaylistEngine).mem = swappedMem mem0 (if c ∈ S then S.erase c else insert c S) := by
          rw [swappedMem_toggle mem0 S c node hsw, ← hmem]
        obtain ⟨n, hn1, hn2, hn3⟩ := ih _ _ node.next r hmem2 hS2 h
        have hstep : reverseStep mem0 (some (S, some c)) =
            some (if c ∈ S then S.erase c else insert c S, node.next) := by
          simp only [reverseStep, hsw]
        refine ⟨n + 1, ?_, ?_, ?_⟩
        · intro k1 hk1
          obtain ⟨k2, rfl⟩ : ∃ k2, k1 = k2 + 1 := ⟨k1 - 1, by omega⟩
          rw [PlaylistEngine.reverseLoop_succ k2 pl c node hnode]
          exact hn1 k2 (by omega)
        · rw [Function.iterate_succ_apply, hstep]
          exact hn2
        · intro m hm
          cases m with
          | zero =>
            simp only [Function.iterate_zero, id_eq, reverseSituations, Finset.mem_image,
              Finset.mem_product, Finset.mem_powerset, Finset.mem_range, Prod.exists]
            exact ⟨S, c, ⟨hS, hc⟩, rfl⟩
          | succ m =>
            rw [Function.iterate_succ_apply, hstep]
            exact hn3 m (by omega)

/-- The cut-off of `reverse_playlist` loses no result: on a playlist whose allocated nodes all
lie below `fresh`, whenever the loop ends after some number of iterations, it ends within
`reverseFuel` iterations with the same result. -/
theorem PlaylistEngine.reverseLoop_fuel_enough (pl : PlaylistEngine)
    (hlive : ∀ a nd, pl.mem a = some nd → a < pl.fresh) (k : Nat) (r : PlaylistEngine)
    (h : PlaylistEngine.reverseLoop k pl pl.head = some r) :
    PlaylistEngine.reverseLoop pl.reverseFuel pl pl.head = some r := by
  obtain ⟨n, hn1, hn2, hn3⟩ := PlaylistEngine.reverseLoop_iterate pl.mem pl.fresh hlive k pl ∅
    pl.head r (swappedMem_empty pl.mem).symm (Finset.empty_subset _) h
  have hle := iterate_le_card (reverseStep pl.mem) (some (∅, pl.head)) n
    (reverseSituations pl.fresh) hn2 hn3
  exact hn1 _ (le_trans hle (reverseSituations_card pl.fresh))

/-! ### Ordered sequence: the allocated nodes lie below the allocation counter -/

theorem PlaylistEngine.NoNewNodes.same (pl : PlaylistEngine) : pl.NoNewNodes pl :=
  ⟨rfl, fun _ h => h⟩

theorem PlaylistEngine.NoNewNodes.of_eq {pl pl1 : PlaylistEngine} (hf : pl1.fresh = pl.fresh)
    (hm : pl1.mem = pl.mem) : pl.NoNewNodes pl1 :=
  ⟨hf, fun a h => by rw [hm] at h; exact h⟩

theorem PlaylistEngine.NoNewNodes.then {pl pl1 pl2 : PlaylistEngine} (h1 : pl.NoNewNodes pl1)
    (h2 : pl1.NoNewNodes pl2) : pl.NoNewNodes pl2 :=
  ⟨h2.1.trans h1.1, fun a h => h1.2 a (h2.2 a h)⟩

theorem PlaylistEngine.Allocated.of_noNewNodes {pl pl1 : PlaylistEngine} (h : pl.Allocated)
    (h1 : pl.NoNewNodes pl1) : pl1.Allocated := by
  intro a nd ha
  have h2 := h1.2 a (by rw [ha]; rfl)
  obtain ⟨nd0, hnd0⟩ := Option.isSome_iff_exists.mp h2
  rw [h1.1]
  exact h a nd0 hnd0

theorem PlaylistEngine.noNewNodes_update (pl : PlaylistEngine) (a : Nat)
    (v : Option PlaylistNode) (hlive : (pl.mem a).isSome = true) (pl1 : PlaylistEngine)
    (hf : pl1.fresh = pl.fresh) (hm : pl1.mem = Function.update pl.mem a v) :
    pl.NoNewNodes pl1 := by
  refine ⟨hf, ?_⟩
  intro b hb
  rw [hm, Function.update_apply] at hb
  split_ifs at hb with hba
  · rw [hba]; exact hlive
  · exact hb

theorem PlaylistEngine.noNewNodes_setNext {pl pl1 : PlaylistEngine} {p v : Option Nat}
    (h : pl.setNext p v = some pl1) : pl.NoNewNodes pl1 := by
  simp only [PlaylistEngine.setNext, Option.bind_eq_bind, Option.bind_eq_some] at h
  obtain ⟨a, _, node, hnode, he⟩ := h
  have he := Option.some.inj he
  subst he
  exact pl.noNewNodes_update a _ (by rw [hnode]; rfl) _ rfl rfl

theorem PlaylistEngine.noNewNodes_setPrev {pl pl1 : PlaylistEngine} {p v : Option Nat}
    (h : pl.setPrev p v = some pl1) : pl.NoNewNodes pl1 := by
  simp only [PlaylistEngine.setPrev, Option.bind_eq_bind, Option.bind_eq_some] at h
  obtain ⟨a, _, node, hnode, he⟩ := h
  have he := Option.some.inj he
  subst he
  exact pl.noNewNodes_update a _ (by rw [hnode]; rfl) _ rfl rfl

theorem PlaylistEngine.noNewNodes_free {pl pl1 : PlaylistEngine} {a : Nat}
    (h : pl.free a = some pl1) : pl.NoNewNodes pl1 := by
  simp only [PlaylistEngine.free, Option.bind_eq_bind, Option.bind_eq_some] at h
  obtain ⟨node, hnode, he⟩ := h
  have he := Option.some.inj he
  subst he
  exact pl.noNewNodes_update a _ (by rw [hnode]; rfl) _ rfl rfl

theorem PlaylistEngine.noNewNodes_unlink {pl pl1 : PlaylistEngine} {c : Nat}
    (h : pl.unlink c = some pl1) : pl.NoNewNodes pl1 := by
  unfold PlaylistEngine.unlink at h
  simp only [Option.bind_eq_bind] at h
  cases hnode : pl.mem c with
  | none => rw [hnode] at h; simp at h
  | some node =>
    rw [hnode] at h
    simp only [Option.some_bind] at h
    split at h
    · simp only [Option.bind_eq_some] at h
      obtain ⟨pl2, h2, node1, _, h3⟩ := h
      refine (PlaylistEngine.noNewNodes_setNext h2).then ?_
      split at h3
      · exact PlaylistEngine.noNewNodes_setPrev h3
      · rw [← Option.some.inj h3]; exact PlaylistEngine.NoNewNodes.of_eq rfl rfl
    · simp only [Option.some_bind, Option.bind_eq_some] at h
      obtain ⟨node1, _, h3⟩ := h
      split at h3
      · have s := PlaylistEngine.noNewNodes_setPrev h3
        exact ⟨s.1, s.2⟩
      · rw [← Option.some.inj h3]; exact PlaylistEngine.NoNewNodes.of_eq rfl rfl

theorem PlaylistEngine.noNewNodes_linkFront {pl pl1 : PlaylistEngine} {n : Nat}
    (h : pl.linkFront n = some pl1) : pl.NoNewNodes pl1 := by
  unfold PlaylistEngine.linkFront at h
  simp only [Option.bind_eq_bind, Option.bind_eq_some] at h
  obtain ⟨pl3, h3, pl4, h4, h5⟩ := h
  refine ((PlaylistEngine.noNewNodes_setPrev h3).then
    (PlaylistEngine.noNewNodes_setNext h4)).then ?_
  split at h5
  · simp only [Option.bind_eq_some] at h5
    obtain ⟨pl5, h5, h6⟩ := h5
    refine (PlaylistEngine.noNewNodes_setPrev h5).then ?_
    split at h6 <;>
    · rw [← Option.some.inj h6]; exact PlaylistEngine.NoNewNodes.of_eq rfl rfl
  · simp only [Option.some_bind] at h5
    split at h5 <;>
    · rw [← Option.some.inj h5]; exact PlaylistEngine.NoNewNodes.of_eq rfl rfl

theorem PlaylistEngine.noNewNodes_linkBack {pl pl1 : PlaylistEngine} {n : Nat}
    (h : pl.linkBack n = some pl1) : pl.NoNewNodes pl1 := by
  unfold PlaylistEngine.linkBack at h
  simp only [Option.bind_eq_bind, Option.bind_eq_some] at h
  obtain ⟨pl3, h3, pl4, h4, h5⟩ := h
  refine ((PlaylistEngine.noNewNodes_setNext h3).then
    (PlaylistEngine.noNewNodes_setPrev h4)).then ?_
  split at h5
  · simp only [Option.bind_eq_some] at h5
    obtain ⟨pl5, h5, h6⟩ := h5
    refine (PlaylistEngine.noNewNodes_setNext h5).then ?_
    rw [← Option.some.inj h6]; exact PlaylistEngine.NoNewNodes.of_eq rfl rfl
  · simp only [Option.some_bind] at h5
    rw [← Option.some.inj h5]; exact PlaylistEngine.NoNewNodes.of_eq rfl rfl

theorem PlaylistEngine.noNewNodes_linkBefore {pl pl1 : PlaylistEngine} {n : Nat}
    {target : Option Nat} (h : pl.linkBefore n target = some pl1) : pl.NoNewNodes pl1 := by
  unfold PlaylistEngine.linkBefore at h
  simp only [Option.bind_eq_bind, Option.bind_eq_some] at h
  obtain ⟨pl3, h3, tnode, _, pl4, h4, tnode1, _, h5⟩ := h
  refine ((PlaylistEngine.noNewNodes_setNext h3).then
    (PlaylistEngine.noNewNodes_setPrev h4)).then ?_
  split at h5
  · simp only [Option.bind_eq_some] at h5
    obtain ⟨pl5, h5, h6⟩ := h5
    exact (PlaylistEngine.noNewNodes_setNext h5).then (PlaylistEngine.noNewNodes_setPrev h6)
  · simp only [Option.some_bind] at h5
    exact PlaylistEngine.noNewNodes_setPrev h5

theorem PlaylistEngine.noNewNodes_delete_song {pl pl1 : PlaylistEngine} {index : Int}
    {b : Bool} (h : pl.delete_song index = some (b, pl1)) : pl.NoNewNodes pl1 := by
  unfold PlaylistEngine.delete_song at h
  split at h
  · rw [← (Prod.mk.inj (Option.some.inj h)).2]; exact PlaylistEngine.NoNewNodes.same _
  · simp only [Option.bind_eq_bind, Option.bind_eq_some] at h
    obtain ⟨current, _, h⟩ := h
    split at h
    · rw [← (Prod.mk.inj (Option.some.inj h)).2]; exact PlaylistEngine.NoNewNodes.same _
    · simp only [Option.bind_eq_bind, Option.bind_eq_some] at h
      obtain ⟨pl2, h2, pl3, h3, h4⟩ := h
      rw [← (Prod.mk.inj (Option.some.inj h4)).2]
      exact ((PlaylistEngine.noNewNodes_unlink h2).then (PlaylistEngine.noNewNodes_free h3)).then
        (PlaylistEngine.NoNewNodes.of_eq rfl rfl)

theorem PlaylistEngine.noNewNodes_move_song {pl pl1 : PlaylistEngine}
    {from_index to_index : Int} {b : Bool}
    (h : pl.move_song from_index to_index = some (b, pl1)) : pl.NoNewNodes pl1 := by
  unfold PlaylistEngine.move_song at h
  split at h
  · rw [← (Prod.mk.inj (Option.some.inj h)).2]; exact PlaylistEngine.NoNewNodes.same _
  · simp only [Option.bind_eq_bind, Option.bind_eq_some] at h
    obtain ⟨found, _, h⟩ := h
    split at h
    · rw [← (Prod.mk.inj (Option.some.inj h)).2]; exact PlaylistEngine.NoNewNodes.same _
    · simp only [Option.bind_eq_bind, Option.bind_eq_some] at h
      obtain ⟨pl2, h2, h⟩ := h
      refine (PlaylistEngine.noNewNodes_unlink h2).then ?_
      split at h
      · simp only [Option.bind_eq_bind, Option.bind_eq_some] at h
        obtain ⟨pl3, h3, h4⟩ := h
        rw [← (Prod.mk.inj (Option.some.inj h4)).2]
        exact PlaylistEngine.noNewNodes_linkFront h3
      · split at h
        · simp only [Option.bind_eq_bind, Option.bind_eq_some] at h
          obtain ⟨pl3, h3, h4⟩ := h
          rw [← (Prod.mk.inj (Option.some.inj h4)).2]
          exact PlaylistEngine.noNewNodes_linkBack h3
        · simp only [Option.bind_eq_bind, Option.bind_eq_some] at h
          obtain ⟨target, _, pl3, h3, h4⟩ := h
          rw [← (Prod.mk.inj (Option.some.inj h4)).2]
          exact PlaylistEngine.noNewNodes_linkBefore h3

theorem PlaylistEngine.noNewNodes_reverseLoop :
    ∀ (fuel : Nat) (pl pl1 : PlaylistEngine) (cur : Option Nat),
      PlaylistEngine.reverseLoop fuel pl cur = some pl1 → pl.NoNewNodes pl1 := by
  intro fuel
  induction fuel with
  | zero =>
    intro pl pl1 cur h
    cases cur with
    | none =>
      simp only [PlaylistEngine.reverseLoop, Option.some.injEq] at h
      rw [← h]; exact PlaylistEngine.NoNewNodes.same _
    | some c => simp [PlaylistEngine.reverseLoop] at h
  | succ k ih =>
    intro pl pl1 cur h
    cases cur with
    | none =>
      simp only [PlaylistEngine.reverseLoop, Option.some.injEq] at h
      rw [← h]; exact PlaylistEngine.NoNewNodes.same _
    | some c =>
      cases hnode : pl.mem c with
      | none => simp [PlaylistEngine.reverseLoop, hnode] at h
      | some node =>
        rw [PlaylistEngine.reverseLoop_succ k pl c node hnode] at h
        have s1 : pl.NoNewNodes
            { pl with mem := Function.update pl.mem c (some node.swapLinks) } :=
          pl.noNewNodes_update c _ (by rw [hnode]; rfl) _ rfl rfl
        exact s1.then (ih _ _ _ h)

theorem PlaylistEngine.noNewNodes_reverse_playlist {pl pl1 : PlaylistEngine}
    (h : pl.reverse_playlist = some pl1) : pl.NoNewNodes pl1 := by
  unfold PlaylistEngine.reverse_playlist at h
  split at h
  · rw [← Option.some.inj h]; exact PlaylistEngine.NoNewNodes.same _
  · simp only [Option.bind_eq_bind, Option.bind_eq_some] at h
    obtain ⟨pl2, h2, h3⟩ := h
    rw [← Option.some.inj h3]
    exact (PlaylistEngine.noNewNodes_reverseLoop _ _ _ _ h2).then
      (PlaylistEngine.NoNewNodes.of_eq rfl rfl)

theorem PlaylistEngine.noNewNodes_clearLoop :
    ∀ (fuel : Nat) (pl pl1 : PlaylistEngine),
      PlaylistEngine.clearLoop fuel pl = some pl1 → pl.NoNewNodes pl1 := by
  intro fuel
  induction fuel with
  | zero =>
    intro pl pl1 h
    unfold PlaylistEngine.clearLoop at h
    split at h
    · rw [← Option.some.inj h]; exact PlaylistEngine.NoNewNodes.same _
    · simp at h
  | succ k ih =>
    intro pl pl1 h
    unfold PlaylistEngine.clearLoop at h
    split at h
    · rw [← Option.some.inj h]; exact PlaylistEngine.NoNewNodes.same _
    · simp only [Option.bind_eq_bind, Option.bind_eq_some] at h
      obtain ⟨node, _, pl2, h2, h3⟩ := h
      have s2 := PlaylistEngine.noNewNodes_free h2
      exact (PlaylistEngine.NoNewNodes.then ⟨s2.1, s2.2⟩ (ih _ _ h3))

theorem PlaylistEngine.noNewNodes_clear {pl pl1 : PlaylistEngine}
    (h : pl.clear = some pl1) : pl.NoNewNodes pl1 := by
  unfold PlaylistEngine.clear at h
  simp only [Option.bind_eq_bind, Option.bind_eq_some] at h
  obtain ⟨pl2, h2, h3⟩ := h
  rw [← Option.some.inj h3]
  exact (PlaylistEngine.noNewNodes_clearLoop _ _ _ h2).then
    (PlaylistEngine.NoNewNodes.of_eq rfl rfl)

theorem PlaylistEngine.Allocated.of_add_song {pl pl1 : PlaylistEngine} (ha : pl.Allocated)
    {song : SongRef} (h : pl.add_song song = some pl1) : pl1.Allocated := by
  have h0 : ({ pl with
      mem := Function.update pl.mem pl.fresh (some { song := song, next := none, prev := none }),
      fresh := pl.fresh + 1 } : PlaylistEngine).Allocated := by
    intro a nd hnd
    simp only [Function.update_apply] at hnd
    split_ifs at hnd with hx
    · rw [hx]; exact Nat.lt_succ_self _
    · exact Nat.lt_succ_of_lt (ha a nd hnd)
  unfold PlaylistEngine.add_song at h
  simp only [Option.bind_eq_bind] at h
  split at h
  · rw [← Option.some.inj h]
    exact h0.of_noNewNodes (PlaylistEngine.NoNewNodes.of_eq rfl rfl)
  · simp only [Option.bind_eq_some] at h
    obtain ⟨pl2, h2, pl3, h3, h4⟩ := h
    rw [← Option.some.inj h4]
    exact h0.of_noNewNodes (((PlaylistEngine.noNewNodes_setNext h2).then
      (PlaylistEngine.noNewNodes_setPrev h3)).then (PlaylistEngine.NoNewNodes.of_eq rfl rfl))

theorem PlaylistEngine.Allocated.of_foldlM_add_song :
    ∀ (songs : List SongRef) (pl pl1 : PlaylistEngine), pl.Allocated →
      songs.foldlM PlaylistEngine.add_song pl = some pl1 → pl1.Allocated := by
  intro songs
  induction songs with
  | nil =>
    intro pl pl1 ha h
    simp only [List.foldlM, Option.pure_def, Option.some.injEq] at h
    rw [← h]; exact ha
  | cons x rest ih =>
    intro pl pl1 ha h
    simp only [List.foldlM, Option.bind_eq_bind, Option.bind_eq_some] at h
    obtain ⟨pl2, h2, h3⟩ := h
    exact ih _ _ (ha.of_add_song h2) h3

theorem PlaylistEngine.Allocated.of_rebuildFromVector {pl pl1 : PlaylistEngine}
    (ha : pl.Allocated) {songs : List SongRef} (h : pl.rebuildFromVector songs = some pl1) :
    pl1.Allocated := by
  unfold PlaylistEngine.rebuildFromVector at h
  simp only [Option.bind_eq_bind, Option.bind_eq_some] at h
  obtain ⟨pl2, h2, h3⟩ := h
  exact PlaylistEngine.Allocated.of_foldlM_add_song _ _ _
    (ha.of_noNewNodes (PlaylistEngine.noNewNodes_clear h2)) h3

theorem PlayWiseEngine.playSong_playlist (e : PlayWiseEngine) (song_id : String) :
    (e.playSong song_id).playlist = e.playlist := by
  unfold PlayWiseEngine.playSong
  split <;> rfl

theorem PlayWiseEngine.checkAndHandlePlaylistEnd_playlist {e e1 : PlayWiseEngine} (b : Bool)
    (hc : e.checkAndHandlePlaylistEnd = some (b, e1)) : e1.playlist = e.playlist := by
  unfold PlayWiseEngine.checkAndHandlePlaylistEnd at hc
  simp only [Option.bind_eq_bind, Option.bind_eq_some] at hc
  obtain ⟨all_songs, _, hc⟩ := hc
  split at hc
  · split at hc
    · split at hc
      · rw [← (Prod.mk.inj (Option.some.inj hc)).2, PlayWiseEngine.playSong_playlist]
      · rw [← (Prod.mk.inj (Option.some.inj hc)).2]
    · rw [← (Prod.mk.inj (Option.some.inj hc)).2]
  · rw [← (Prod.mk.inj (Option.some.inj hc)).2]

theorem PlayWiseEngine.autoPlayNext_playlist {e e1 : PlayWiseEngine} (r : Option SongRef)
    (hc : e.autoPlayNext = some (r, e1)) : e1.playlist = e.playlist := by
  unfold PlayWiseEngine.autoPlayNext at hc
  simp only [Option.bind_eq_bind, Option.bind_eq_some] at hc
  obtain ⟨all_songs, _, hc⟩ := hc
  split at hc
  · rw [← (Prod.mk.inj (Option.some.inj hc)).2, PlayWiseEngine.playSong_playlist]
  · split at hc
    · rw [← (Prod.mk.inj (Option.some.inj hc)).2]
    · simp only [Option.bind_eq_some] at hc
      obtain ⟨⟨ended, e2⟩, hce, hc⟩ := hc
      have h2 := PlayWiseEngine.checkAndHandlePlaylistEnd_playlist ended hce
      simp only at hc
      split at hc
      · rw [← (Prod.mk.inj (Option.some.inj hc)).2, h2]
      · split at hc
        · rw [← (Prod.mk.inj (Option.some.inj hc)).2, PlayWiseEngine.playSong_playlist, h2]
        · rw [← (Prod.mk.inj (Option.some.inj hc)).2, h2]

theorem PlayWiseEngine.allocated_step {e e1 : PlayWiseEngine} (h : e.playlist.Allocated)
    (op : EngineOp) (hs : e.step op = some e1) : e1.playlist.Allocated := by
  cases op with
  | addSong now id title artist duration rating genre =>
    simp only [PlayWiseEngine.step, Option.map_eq_some'] at hs
    obtain ⟨⟨song, e2⟩, hadd, he⟩ := hs
    simp only at he
    subst he
    unfold PlayWiseEngine.addSong at hadd
    simp only [Option.bind_eq_bind, Option.bind_eq_some] at hadd
    obtain ⟨pl1, hpl, hadd⟩ := hadd
    split_ifs at hadd
    · rw [← (Prod.mk.inj (Option.some.inj hadd)).2]
      exact h.of_add_song hpl
    · rw [← (Prod.mk.inj (Option.some.inj hadd)).2]
      exact h.of_add_song hpl
  | playSong song_id =>
    simp only [PlayWiseEngine.step, Option.some.injEq] at hs
    rw [← hs, PlayWiseEngine.playSong_playlist]
    exact h
  | skipCurrentSong =>
    simp only [PlayWiseEngine.step, Option.some.injEq] at hs
    rw [← hs]
    unfold PlayWiseEngine.skipCurrentSong
    split <;> exact h
  | autoPlayNext =>
    simp only [PlayWiseEngine.step, Option.map_eq_some'] at hs
    obtain ⟨⟨r, e2⟩, hc, he⟩ := hs
    simp only at he
    subst he
    rw [PlayWiseEngine.autoPlayNext_playlist r hc]
    exact h
  | undoLastPlay =>
    simp only [PlayWiseEngine.step, PlayWiseEngine.undoLastPlay] at hs
    split at hs
    · simp only [Option.bind_eq_bind, Option.bind_eq_some] at hs
      obtain ⟨pl1, hpl, he⟩ := hs
      rw [← Option.some.inj he]
      exact h.of_add_song hpl
    · rw [← Option.some.inj hs]
      exact h
  | sortPlaylist criteria useQuickSort =>
    cases useQuickSort <;>
    · simp only [PlayWiseEngine.step, PlayWiseEngine.sortPlaylist, Option.bind_eq_bind,
        Option.bind_eq_some, if_true, Bool.false_eq_true, if_false] at hs
      obtain ⟨songs, _, sorted, _, pl1, hpl, he⟩ := hs
      rw [← Option.some.inj he]
      exact h.of_rebuildFromVector hpl
  | move_song from_index to_index =>
    simp only [PlayWiseEngine.step, Option.map_eq_some'] at hs
    obtain ⟨⟨b, pl1⟩, hpl, he⟩ := hs
    rw [← he]
    exact h.of_noNewNodes (PlaylistEngine.noNewNodes_move_song hpl)
  | delete_song index =>
    simp only [PlayWiseEngine.step, Option.map_eq_some'] at hs
    obtain ⟨⟨b, pl1⟩, hpl, he⟩ := hs
    rw [← he]
    exact h.of_noNewNodes (PlaylistEngine.noNewNodes_delete_song hpl)
  | reverse_playlist =>
    simp only [PlayWiseEngine.step, Option.map_eq_some'] at hs
    obtain ⟨pl1, hpl, he⟩ := hs
    rw [← he]
    exact h.of_noNewNodes (PlaylistEngine.noNewNodes_reverse_playlist hpl)

theorem PlayWiseEngine.allocated_run (ops : List EngineOp) :
    ∀ {e e1 : PlayWiseEngine}, e.playlist.Allocated → e.run ops = some e1 →
      e1.playlist.Allocated := by
  induction ops with
  | nil =>
    intro e e1 h hr
    simp only [PlayWiseEngine.run, List.foldlM, Option.pure_def, Option.some.injEq] at hr
    rw [← hr]; exact h
  | cons op rest ih =>
    intro e e1 h hr
    simp only [PlayWiseEngine.run, List.foldlM, Option.bind_eq_bind, Option.bind_eq_some] at hr
    obtain ⟨e2, hs, hr⟩ := hr
    exact ih (PlayWiseEngine.allocated_step h op hs) hr

/-- In every engine state reached from the constructor, whatever shape the playlist is in,
the cut-off of `reverse_playlist` loses no result: if the loop ends after some number of
iterations, it ends within `reverseFuel` iterations with the same result. When the model of
`reverse_playlist` has no result, the loop reads a deleted node or never ends. -/
theorem PlayWiseEngine.reverse_fuel_enough (ops : List EngineOp) (e : PlayWiseEngine)
    (hrun : PlayWiseEngine.new.run ops = some e) (k : Nat) (r : PlaylistEngine)
    (h : PlaylistEngine.reverseLoop k e.playlist e.playlist.head = some r) :
    PlaylistEngine.reverseLoop e.playlist.reverseFuel e.playlist e.playlist.head = some r := by
  have hnew : PlayWiseEngine.new.playlist.Allocated := by
    intro a nd hnd
    simp [PlayWiseEngine.new, PlaylistEngine.empty] at hnd
  exact PlaylistEngine.reverseLoop_fuel_enough e.playlist
    (PlayWiseEngine.allocated_run ops hnew hrun) k r h

/-! ### Ordered sequence: the cut-offs of `getAllSongs` and `clear` -/

/-- The cut-off of `getAllSongs` loses no result: on a playlist whose allocated nodes all lie
below `fresh`, whenever the walk ends after some number of nodes, `getAllSongs` returns its
result. -/
theorem PlaylistEngine.getAllSongs_fuel_enough (pl : PlaylistEngine) (ha : pl.Allocated)
    (k : Nat) (out : List SongRef) (h : pl.collect k pl.head [] = some out) :
    pl.getAllSongs = some out := by
  obtain ⟨addrs, _, _, hchain, hmono⟩ := pl.collect_chain k pl.head [] out h
  have hnd := pl.chain_nodup addrs hchain
  have hb : ∀ a ∈ addrs, a < pl.fresh := by
    intro a hmem
    obtain ⟨j, hj⟩ := List.mem_iff_getElem?.mp hmem
    obtain ⟨nd, hnd2, _⟩ := hchain j a hj
    exact ha a nd hnd2
  exact hmono pl.fresh (length_le_of_nodup_bound addrs pl.fresh hnd hb)

theorem PlaylistEngine.clearLoop_succ (fuel : Nat) (pl : PlaylistEngine) (c : Nat)
    (node : PlaylistNode) (hh : pl.head = some c) (h : pl.mem c = some node) :
    PlaylistEngine.clearLoop (fuel + 1) pl =
      PlaylistEngine.clearLoop fuel
        { pl with head := node.next, mem := Function.update pl.mem c none } := by
  rw [PlaylistEngine.clearLoop]
  simp only [hh, h, PlaylistEngine.free, Option.bind_eq_bind, Option.some_bind]

theorem PlaylistEngine.clearLoop_iterations :
    ∀ (k : Nat) (pl r : PlaylistEngine), pl.Allocated →
      PlaylistEngine.clearLoop k pl = some r →
      ∃ n, n ≤ ((Finset.range pl.fresh).filter (fun a => (pl.mem a).isSome = true)).card ∧
        ∀ k1, n ≤ k1 → PlaylistEngine.clearLoop k1 pl = some r := by
  have hdone : ∀ (k : Nat) (pl r : PlaylistEngine), pl.head = none →
      PlaylistEngine.clearLoop k pl = some r →
      ∃ n, n ≤ ((Finset.range pl.fresh).filter (fun a => (pl.mem a).isSome = true)).card ∧
        ∀ k1, n ≤ k1 → PlaylistEngine.clearLoop k1 pl = some r := by
    intro k pl r hh h
    refine ⟨0, Nat.zero_le _, ?_⟩
    intro k1 _
    rw [PlaylistEngine.clearLoop, hh] at h ⊢
    exact h
  intro k
  induction k with
  | zero =>
    intro pl r ha h
    cases hh : pl.head with
    | none => exact hdone 0 pl r hh h
    | some c => rw [PlaylistEngine.clearLoop, hh] at h; simp at h
  | succ k ih =>
    intro pl r ha h
    cases hh : pl.head with
    | none => exact hdone (k + 1) pl r hh h
    | some c =>
      cases hnode : pl.mem c with
      | none =>
        rw [PlaylistEngine.clearLoop, hh] at h
        simp [hnode] at h
      | some node =>
        rw [PlaylistEngine.clearLoop_succ k pl c node hh hnode] at h
        have ha2 : ({ pl with head := node.next, mem := Function.update pl.mem c none } :
            PlaylistEngine).Allocated :=
          ha.of_noNewNodes (pl.noNewNodes_update c none (by rw [hnode]; rfl) _ rfl rfl)
        obtain ⟨n, hn, hmono⟩ := ih _ r ha2 h
        refine ⟨n + 1, ?_, ?_⟩
        · have hsub : (Finset.range pl.fresh).filter
              (fun a => ((Function.update pl.mem c none) a).isSome = true) ⊆
              ((Finset.range pl.fresh).filter (fun a => (pl.mem a).isSome = true)).erase c := by
            intro a hmem
            simp only [Finset.mem_filter, Finset.mem_range, Function.update_apply] at hmem
            simp only [Finset.mem_erase, Finset.mem_filter, Finset.mem_range]
            obtain ⟨h1, h2⟩ := hmem
            split_ifs at h2 with hac
            · simp at h2
            · exact ⟨hac, h1, h2⟩
          have hc : c ∈ (Finset.range pl.fresh).filter (fun a => (pl.mem a).isSome = true) := by
            simp only [Finset.mem_filter, Finset.mem_range]
            exact ⟨ha c node hnode, by rw [hnode]; rfl⟩
          have h1 := Finset.card_le_card hsub
          rw [Finset.card_erase_of_mem hc] at h1
          have h2 := Finset.card_pos.mpr ⟨c, hc⟩
          have h3 : n ≤ ((Finset.range pl.fresh).filter
              (fun a => ((Function.update pl.mem c none) a).isSome = true)).card := hn
          omega
        · intro k1 hk1
          obtain ⟨k2, rfl⟩ : ∃ k2, k1 = k2 + 1 := ⟨k1 - 1, by omega⟩
          rw [PlaylistEngine.clearLoop_succ k2 pl c node hh hnode]
          exact hmono k2 (by omega)

/-- The cut-off of `clear` loses no result: on a playlist whose allocated nodes all lie below
`fresh`, whenever the loop ends after some number of iterations, it ends within `fresh`
iterations with the same result. -/
theorem PlaylistEngine.clearLoop_fuel_enough (pl : PlaylistEngine) (ha : pl.Allocated)
    (k : Nat) (r : PlaylistEngine) (h : PlaylistEngine.clearLoop k pl = some r) :
    PlaylistEngine.clearLoop pl.fresh pl = some r := by
  obtain ⟨n, hn, hmono⟩ := PlaylistEngine.clearLoop_iterations k pl r ha h
  refine hmono pl.fresh (le_trans hn ?_)
  exact le_trans (Finset.card_filter_le _ _) (by rw [Finset.card_range])

/-- In every engine state reached from the constructor, whatever shape the playlist is in,
the cut-offs of `getAllSongs` and `clear` lose no result either. -/
theorem PlayWiseEngine.walk_fuel_enough (ops : List EngineOp) (e : PlayWiseEngine)
    (hrun : PlayWiseEngine.new.run ops = some e) :
    (∀ (k : Nat) (out : List SongRef), e.playlist.collect k e.playlist.head [] = some out →
        e.playlist.getAllSongs = some out) ∧
      ∀ (k : Nat) (r : PlaylistEngine), PlaylistEngine.clearLoop k e.playlist = some r →
        PlaylistEngine.clearLoop e.playlist.fresh e.playlist = some r := by
  have hnew : PlayWiseEngine.new.playlist.Allocated := by
    intro a nd hnd
    simp [PlayWiseEngine.new, PlaylistEngine.empty] at hnd
  have ha := PlayWiseEngine.allocated_run ops hnew hrun
  exact ⟨fun k out h => e.playlist.getAllSongs_fuel_enough ha k out h,
    fun k r h => e.playlist.clearLoop_fuel_enough ha k r h⟩

end PlayWise
